import Mathlib

/-!
mininet: address pool, link construction and topology recovery.

A shallow embedding of `pkg/pool/pool.go` and of the parts of `pkg/mn`
(`link.go`, `switch.go`, `host.go`, `scheme.go`) that build and recover a
topology, together with the properties proved about them.

Go strings are Lean `String`s; the text-level helpers work on `List Char`.
Byte slices (`net.IP`, `net.IPMask`) are lists of naturals below 256.
-/

namespace Mininet

/-! ## The parts of Go's `net` package used by `pool.go` (IPv4 text only) -/

/-- A `net.IP`: a byte slice of length 4 or 16 (`nil` is the empty list). -/
abbrev IP := List Nat

/-- A `net.IPMask`: a byte slice. -/
abbrev IPMask := List Nat

/-- The `net.IPNet` structure. -/
structure IPNet where
  IP : IP
  Mask : IPMask
deriving DecidableEq

/-- The 12 byte prefix of an IPv4 address in 16 byte form. -/
def v4InV6Prefix : List Nat := [0, 0, 0, 0, 0, 0, 0, 0, 0, 0, 0xff, 0xff]

/-- `IP.To4`: the 4 byte form of an IPv4 address, `none` for Go's `nil`. -/
def To4 (ip : IP) : Option IP :=
  if ip.length = 4 then some ip
  else if ip.length = 16 ∧ ip.take 12 = v4InV6Prefix then some (ip.drop 12)
  else none

/-- Byte-wise and of two slices of the same length. -/
def andBytes : List Nat → List Nat → List Nat
  | a :: as, b :: bs => (a &&& b) :: andBytes as bs
  | _, _ => []

/-- `IP.Mask` for a 4 byte mask; `[]` stands for the `nil` result. -/
def Mask (ip : IP) (mask : IPMask) : IP :=
  let ip1 := if mask.length = 4 ∧ ip.length = 16 ∧ ip.take 12 = v4InV6Prefix then ip.drop 12 else ip
  if ip1.length ≠ mask.length then [] else andBytes ip1 mask

/-- The loop of `CIDRMask`: `l` bytes with `n` leading one bits. -/
def cidrMaskBytes : Nat → Nat → List Nat
  | 0, _ => []
  | l + 1, n =>
    if n ≥ 8 then 0xff :: cidrMaskBytes l (n - 8)
    else (0xff - (0xff >>> n)) :: cidrMaskBytes l 0

/-- `CIDRMask(ones, 32)`; `[]` stands for `nil`. -/
def CIDRMask (ones : Nat) : IPMask :=
  if ones > 32 then [] else cidrMaskBytes 4 ones

/-- The inner loop of `simpleMaskLen`: count the leading one bits of a byte
and return what is left of the byte after shifting them out. -/
def leadingOnes : Nat → Nat → Nat × Nat
  | 0, v => (0, v)
  | fuel + 1, v =>
    if v &&& 0x80 ≠ 0 then
      let r := leadingOnes fuel ((v <<< 1) % 256)
      (r.1 + 1, r.2)
    else (0, v)

/-- `simpleMaskLen`: the number of leading ones of a canonical mask, `none`
for Go's `-1`. -/
def simpleMaskLen : IPMask → Option Nat
  | [] => some 0
  | v :: rest =>
    if v = 0xff then (simpleMaskLen rest).map (· + 8)
    else
      let r := leadingOnes 8 v
      if r.2 ≠ 0 then none
      else if rest.all (· == 0) then some r.1 else none

/-- `networkNumberAndMask` for the 4 byte masks of this program. -/
def networkNumberAndMask (n : IPNet) : Option (IP × IPMask) :=
  match To4 n.IP with
  | none => none
  | some ip => if n.Mask.length = 4 then some (ip, n.Mask) else none

/-- Whether `andBytes nn m` and `andBytes ip m` agree on every byte. -/
def sameMasked : List Nat → List Nat → List Nat → Bool
  | a :: as, m :: ms, b :: bs => (a &&& m) == (b &&& m) && sameMasked as ms bs
  | _, _, _ => true

/-- `IPNet.Contains`. -/
def Contains (n : IPNet) (ip : IP) : Bool :=
  match networkNumberAndMask n with
  | none => false
  | some (nn, m) =>
    let ip1 := (To4 ip).getD ip
    if ip1.length ≠ nn.length then false else sameMasked nn m ip1

/-- The decimal digit character of a value below 10. -/
def digitChar (d : Nat) : Char := Char.ofNat (48 + d)

/-- `ubtoa`: the decimal text of a byte. -/
def ubtoa (v : Nat) : List Char :=
  if v < 10 then [digitChar v]
  else if v < 100 then [digitChar (v / 10), digitChar (v % 10)]
  else [digitChar (v / 100), digitChar (v / 10 % 10), digitChar (v % 10)]

/-- The hexadecimal digit character of a value below 16. -/
def hexChar (d : Nat) : Char := if d < 10 then Char.ofNat (48 + d) else Char.ofNat (87 + d)

/-- `hexString`: two lower case hexadecimal digits per byte. -/
def hexString : List Nat → List Char
  | [] => []
  | b :: bs => hexChar (b / 16) :: hexChar (b % 16) :: hexString bs

/-- The dotted text of a 4 byte address. -/
def dotted : List Nat → List Char
  | [] => []
  | [b] => ubtoa b
  | b :: bs => ubtoa b ++ '.' :: dotted bs

/-- `IP.String` on the addresses this program formats: `<nil>` for the
empty slice and dotted decimal for an IPv4 address in either form. The
colon-separated text of a genuine IPv6 address does not occur (every formatted
address went through a 4 byte mask) and is left as `?` plus the hex bytes. -/
def ipChars (ip : IP) : List Char :=
  if ip.length = 0 then "<nil>".data
  else match To4 ip with
    | some p4 => dotted p4
    | none => '?' :: hexString ip

/-- `IP.String`. -/
def IPString (ip : IP) : String := String.mk (ipChars ip)

/-- `uitoa`: decimal text of an unsigned number. -/
def uitoa (n : Nat) : List Char := (Nat.toDigits 10 n)

/-- `IPNet.String` as a character list. -/
def ipNetChars (n : IPNet) : List Char :=
  match networkNumberAndMask n with
  | none => "<nil>".data
  | some (nn, m) =>
    match simpleMaskLen m with
    | none => ipChars nn ++ '/' :: hexString m
    | some l => ipChars nn ++ '/' :: uitoa l

/-- `IPNet.String`. -/
def IPNetString (n : IPNet) : String := String.mk (ipNetChars n)

/-- Whether a character is a decimal digit. -/
def isDigit (c : Char) : Bool := decide (48 ≤ c.toNat ∧ c.toNat ≤ 57)

/-- Value of a string of decimal digits, read left to right. -/
def decValue (cs : List Char) : Nat := cs.foldl (fun n c => n * 10 + (c.toNat - 48)) 0

/-- Split a text at every occurrence of a separator. -/
def splitAt (sep : Char) : List Char → List (List Char)
  | [] => [[]]
  | c :: cs =>
    if c = sep then [] :: splitAt sep cs
    else match splitAt sep cs with
      | [] => [[c]]
      | f :: fs => (c :: f) :: fs

/-- One field of `parseIPv4Fields`: at least one digit, no leading zero, value
at most 255. -/
def parseOctet (cs : List Char) : Option Nat :=
  if cs = [] then none
  else if ¬ cs.all isDigit then none
  else if cs.length > 1 ∧ cs.head? = some '0' then none
  else if decValue cs > 255 then none
  else some (decValue cs)

/-- The result of `netip.ParseAddr` on dotted IPv4 text: exactly four fields. -/
def parseIPv4 (cs : List Char) : Option (List Nat) :=
  match splitAt '.' cs with
  | [a, b, c, d] =>
    match parseOctet a, parseOctet b, parseOctet c, parseOctet d with
    | some a, some b, some c, some d => some [a, b, c, d]
    | _, _, _, _ => none
  | _ => none

/-- The prefix length of `ParseCIDR`: `dtoi` must consume the whole text and
the value must not exceed 32. -/
def parsePrefixLen (cs : List Char) : Option Nat :=
  if cs = [] then none
  else if ¬ cs.all isDigit then none
  else if decValue cs > 32 then none
  else some (decValue cs)

/-- Cut a text at its first `/`. -/
def cutSlash : List Char → Option (List Char × List Char)
  | [] => none
  | c :: cs =>
    if c = '/' then some ([], cs)
    else match cutSlash cs with
      | none => none
      | some (a, m) => some (c :: a, m)

/-- `net.ParseCIDR` on a character list, for IPv4 text (IPv6 text is not
modelled and counts as a parse error): the address in 16 byte form and the
network with its 4 byte masked address. -/
def parseCIDRChars (cs : List Char) : Option (IP × IPNet) :=
  match cutSlash cs with
  | none => none
  | some (addr, mask) =>
    match parseIPv4 addr, parsePrefixLen mask with
    | some bs, some n =>
      let m := CIDRMask n
      let ip16 := v4InV6Prefix ++ bs
      some (ip16, { IP := Mask ip16 m, Mask := m })
    | _, _ => none

/-- `net.ParseCIDR` on IPv4 text, which is what the address pool is fed;
`none` is the error result. IPv6 text, which `net.ParseCIDR` accepts as well,
has no result here: whether a text of either family is accepted is
`cidrParses`, and the pool properties are stated for seeds this function
accepts. -/
def ParseCIDR (s : String) : Option (IP × IPNet) := parseCIDRChars s.data

/-! ## pkg/pool/pool.go -/

/-- The `Pool` structure; a Go map is an association list with unique keys. -/
structure Pool where
  cache : List (String × IPNet)
  pool : List (String × Bool)
  created : Bool
  preset : Bool
deriving DecidableEq

/-- The zero value of the package variable `instance`. -/
def Pool.zero : Pool := { cache := [], pool := [], created := false, preset := false }

/-- `newPool`. -/
def newPool : Pool := { cache := [], pool := [], created := true, preset := false }

/-- Map lookup `p.cache[key]`. -/
def cacheGet (cache : List (String × IPNet)) (key : String) : Option IPNet :=
  match cache with
  | [] => none
  | (k, v) :: rest => if k = key then some v else cacheGet rest key

/-- Map assignment `p.cache[key] = v`. -/
def cacheSet (cache : List (String × IPNet)) (key : String) (v : IPNet) : List (String × IPNet) :=
  match cache with
  | [] => [(key, v)]
  | (k, w) :: rest => if k = key then (k, v) :: rest else (k, w) :: cacheSet rest key v

/-- `ThePool(args...)` acting on the package variable `instance`: the new value
of `instance` (which is also what is returned; its maps are shared), `none`
when the seed does not parse and the function panics. -/
def ThePool (inst : Pool) (arg : Option String) : Option Pool :=
  let seeded : Option Pool :=
    match arg with
    | some s =>
      if ¬ inst.created then
        match ParseCIDR s with
        | none => none
        | some (ip, ipnet) =>
          let key := Mask ip ipnet.Mask
          some { newPool with cache := cacheSet newPool.cache (IPString key) ipnet, preset := true }
      else some inst
    | none => some inst
  match seeded with
  | none => none
  | some i => if i.created = false then some newPool else some i

/-- `Pool.get`: the cursor address, its network, the cache key, and whether the
returned address is the very slice held in the returned network (it is when
the network comes from the cache, where `c.IP, c` are returned together).
`none` when `cidr` does not parse: the nil network is dereferenced. -/
def Pool.get (p : Pool) (cidr : String) : Option (IP × IPNet × String × Bool) :=
  match ParseCIDR cidr with
  | none => none
  | some (ip, ipnet) =>
    let ip1 := Mask ip ipnet.Mask
    match cacheGet p.cache (IPString ip1) with
    | some c => some (c.IP, c, IPString ip1, true)
    | none => some (ip1, ipnet, IPString ip1, false)

/-- The carry loop of `inc`, on the bytes from last to first. -/
def incRev : List Nat → List Nat
  | [] => []
  | b :: bs => if (b + 1) % 256 > 0 then (b + 1) % 256 :: bs else 0 :: incRev bs

/-- The closure `inc` of `NextCidr`: add one to the address, carrying from the
last byte towards the first. -/
def inc (ip : IP) : IP := (incRev ip.reverse).reverse

/-- `Pool.NextCidr(args...)`: the returned text and the pool afterwards; `none`
is a panic. `arg` is the single explicit argument, if any. Without one the
range loop over the map yields an arbitrary entry first; `pick` chooses it (the
source names the loop variable `k` and reads `p.cache[k]`: the network of that
entry is taken). -/
def Pool.NextCidr (p : Pool) (arg : Option String) (pick : Nat) : Option (String × Pool) :=
  let cidr : String :=
    match arg with
    | some s => s
    | none =>
      match p.cache.get? (pick % p.cache.length) with
      | some (_, ipnet) => IPNetString ipnet
      | none => ""
  match p.get cidr with
  | none => none
  | some (ip, ipnet, key, shared) =>
    -- inc(ip) works in place: a shared slice changes inside ipnet as well
    let ip1 := inc ip
    let ipnet1 : IPNet := if shared then { ipnet with IP := ip1 } else ipnet
    let reparsed : Option (IP × IPNet) :=
      if ¬ Contains ipnet1 ip1 then ParseCIDR (IPNetString ipnet1) else some (ip1, ipnet1)
    match reparsed with
    | none => none
    | some (ip2, ipnet2) =>
      let ipnet3 : IPNet := { ipnet2 with IP := ip2 }
      some (IPNetString ipnet3, { p with cache := cacheSet p.cache key ipnet3 })

/-- Successive `NextCidr` calls with the same argument: the texts returned, in
call order, and the final pool. `pick i` is the map iteration choice of call
`i`. -/
def NextCidrN (arg : Option String) (pick : Nat → Nat) : Nat → Pool → Option (List String × Pool)
  | 0, p => some ([], p)
  | n + 1, p =>
    match NextCidrN arg pick n p with
    | none => none
    | some (rs, p1) =>
      match p1.NextCidr arg (pick n) with
      | none => none
      | some (r, p2) => some (rs ++ [r], p2)

/-- The texts of `n` successive `ThePool().NextCidr()` calls after the pool was
seeded by `ThePool(seed)`. -/
def presetCidrs (seed : String) (pick : Nat → Nat) (n : Nat) : Option (List String) :=
  match ThePool Pool.zero (some seed) with
  | none => none
  | some p => (NextCidrN none pick n p).map (·.1)

/-- The texts of `n` successive `ThePool().NextCidr(prefix)` calls on a pool
created without a seed. -/
def explicitCidrs (pfx : String) (n : Nat) : Option (List String) :=
  match ThePool Pool.zero none with
  | none => none
  | some p => (NextCidrN (some pfx) (fun _ => 0) n p).map (·.1)
/-! ## Numbers and texts used to state the pool properties -/

/-- The number denoted by a byte slice read as a big-endian numeral. -/
def ipToNat (ip : List Nat) : Nat := ip.foldl (fun n b => n * 256 + b) 0

/-- The 4 byte address of a 32-bit number. -/
def natToIP4 (x : Nat) : List Nat := [x / 16777216 % 256, x / 65536 % 256, x / 256 % 256, x % 256]

/-- The text `a.b.c.d/m` of the 32-bit address `x` with prefix length `m`. -/
def cidrText (x m : Nat) : String := String.mk (dotted (natToIP4 x) ++ '/' :: uitoa m)

/-- A pool whose cache holds the single network of base `B`, prefix length `m`
and cursor `x`. -/
def poolAt (B x m : Nat) (pre : Bool) : Pool :=
  { cache := [(IPString (natToIP4 B), { IP := natToIP4 x, Mask := CIDRMask m })],
    pool := [], created := true, preset := pre }

/-- The text `NextCidr` starts from: its argument, or the network of the map
entry the range loop yields. -/
def selectCidr (p : Pool) (arg : Option String) (pick : Nat) : String :=
  match arg with
  | some s => s
  | none =>
    match p.cache.get? (pick % p.cache.length) with
    | some (_, ipnet) => IPNetString ipnet
    | none => ""

/-- The part of `NextCidr` after the text to start from has been chosen. -/
def nextFrom (p : Pool) (cidr : String) : Option (String × Pool) :=
  match p.get cidr with
  | none => none
  | some (ip, ipnet, key, shared) =>
    let ip1 := inc ip
    let ipnet1 : IPNet := if shared then { ipnet with IP := ip1 } else ipnet
    let reparsed : Option (IP × IPNet) :=
      if ¬ Contains ipnet1 ip1 then ParseCIDR (IPNetString ipnet1) else some (ip1, ipnet1)
    match reparsed with
    | none => none
    | some (ip2, ipnet2) =>
      let ipnet3 : IPNet := { ipnet2 with IP := ip2 }
      some (IPNetString ipnet3, { p with cache := cacheSet p.cache key ipnet3 })

/-- The texts expected from `n` calls on the prefix of base `B` and length `m`. -/
def expectedCidrs (B m n : Nat) : List String :=
  (List.range n).map (fun j => cidrText ((B + (j + 1)) % 2 ^ 32) m)


/-! ## `NextMac` and its helpers from Go's `net` package -/

/-- `HardwareAddr.String`: the bytes as two hexadecimal digits each, joined
by colons. -/
def hwChars : List Nat → List Char
  | [] => []
  | [b] => [hexChar (b / 16), hexChar (b % 16)]
  | b :: bs => hexChar (b / 16) :: hexChar (b % 16) :: ':' :: hwChars bs

/-- The value of a hexadecimal digit, as `xtoi` reads it. -/
def hexVal (c : Char) : Option Nat :=
  if 48 ≤ c.toNat ∧ c.toNat ≤ 57 then some (c.toNat - 48)
  else if 97 ≤ c.toNat ∧ c.toNat ≤ 102 then some (c.toNat - 97 + 10)
  else if 65 ≤ c.toNat ∧ c.toNat ≤ 70 then some (c.toNat - 65 + 10)
  else none

/-- `xtoi2(s, e)`: two hexadecimal digits, followed by the byte `e` unless the
text ends there (`e = none` stands for the byte 0). -/
def xtoi2 (s : List Char) (e : Option Char) : Option Nat :=
  match s with
  | c1 :: c2 :: rest =>
    let endOk : Bool :=
      match rest with
      | [] => true
      | c3 :: _ => some c3 == e
    if ¬ endOk then none
    else match hexVal c1, hexVal c2 with
      | some a, some b => some (a * 16 + b)
      | _, _ => none
  | _ => none

/-- The byte loop of `ParseMAC`: `n` groups taken every `step` characters. -/
def macGroups (sep : Char) : Nat → List Char → Option (List Nat)
  | 0, _ => some []
  | n + 1, s =>
    match xtoi2 s (some sep) with
    | none => none
    | some b =>
      match macGroups sep n (s.drop 3) with
      | none => none
      | some bs => some (b :: bs)

/-- The byte loop of `ParseMAC` for the dotted form: `n` groups of four
hexadecimal digits. -/
def macQuads (sep : Char) : Nat → List Char → Option (List Nat)
  | 0, _ => some []
  | n + 1, s =>
    match xtoi2 (s.take 2) none, xtoi2 (s.drop 2) (some sep) with
    | some a, some b =>
      match macQuads sep n (s.drop 5) with
      | none => none
      | some bs => some (a :: b :: bs)
    | _, _ => none

/-- `net.ParseMAC`: 6, 8 or 20 bytes written `xx:xx:...`, `xx-xx-...` or
`xxxx.xxxx. ...`; `none` is the error result. -/
def ParseMAC (str : String) : Option (List Nat) :=
  let s := str.data
  if s.length < 14 then none
  else if s.get? 2 = some ':' ∨ s.get? 2 = some '-' then
    if (s.length + 1) % 3 ≠ 0 then none
    else
      let n := (s.length + 1) / 3
      if n ≠ 6 ∧ n ≠ 8 ∧ n ≠ 20 then none
      else macGroups ((s.get? 2).getD ':') n s
  else if s.get? 4 = some '.' then
    if (s.length + 1) % 5 ≠ 0 then none
    else
      let n := 2 * (s.length + 1) / 5
      if n ≠ 6 ∧ n ≠ 8 ∧ n ≠ 20 then none
      else macQuads '.' (n / 2) s
  else none

/-- `Pool.NextMac(mac)`; `rnd` is what `rand.Read` puts into the 6 byte
buffer, `none` when it fails. -/
def Pool.NextMac (_p : Pool) (mac : String) (rnd : Option (List Nat)) : String :=
  match ParseMAC mac with
  | none => ""
  | some hw =>
    match rnd with
    | none => ""
    | some r =>
      -- buf[0] |= 2
      let buf := r.set 0 (r.getD 0 0 ||| 2)
      String.mk (hwChars [hw.getD 0 0, hw.getD 1 0, hw.getD 2 0,
        buf.getD 3 0, buf.getD 4 0, buf.getD 5 0])

/-! ## pkg/mn: links, nodes -/

/-- The `Route` structure. -/
structure Route where
  Dst : String
  Gw : String
deriving DecidableEq

/-- The `Peer` structure. -/
structure Peer where
  Name : String
  IfName : String
  NodeName : String
deriving DecidableEq

/-- The `Link` structure. -/
structure Link where
  Cidr : String
  HwAddr : String
  Name : String
  NodeName : String
  NetNs : String
  State : String
  Routes : List Route
  PeerName : String
  Peer : Peer
  patch : Bool
  ForceRoot : Bool
deriving DecidableEq

/-- The zero value `Link{}`. -/
def Link.zero : Link :=
  { Cidr := "", HwAddr := "", Name := "", NodeName := "", NetNs := "", State := "",
    Routes := [], PeerName := "", Peer := { Name := "", IfName := "", NodeName := "" },
    patch := false, ForceRoot := false }

/-- The `Pair` structure. -/
structure Pair where
  Left : Link
  Right : Link
deriving DecidableEq

/-- The `Process` structure; `Handle` is the embedded `*os.Process`, given by
its pid, `none` for nil. -/
structure Process where
  Handle : Option Int
  Command : String
  Args : List String
  Output : String
deriving DecidableEq

/-- The `Cgroup` structure, with the names of its controllers. -/
structure Cgroup where
  Name : String
  Controllers : List String
deriving DecidableEq

/-- The `Host` structure; `netns` is the name held by the `*NetNs`, `none`
for nil. -/
structure Host where
  Cgroup : Option Cgroup
  Name : String
  netns : Option String
  Links : List Link
  Procs : List Process
deriving DecidableEq

/-- The `Switch` structure. -/
structure Switch where
  Name : String
  Ports : List Link
  Controller : String
deriving DecidableEq

/-- The two implementations of the `Node` interface. -/
inductive Node where
  | host (h : Host)
  | switch (s : Switch)
deriving DecidableEq

/-- `NodeName()`. -/
def Node.NodeName : Node → String
  | .host h => h.Name
  | .switch s => s.Name

/-- `NetNs()`: the namespace name, `none` for a nil `*NetNs`. -/
def Node.NetNs : Node → Option String
  | .host h => h.netns
  | .switch _ => none

/-- `LinksCount()`. -/
def Node.LinksCount : Node → Nat
  | .host h => h.Links.length
  | .switch s => s.Ports.length

/-- `GetLinks()`. -/
def Node.GetLinks : Node → List Link
  | .host h => h.Links
  | .switch s => s.Ports

/-- Whether the node is a `*Switch`. -/
def Node.isSwitch : Node → Bool
  | .host _ => false
  | .switch _ => true

/-- What link construction reads from outside the `mn` package: the pool
singleton, the interfaces of the machine (`none` when `net.Interfaces` fails),
the random source (`rand i` is what the `i`-th `rand.Read` delivers) and the
order in which the pool's map is ranged over. -/
structure Env where
  inst : Pool
  interfaces : Option (List (List Nat))
  rand : Nat → Option (List Nat)
  randCalls : Nat
  pick : Nat → Nat
  pickCalls : Nat

/-- `firstrealhw().HardwareAddr`. -/
def firstrealhw (interfaces : Option (List (List Nat))) : List Nat :=
  match interfaces with
  | none => [0, 0, 0, 0, 0, 0]
  | some ifs =>
    match ifs.find? (fun hw => String.mk (hwChars hw) ≠ "") with
    | some hw => hw
    | none => [0, 0, 0, 0, 0, 0]

/-- `Link.SetCidr`; `none` when `NextCidr` panics. -/
def Link.SetCidr (l : Link) (env : Env) : Option (Link × Env) :=
  if l.Cidr = "" then
    match ThePool env.inst none with
    | none => none
    | some p =>
      match p.NextCidr none (env.pick env.pickCalls) with
      | none => none
      | some (c, p1) =>
        some ({ l with Cidr := c }, { env with inst := p1, pickCalls := env.pickCalls + 1 })
  else some (l, env)

/-- `Link.SetHwAddr`: `rand.Read` is reached only when the seed address parses. -/
def Link.SetHwAddr (l : Link) (env : Env) : Option (Link × Env) :=
  if l.HwAddr = "" then
    match ThePool env.inst none with
    | none => none
    | some p =>
      let mac := String.mk (hwChars (firstrealhw env.interfaces))
      some ({ l with HwAddr := p.NextMac mac (env.rand env.randCalls) },
        { env with inst := p,
                   randCalls := if (ParseMAC mac).isSome then env.randCalls + 1 else env.randCalls })
  else some (l, env)

/-- `Link.SetName(n, pfx)`. -/
def Link.SetName (l : Link) (n : Node) (pfx : String) : Link :=
  if l.Name ≠ "" then l
  else if l.NetNs ≠ "" then { l with Name := "veth" ++ String.mk (uitoa n.LinksCount) }
  else { l with Name := n.NodeName ++ "-" ++ pfx ++ String.mk (uitoa n.LinksCount) }

/-- `Link.SetNodeName` (the source ends in `return s`, read as returning the
link `l`). -/
def Link.SetNodeName (l : Link) (n : Node) : Link :=
  if l.NodeName = "" then { l with NodeName := n.NodeName } else l

/-- `Link.SetNetNs`. -/
def Link.SetNetNs (l : Link) (n : Node) : Link :=
  if l.NetNs = "root" then { l with NetNs := "" }
  else
    match n.NetNs with
    | some name => if l.NetNs = "" then { l with NetNs := name } else l
    | none => l

/-- `Link.SetState`. -/
def Link.SetState (l : Link) (s : String) : Link := { l with State := s }

/-- `Link.SetRoute`. -/
def Link.SetRoute (l : Link) : Link := l

/-- `Link.SetPeer`. -/
def Link.SetPeer (l : Link) (other : Link) : Link :=
  { l with Peer := { IfName := other.Name, NodeName := other.NodeName, Name := other.Name } }

/-- `Link.SetPatch`. -/
def Link.SetPatch (l : Link) : Link :=
  if ¬ l.ForceRoot then { l with patch := true } else l

/-- `Pair.IsPatch`. -/
def Pair.IsPatch (pr : Pair) : Bool := pr.Left.patch

/-- The host-involving branch of `NewLink` for one side:
`SetCidr().SetHwAddr().SetNetNs(own).SetName(namer, "eth").SetNodeName(own).SetState("DOWN").SetRoute()`. -/
def hostSide (l : Link) (own namer : Node) (env : Env) : Option (Link × Env) :=
  match l.SetCidr env with
  | none => none
  | some (l1, env1) =>
    match l1.SetHwAddr env1 with
    | none => none
    | some (l2, env2) =>
      some (Link.SetRoute ((((l2.SetNetNs own).SetName namer "eth").SetNodeName own).SetState
        "DOWN"), env2)

/-- `NewLink(left, right, refs...)`; `none` when the address pool panics. -/
def NewLink (env : Env) (left right : Node) (refs : List Link) : Option (Pair × Env) :=
  let result : Pair :=
    match refs with
    | [a] => { Left := a, Right := Link.zero }
    | [a, b] => { Left := a, Right := b }
    | _ => { Left := Link.zero, Right := Link.zero }
  let filled : Option (Pair × Env) :=
    if left.isSwitch ∧ right.isSwitch then
      some ({ Left := ((result.Left.SetNodeName left).SetName left "pp").SetPatch,
              Right := ((result.Right.SetNodeName right).SetName right "pp").SetPatch }, env)
    else
      match hostSide result.Left left right env with
      | none => none
      | some (l, env1) =>
        match hostSide result.Right right right env1 with
        | none => none
        | some (r, env2) => some ({ Left := l, Right := r }, env2)
  match filled with
  | none => none
  | some (pr, env1) =>
    let left1 := pr.Left.SetPeer pr.Right
    let right1 := pr.Right.SetPeer left1
    some ({ Left := left1, Right := right1 }, env1)

/-- `Links.LinkByPeer`. -/
def LinkByPeer (ls : List Link) (peer : Peer) : Link :=
  match ls with
  | [] => Link.zero
  | link :: rest =>
    if link.NodeName = peer.NodeName ∧ link.Name = peer.IfName then link else LinkByPeer rest peer

/-! ## Whether `net.ParseCIDR` accepts a text, for both address families -/

/-- The run of hexadecimal digits at the start of a text, and the rest. -/
def hexRun : List Char → List Char × List Char
  | [] => ([], [])
  | c :: cs =>
    if (hexVal c).isSome then
      let r := hexRun cs
      (c :: r.1, r.2)
    else ([], c :: cs)

/-- What `netip.parseIPv6` checks once its loop is left with `i` bytes filled:
the whole text is used, and `::` was met exactly when groups are missing. -/
def ipv6Done (i : Nat) (ellipsis : Bool) (s : List Char) : Bool :=
  s.isEmpty && (if i < 16 then ellipsis else !ellipsis)

/-- The loop of `netip.parseIPv6` as far as acceptance goes: `i` bytes are
filled, `ellipsis` tells whether `::` was met, `s` is the text left. Every round
fills two bytes, so eight rounds (`fuel`) suffice. A group has one to four
hexadecimal digits; a group followed by `.` starts a trailing IPv4 address,
which must fill the last four bytes. -/
def ipv6Loop : Nat → Nat → Bool → List Char → Bool
  | 0, i, ellipsis, s => ipv6Done i ellipsis s
  | fuel + 1, i, ellipsis, s =>
    if i ≥ 16 then ipv6Done i ellipsis s
    else
      let g := hexRun s
      if g.1.length = 0 ∨ g.1.length > 4 then false
      else if g.2.head? = some '.' then
        if ¬ ellipsis ∧ i ≠ 12 then false
        else if i + 4 > 16 then false
        else if (parseIPv4 s).isSome then ipv6Done (i + 4) ellipsis [] else false
      else
        match g.2 with
        | [] => ipv6Done (i + 2) ellipsis []
        | c :: rest =>
          if c ≠ ':' then false
          else
            match rest with
            | [] => false
            | d :: rest1 =>
              if d = ':' then
                if ellipsis then false
                else if rest1.isEmpty then ipv6Done (i + 2) true []
                else ipv6Loop fuel (i + 2) true rest1
              else ipv6Loop fuel (i + 2) ellipsis (d :: rest1)

/-- Whether `netip.parseIPv6` accepts a text without a zone. -/
def parseIPv6Ok (s : List Char) : Bool :=
  match s with
  | ':' :: ':' :: rest => if rest.isEmpty then true else ipv6Loop 8 0 true rest
  | _ => ipv6Loop 8 0 false s

/-- The first of the characters `.`, `:` and `%` in a text, which is what
`netip.ParseAddr` decides the address family by. -/
def firstMark : List Char → Option Char
  | [] => none
  | c :: cs => if c = '.' ∨ c = ':' ∨ c = '%' then some c else firstMark cs

/-- The bit length of the address `netip.ParseAddr` reads from a text, as
`ParseCIDR` uses it: 32 for dotted IPv4 text, 128 for IPv6 text; `none` when
the text does not parse or names a zone, which `ParseCIDR` refuses. -/
def addrBitLen (addr : List Char) : Option Nat :=
  match firstMark addr with
  | some '.' => if (parseIPv4 addr).isSome then some 32 else none
  | some ':' => if addr.contains '%' then none else if parseIPv6Ok addr then some 128 else none
  | _ => none

/-- The prefix length test of `ParseCIDR`: `dtoi` must read at least one digit
and consume the whole text, and the value must not exceed the bit length. -/
def prefixLenOk (cs : List Char) (bits : Nat) : Bool :=
  !cs.isEmpty && cs.all isDigit && decide (decValue cs ≤ bits)

/-- Whether `net.ParseCIDR(s)` returns without error, for IPv4 and IPv6
text. -/
def cidrParses (s : String) : Bool :=
  match cutSlash s.data with
  | none => false
  | some (addr, mask) =>
    match addrBitLen addr with
    | none => false
    | some bits => prefixLenOk mask bits

/-! ## The operating system behind `RunCommand` and process start -/

/-- A command line: the program followed by its arguments. -/
abbrev Cmd := List String

/-- What has happened so far: every command run, oldest first, with whether it
succeeded, and every command line handed to `os.StartProcess`. -/
structure World where
  log : List (Cmd × Bool)
  started : List (List String)

/-- The empty history. -/
def World.init : World := { log := [], started := [] }

/-- The machine the program runs on. `run` answers `RunCommand` (combined
output, and whether the error is nil) from the commands run so far;
`start` answers `os.StartProcess` with the pid, `none` on error; `fullPath`
is `FullPathFor`; `nanosecond` is `time.Now().Nanosecond()`. -/
structure OS where
  run : List (Cmd × Bool) → Cmd → String × Bool
  start : World → List String → Option Int
  fullPath : String → String
  nanosecond : World → Nat

/-- `RunCommand(cmd, args...)`. -/
def RunCommand (os : OS) (w : World) (cmd : Cmd) : (String × Bool) × World :=
  let r := os.run w.log cmd
  (r, { w with log := w.log ++ [(cmd, r.2)] })

/-- The errors of the `mn` package that recovery can meet. -/
inductive Err where
  | command (cmd : Cmd) (out : String)
  | cantFindHost (name : String)
  | cantFindHostNode (name : String)
  | wrapped (stage : String) (e : Err)
  | ipNotFound
  | atoi (text : String)
  | startProcess (cmd : List String)
deriving DecidableEq

/-- Prefix a command with `ip netns exec <ns>` when the link has a namespace. -/
def inNetNs (netns : String) (cmd : Cmd) : Cmd :=
  if netns ≠ "" then ["ip", "netns", "exec", netns] ++ cmd else cmd

/-- `Link.Exists`. -/
def Link.Exists (os : OS) (l : Link) (w : World) : Bool × World :=
  let r := RunCommand os w ["ip", "link", "show", l.Name]
  (r.1.2, r.2)

/-- `Link.MoveToNs`. -/
def Link.MoveToNs (os : OS) (l : Link) (netns : String) (w : World) : Option Err × World :=
  let cmd := ["ip", "link", "set", l.Name, "netns", netns]
  let r := RunCommand os w cmd
  if r.1.2 then (none, r.2) else (some (.command cmd r.1.1), r.2)

/-- `Link.Up`. -/
def Link.Up (os : OS) (l : Link) (w : World) : Option Err × World :=
  let cmd := inNetNs l.NetNs ["ip", "link", "set", l.Name, "up"]
  let r := RunCommand os w cmd
  if r.1.2 then (none, r.2) else (some (.command cmd r.1.1), r.2)

/-- `Link.ApplyCidr`: nothing is run when `net.ParseCIDR` returns an error for
the address, whichever the address family. -/
def Link.ApplyCidr (os : OS) (l : Link) (w : World) : Option Err × World :=
  if ¬ cidrParses l.Cidr then (none, w)
  else
    let cmd := inNetNs l.NetNs ["ip", "addr", "add", l.Cidr, "dev", l.Name]
    let r := RunCommand os w cmd
    if r.1.2 then (none, r.2) else (some (.command cmd r.1.1), r.2)

/-- The loop of `Link.ApplyRoutes`. -/
def applyRoutes (os : OS) (netns : String) : List Route → World → Option Err × World
  | [], w => (none, w)
  | route :: rest, w =>
    let cmd := inNetNs netns ["route", "add", "-net", route.Dst, "gw", route.Gw]
    let r := RunCommand os w cmd
    if r.1.2 then applyRoutes os netns rest r.2 else (some (.command cmd r.1.1), r.2)

/-- `Link.ApplyRoutes`. -/
def Link.ApplyRoutes (os : OS) (l : Link) (w : World) : Option Err × World :=
  applyRoutes os l.NetNs l.Routes w

/-- `Pair.Create`. -/
def Pair.Create (os : OS) (pr : Pair) (w : World) : Option Err × World :=
  let base := ["link", "add", "name", pr.Left.Name, "type", "veth", "peer", "name", pr.Right.Name]
  let command := if pr.Right.NetNs ≠ "" then base ++ ["netns", pr.Right.NetNs] else base
  let r := RunCommand os w ("ip" :: command)
  if ¬ r.1.2 then (some (.command ("ip" :: command) r.1.1), r.2)
  else if pr.Left.NetNs ≠ "" then pr.Left.MoveToNs os pr.Left.NetNs r.2
  else (none, r.2)

/-- `Pair.Up`: the pair returned, the error and the history. -/
def Pair.Up (os : OS) (pr : Pair) (w : World) : (Pair × Option Err) × World :=
  if pr.Left.patch then ((pr, none), w)
  else
    match pr.Left.ApplyCidr os w with
    | (some e, w1) => ((pr, some (.wrapped "Unable to Left.ApplyCidr, error:" e)), w1)
    | (none, w1) =>
      match pr.Right.ApplyCidr os w1 with
      | (some e, w2) => ((pr, some (.wrapped "Unable to Right.ApplyCidr, error:" e)), w2)
      | (none, w2) =>
        match pr.Left.Up os w2 with
        | (some e, w3) => ((pr, some (.wrapped "Unable to Left.Up(), error:" e)), w3)
        | (none, w3) =>
          match pr.Right.Up os w3 with
          | (some e, w4) => ((pr, some (.wrapped "Unable to Right.Up(), error:" e)), w4)
          | (none, w4) =>
            match pr.Right.ApplyRoutes os w4 with
            | (some e, w5) => ((pr, some (.wrapped "Unable to ApplyRoutes(), error:" e)), w5)
            | (none, w5) =>
              (({ Left := pr.Left.SetState "UP", Right := pr.Right.SetState "UP" }, none), w5)

/-- `Switch.AddPort`. -/
def Switch.AddPort (os : OS) (s : Switch) (l : Link) (w : World) : Option Err × Switch × World :=
  let cmd := ["ovs-vsctl", "add-port", s.Name, l.Name]
  let r := RunCommand os w cmd
  if ¬ r.1.2 then (some (.command cmd r.1.1), s, r.2)
  else (none, { s with Ports := s.Ports ++ [l] }, r.2)

/-- `Switch.AddPatchPort`. -/
def Switch.AddPatchPort (os : OS) (s : Switch) (l : Link) (w : World) :
    Option Err × Switch × World :=
  let c1 := ["ovs-vsctl", "add-port", s.Name, l.Name]
  let r1 := RunCommand os w c1
  if ¬ r1.1.2 then (some (.command c1 r1.1.1), s, r1.2)
  else
    let c2 := ["ovs-vsctl", "set", "interface", l.Name, "type=patch"]
    let r2 := RunCommand os r1.2 c2
    if ¬ r2.1.2 then (some (.command c2 r2.1.1), s, r2.2)
    else
      let c3 := ["ovs-vsctl", "set", "interface", l.Name, "options:peer=" ++ l.Peer.Name]
      let r3 := RunCommand os r2.2 c3
      if ¬ r3.1.2 then (some (.command c3 r3.1.1), s, r3.2)
      else (none, { s with Ports := s.Ports ++ [l.SetState "UP"] }, r3.2)

/-- `Switch.AddLink`. -/
def Switch.AddLink (os : OS) (s : Switch) (l : Link) (w : World) : Option Err × Switch × World :=
  if l.patch then s.AddPatchPort os l w else s.AddPort os l w

/-- `Host.AddLink`. -/
def Host.AddLink (h : Host) (l : Link) : Host := { h with Links := h.Links ++ [l] }

/-! ## pkg/mn/scheme.go: the declared topology and its recovery -/

/-- The `Scheme` structure; `pairs` lists the keys the map holds as true.
The maps and node pointers of a `Scheme` value are shared with its copies, so
the methods below return the scheme as their calls leave it. -/
structure Scheme where
  Switches : List Switch
  Hosts : List Host
  pairs : List String
deriving DecidableEq

/-- A node of the scheme, as the pointer `GetNode` returns: its position in
`Hosts` or in `Switches`. -/
inductive NodeRef where
  | host (i : Nat)
  | switch (i : Nat)
deriving DecidableEq

/-- Position of the first element satisfying `p`. -/
def firstIndex {α : Type} (p : α → Bool) : List α → Option Nat
  | [] => none
  | x :: xs => if p x then some 0 else (firstIndex p xs).map (· + 1)

/-- `Scheme.GetHost`. -/
def Scheme.GetHost (s : Scheme) (name : String) : Option Nat :=
  firstIndex (fun h : Host => h.Name = name) s.Hosts

/-- `Scheme.GetSwitch`. -/
def Scheme.GetSwitch (s : Scheme) (name : String) : Option Nat :=
  firstIndex (fun sw : Switch => sw.Name = name) s.Switches

/-- `Scheme.GetNode`. -/
def Scheme.GetNode (s : Scheme) (name : String) : Option NodeRef :=
  match s.GetHost name with
  | some i => some (.host i)
  | none =>
    match s.GetSwitch name with
    | some i => some (.switch i)
    | none => none

/-- `GetLinks()` of the node a reference points to. -/
def Scheme.linksOf (s : Scheme) : NodeRef → List Link
  | .host i => (s.Hosts.get? i).elim [] (·.Links)
  | .switch i => (s.Switches.get? i).elim [] (·.Ports)

/-- `NodeName()` of the node a reference points to. -/
def Scheme.nameOf (s : Scheme) : NodeRef → String
  | .host i => (s.Hosts.get? i).elim "" (·.Name)
  | .switch i => (s.Switches.get? i).elim "" (·.Name)

/-- Call `AddPatchPort` on the switch at position `i`; the error is returned
for the caller to use or drop. -/
def Scheme.addPatchPortAt (os : OS) (s : Scheme) (i : Nat) (l : Link) (w : World) :
    Option Err × Scheme × World :=
  match s.Switches.get? i with
  | none => (none, s, w)
  | some sw =>
    let r := sw.AddPatchPort os l w
    (r.1, { s with Switches := s.Switches.set i r.2.1 }, r.2.2)

/-- Call `AddLink` on the switch at position `i`. -/
def Scheme.addLinkAt (os : OS) (s : Scheme) (i : Nat) (l : Link) (w : World) :
    Option Err × Scheme × World :=
  match s.Switches.get? i with
  | none => (none, s, w)
  | some sw =>
    let r := sw.AddLink os l w
    (r.1, { s with Switches := s.Switches.set i r.2.1 }, r.2.2)

/-- Call `AddLink` on the host at position `i`. -/
def Scheme.hostAddLinkAt (s : Scheme) (i : Nat) (l : Link) : Scheme :=
  match s.Hosts.get? i with
  | none => s
  | some h => { s with Hosts := s.Hosts.set i (h.AddLink l) }

/-- `s.pairs[hash] = true`. -/
def Scheme.record (s : Scheme) (hash : String) : Scheme :=
  if hash ∈ s.pairs then s else { s with pairs := s.pairs ++ [hash] }

/-- The loop of `Scheme.recoverSwitchPorts` for the switch at position `i`,
over the ports it had when the loop started. -/
def recoverSwitchPortsLoop (os : OS) (i : Nat) :
    List Link → Scheme → World → Option Err × Scheme × World
  | [], s, w => (none, s, w)
  | port :: rest, s, w =>
    match port.Exists os w with
    | (true, w1) => recoverSwitchPortsLoop os i rest s w1
    | (false, w1) =>
      match s.GetNode port.Peer.NodeName with
      | none => (some (.cantFindHost port.Peer.NodeName), s, w1)
      | some peer =>
        let link := LinkByPeer (s.linksOf peer) port.Peer
        let pair : Pair := { Left := port, Right := link }
        let hash := port.Name ++ "-" ++ link.Name
        if hash ∈ s.pairs then recoverSwitchPortsLoop os i rest s w1
        else
          match s.GetSwitch (s.nameOf peer) with
          | some j =>
            -- patch link: both results of AddPatchPort are dropped, then `continue`
            let r1 := s.addPatchPortAt os i pair.Left w1
            let r2 := r1.2.1.addPatchPortAt os j pair.Right r1.2.2
            recoverSwitchPortsLoop os i rest r2.2.1 r2.2.2
          | none =>
            match pair.Create os w1 with
            | (some e, w2) => (some e, s, w2)
            | (none, w2) =>
              match s.addLinkAt os i pair.Left w2 with
              | (some e, s1, w3) => (some e, s1, w3)
              | (none, s1, w3) =>
                match pair.Up os w3 with
                | ((_, some e), w4) => (some e, s1, w4)
                | ((_, none), w4) => recoverSwitchPortsLoop os i rest (s1.record hash) w4

/-- `Scheme.recoverSwitchPorts(sw)` for the switch at position `i`. -/
def Scheme.recoverSwitchPorts (os : OS) (s : Scheme) (i : Nat) (w : World) :
    Option Err × Scheme × World :=
  recoverSwitchPortsLoop os i (s.linksOf (.switch i)) s w

/-- The loop of `Scheme.recoverHostLinks` for the host at position `i`, over
the links it had when the loop started. -/
def recoverHostLinksLoop (os : OS) (i : Nat) :
    List Link → Scheme → World → Option Err × Scheme × World
  | [], s, w => (none, s, w)
  | left :: rest, s, w =>
    match s.GetHost left.Peer.NodeName with
    | none => recoverHostLinksLoop os i rest s w
    | some j =>
      let right := LinkByPeer (s.linksOf (.host j)) left.Peer
      if right.NodeName = "" then recoverHostLinksLoop os i rest s w
      else
        let pair : Pair := { Left := left, Right := right }
        let hash := left.NodeName ++ left.Name ++ right.NodeName ++ right.Name
        if hash ∈ s.pairs then recoverHostLinksLoop os i rest s w
        else
          match pair.Create os w with
          | (some e, w1) => (some e, s, w1)
          | (none, w1) =>
            match pair.Up os w1 with
            | ((_, some e), w2) => (some e, s, w2)
            | ((_, none), w2) =>
              let s1 := s.hostAddLinkAt i left
              match s1.GetHost right.NodeName with
              | none => (some (.cantFindHostNode right.NodeName), s1, w2)
              | some k =>
                recoverHostLinksLoop os i rest ((s1.hostAddLinkAt k right).record hash) w2

/-- `Scheme.recoverHostLinks(h)` for the host at position `i`. -/
def Scheme.recoverHostLinks (os : OS) (s : Scheme) (i : Nat) (w : World) :
    Option Err × Scheme × World :=
  recoverHostLinksLoop os i (s.linksOf (.host i)) s w

/-! ## pkg/mn/process.go and the process part of host.go -/

/-- Join texts with a separator, as `strings.Join`. -/
def joinWith (sep : String) : List String → String
  | [] => ""
  | [a] => a
  | a :: rest => a ++ sep ++ joinWith sep rest

/-- Drop the leading occurrences of a character. -/
def trimLeft (c : Char) : List Char → List Char
  | [] => []
  | x :: xs => if x = c then trimLeft c xs else x :: xs

/-- `strings.Trim(s, c)` for a one character cutset. -/
def trimChar (c : Char) (s : List Char) : List Char :=
  (trimLeft c (trimLeft c s).reverse).reverse

/-- `strings.TrimRight(s, c)` for a one character cutset. -/
def trimRight (c : Char) (s : List Char) : List Char :=
  (trimLeft c s.reverse).reverse

/-- `strconv.Atoi`: an optional sign and decimal digits, within the range of a
64-bit integer; `none` is the error result. -/
def Atoi (s : List Char) : Option Int :=
  let body : List Char :=
    match s with
    | '+' :: r => r
    | '-' :: r => r
    | r => r
  let neg : Bool := s.head? = some '-'
  if body = [] then none
  else if ¬ body.all isDigit then none
  else
    let v := decValue body
    if neg then (if v > 2 ^ 63 then none else some (- (v : Int)))
    else (if v ≥ 2 ^ 63 then none else some (v : Int))

/-- `strconv.Itoa`. -/
def Itoa (n : Int) : List Char :=
  if n < 0 then '-' :: uitoa n.natAbs else uitoa n.natAbs

/-- `netnsByPid`. -/
def netnsByPid (os : OS) (pid : Int) (w : World) : String × World :=
  let r := RunCommand os w ["ip", "netns", "identify", String.mk (Itoa pid)]
  if ¬ r.1.2 then ("", r.2) else (String.mk (trimChar '\n' r.1.1.data), r.2)

/-- The loop of `findProcessByName` over the lines of the process table. -/
def findInLines (os : OS) (name netns : String) :
    List (List Char) → World → Except Err (Option Int) × World
  | [], w => (.ok none, w)
  | line :: rest, w =>
    match splitAt ',' line with
    | [p0, p1] =>
      if String.mk p1 ≠ name then findInLines os name netns rest w
      else
        match Atoi (trimChar ' ' p0) with
        | none => (.error (.atoi (String.mk (trimChar ' ' p0))), w)
        | some pid =>
          let r := netnsByPid os pid w
          if netns = r.1 then (.ok (some pid), r.2) else findInLines os name netns rest r.2
    | _ => findInLines os name netns rest w

/-- `Process.findProcessByName(netns)`: the pid of the process found, `none`
for nil. -/
def Process.findProcessByName (os : OS) (p : Process) (netns : String) (w : World) :
    Except Err (Option Int) × World :=
  let cmd := ["ps", "-A", "-eo", "%p,%a"]
  let r := RunCommand os w cmd
  if ¬ r.1.2 then (.error (.command cmd r.1.1), r.2)
  else
    let name := p.Command ++ " " ++ joinWith " " p.Args
    findInLines os name netns (splitAt '\n' r.1.1.data) r.2

/-- `Cgroup.CgExecCommand`. -/
def Cgroup.CgExecCommand (os : OS) (c : Cgroup) : List String :=
  let groups := joinWith "" (c.Controllers.map (fun _ => c.Name ++ ","))
  [os.fullPath "cgexec", "-g", String.mk (trimRight ',' groups.data) ++ ":" ++ c.Name]

/-- `Host.runProcess(args...)` for a non-empty `args`: the new process. Waiting
for the child to exit happens in a goroutine of its own and is not part of
this function's result. -/
def Host.runProcess (os : OS) (h : Host) (args : List String) (w : World) :
    Except Err Process × World :=
  let command0 : List String := (h.Cgroup.map (·.CgExecCommand os)).getD []
  let ipCmd := os.fullPath "ip"
  if ipCmd = "" then (.error .ipNotFound, w)
  else
    let command1 :=
      match h.netns with
      | some name => command0 ++ [ipCmd, "netns", "exec", name]
      | none => command0
    let command := command1 ++ args
    let fname := "/tmp/output." ++ String.mk (uitoa (os.nanosecond w))
    let w1 : World := { w with started := w.started ++ [command] }
    match os.start w command with
    | none => (.error (.startProcess command), w1)
    | some pid =>
      (.ok { Handle := some pid, Command := args.headD "", Args := args.tail, Output := fname },
        w1)

/-- How a call ends: with a nil error, with an error, or in a panic. -/
inductive Outcome where
  | nil
  | error (e : Err)
  | panic
deriving DecidableEq

/-- The loop of `Host.recoverProcs` from position `k` on, over the processes
declared when the loop started. -/
def recoverProcsLoop (os : OS) (k : Nat) : List Process → Host → World → Outcome × Host × World
  | [], h, w => (.nil, h, w)
  | proc :: rest, h, w =>
    match h.netns with
    | none => (.panic, h, w)
    | some ns =>
      match proc.findProcessByName os ns w with
      | (.error e, w1) => (.error e, h, w1)
      | (.ok (some pid), w1) =>
        -- proc.Process = p, through the pointer held in h.Procs
        let h1 : Host := { h with Procs := h.Procs.modify (fun q => { q with Handle := some pid }) k }
        recoverProcsLoop os (k + 1) rest h1 w1
      | (.ok none, w1) =>
        match h.runProcess os (proc.Command :: proc.Args) w1 with
        | (.error e, w2) => (.error e, h, w2)
        | (.ok result, w2) =>
          let h1 : Host :=
            { h with Procs := h.Procs.modify (fun q => { q with Handle := result.Handle }) k }
          recoverProcsLoop os (k + 1) rest h1 w2

/-- `Host.recoverProcs`. -/
def Host.recoverProcs (os : OS) (h : Host) (w : World) : Outcome × Host × World :=
  recoverProcsLoop os 0 h.Procs h w

/-- The first loop of `Scheme.Recover` over the switches from position `i`
on: the error of `recoverSwitchPorts` is dropped. -/
def recoverSwitches (os : OS) : Nat → Nat → Scheme → World → Scheme × World
  | 0, _, s, w => (s, w)
  | n + 1, i, s, w =>
    let r := s.recoverSwitchPorts os i w
    recoverSwitches os n (i + 1) r.2.1 r.2.2

/-- The first loop of `Scheme.Recover` over the hosts from position `i` on:
the error of `recoverHostLinks` is dropped. -/
def recoverHosts (os : OS) : Nat → Nat → Scheme → World → Scheme × World
  | 0, _, s, w => (s, w)
  | n + 1, i, s, w =>
    let r := s.recoverHostLinks os i w
    recoverHosts os n (i + 1) r.2.1 r.2.2

/-- The second loop of `Scheme.Recover`: `recoverProcs` on every host, stopping
at the first error. -/
def recoverAllProcs (os : OS) : Nat → Nat → Scheme → World → Outcome × Scheme × World
  | 0, _, s, w => (.nil, s, w)
  | n + 1, i, s, w =>
    match s.Hosts.get? i with
    | none => (.nil, s, w)
    | some h =>
      match h.recoverProcs os w with
      | (.nil, h1, w1) => recoverAllProcs os n (i + 1) { s with Hosts := s.Hosts.set i h1 } w1
      | (o, h1, w1) => (o, { s with Hosts := s.Hosts.set i h1 }, w1)

/-- `Scheme.Recover`: what it returns, the scheme and the history afterwards. -/
def Scheme.Recover (os : OS) (s : Scheme) (w : World) : Outcome × Scheme × World :=
  let r1 := recoverSwitches os s.Switches.length 0 s w
  let r2 := recoverHosts os r1.1.Hosts.length 0 r1.1 r1.2
  recoverAllProcs os r2.1.Hosts.length 0 r2.1 r2.2

/-! ## Concrete machines and topologies used to run the recovery -/

/-- A machine on which every command succeeds with empty output. -/
def okOS : OS :=
  { run := fun _ _ => ("", true), start := fun _ _ => some 4242,
    fullPath := fun c => "/sbin/" ++ c, nanosecond := fun _ => 0 }

/-- The interfaces, as (namespace, name) with `""` for the root namespace, that
the successful commands of a history have set up: `ip link add` makes both
ends of a veth pair, `ip link set <name> netns <ns>` moves one, `ovs-vsctl
add-port` makes the port's interface when there is none of that name. -/
def ifaces : List (Cmd × Bool) → List (String × String)
  | [] => []
  | (cmd, ok) :: rest =>
    let later := ifaces rest
    if ¬ ok then later
    else match cmd with
      | ["ip", "link", "add", "name", l, "type", "veth", "peer", "name", r] =>
        ("", l) :: ("", r) :: later
      | ["ip", "link", "add", "name", l, "type", "veth", "peer", "name", r, "netns", ns] =>
        ("", l) :: (ns, r) :: later
      | ["ip", "link", "set", l, "netns", ns] =>
        later.map (fun e => if e = ("", l) then (ns, l) else e)
      | ["ovs-vsctl", "add-port", _, n] => if ("", n) ∈ later then later else ("", n) :: later
      | _ => later

/-- A machine that keeps track of its interfaces: `ip link show` succeeds on
the interfaces present in the root namespace, `ip link add` fails when one of
the two names is taken where it is to be made, `ip link set ... netns` needs the
interface; every other command succeeds. -/
def linuxOS : OS :=
  { run := fun log cmd =>
      let have_ := ifaces log.reverse
      match cmd with
      | ["ip", "link", "show", n] => ("", decide (("", n) ∈ have_))
      | ["ip", "link", "add", "name", l, "type", "veth", "peer", "name", r] =>
        ("", decide (("", l) ∉ have_ ∧ ("", r) ∉ have_))
      | ["ip", "link", "add", "name", l, "type", "veth", "peer", "name", r, "netns", ns] =>
        ("", decide (("", l) ∉ have_ ∧ (ns, r) ∉ have_))
      | ["ip", "link", "set", l, "netns", _] => ("", decide (("", l) ∈ have_))
      | _ => ("", true),
    start := fun _ _ => some 4242,
    fullPath := fun c => "/sbin/" ++ c, nanosecond := fun _ => 0 }

/-- A link of host `own` named `veth0`, declared `DOWN`, whose peer is the
link `veth0` of host `other`. -/
def hostLink (own other cidr : String) : Link :=
  { Cidr := cidr, HwAddr := "02:00:00:00:00:01", Name := "veth0", NodeName := own, NetNs := own,
    State := "DOWN", Routes := [], PeerName := "",
    Peer := { Name := "veth0", IfName := "veth0", NodeName := other },
    patch := false, ForceRoot := false }

/-- The scheme of two hosts `h1` and `h2`, each with one link whose peer names
the other, and an empty pair set. -/
def twoHosts : Scheme :=
  { Switches := [],
    Hosts := [{ Cgroup := none, Name := "h1", netns := some "h1",
                Links := [hostLink "h1" "h2" "10.0.0.1/24"], Procs := [] },
              { Cgroup := none, Name := "h2", netns := some "h2",
                Links := [hostLink "h2" "h1" "10.0.0.2/24"], Procs := [] }],
    pairs := [] }

/-- Whether a command is the `ip link add ... type veth` of `Pair.Create`. -/
def isCreate (c : Cmd × Bool) : Bool :=
  match c.1 with
  | "ip" :: "link" :: "add" :: _ => true
  | _ => false

/-- Whether a command is the `ovs-vsctl add-port` of `AddPort` and
`AddPatchPort`. -/
def isAddPort (c : Cmd × Bool) : Bool :=
  match c.1 with
  | "ovs-vsctl" :: "add-port" :: _ => true
  | _ => false

/-- An environment for link construction: the pool preset with `10.0.0.0/24`,
one interface with a hardware address, and a fixed random source. -/
def env0 : Env :=
  { inst := (ThePool Pool.zero (some "10.0.0.0/24")).getD newPool,
    interfaces := some [[0x52, 0x54, 0x00, 0x12, 0x34, 0x56]],
    rand := fun _ => some [1, 2, 3, 4, 5, 6], randCalls := 0,
    pick := fun _ => 0, pickCalls := 0 }

/-- A host without links. -/
def bareHost (name : String) : Host :=
  { Cgroup := none, Name := name, netns := some name, Links := [], Procs := [] }

/-- A switch without ports. -/
def bareSwitch (name : String) : Switch := { Name := name, Ports := [], Controller := "" }

/-- The override the left link of a pair starts from. -/
def leftOverride : List Link → Link
  | [a] => a
  | [a, _] => a
  | _ => Link.zero

/-- The override the right link of a pair starts from. -/
def rightOverride : List Link → Link
  | [_, b] => b
  | _ => Link.zero

/-- A machine on which `ip link add` fails and every other command succeeds. -/
def noVethOS : OS :=
  { run := fun _ cmd =>
      match cmd with
      | "ip" :: "link" :: "add" :: _ => ("RTNETLINK answers: Operation not supported", false)
      | _ => ("", true),
    start := fun _ _ => some 4242,
    fullPath := fun c => "/sbin/" ++ c, nanosecond := fun _ => 0 }

/-- The scheme of one switch `s1` whose only port names the peer `h9`, a node
the scheme does not declare. -/
def ghostPeer : Scheme :=
  { Switches :=
      [{ Name := "s1", Controller := "",
         Ports :=
          [{ Link.zero with
              Name := "s1-eth0", NodeName := "s1", State := "DOWN",
              Peer := { Name := "veth0", IfName := "veth0", NodeName := "h9" } }] }],
    Hosts := [], pairs := [] }

/-- The scheme of two switches named `n1` and `n2` with one port each, and an
empty pair set. -/
def twoSwitches (n1 n2 : String) (p1 p2 : Link) (c1 c2 : String) : Scheme :=
  { Switches := [{ Name := n1, Ports := [p1], Controller := c1 },
                 { Name := n2, Ports := [p2], Controller := c2 }],
    Hosts := [], pairs := [] }

/-- A patch port of switch `own` named `<own>-pp0` whose peer is the port
`<other>-pp0` of switch `other`. -/
def patchPort (own other : String) : Link :=
  { Link.zero with
      Name := own ++ "-pp0", NodeName := own, State := "DOWN", patch := true,
      Peer := { Name := other ++ "-pp0", IfName := other ++ "-pp0", NodeName := other } }

/-- The `ip link add` commands of a history, in the order they were run. -/
def createCmds (log : List (Cmd × Bool)) : List Cmd := (log.filter isCreate).map (·.1)

/-- The command line `Pair.Create` hands to `ip`. -/
def Pair.createCmd (pr : Pair) : Cmd :=
  "ip" :: "link" :: "add" :: "name" :: pr.Left.Name :: "type" :: "veth" :: "peer" :: "name" ::
    pr.Right.Name :: (if pr.Right.NetNs ≠ "" then ["netns", pr.Right.NetNs] else [])

/-- No host of the scheme declares a process. -/
def Scheme.noProcs (s : Scheme) : Bool := s.Hosts.all (fun h => h.Procs.isEmpty)

/-- The two-host scheme after `recoverHostLinks` went through for `h1`: both
hosts hold their link twice and the key built from the side of `h1` is
recorded. -/
def twoHostsAfter : Scheme :=
  { Switches := [],
    Hosts := [{ Cgroup := none, Name := "h1", netns := some "h1",
                Links := [hostLink "h1" "h2" "10.0.0.1/24", hostLink "h1" "h2" "10.0.0.1/24"],
                Procs := [] },
              { Cgroup := none, Name := "h2", netns := some "h2",
                Links := [hostLink "h2" "h1" "10.0.0.2/24", hostLink "h2" "h1" "10.0.0.2/24"],
                Procs := [] }],
    pairs := ["h1veth0h2veth0"] }

/-- The link declared on `h1` in `twoHosts`. -/
def linkH1 : Link := hostLink "h1" "h2" "10.0.0.1/24"

/-- The link declared on `h2` in `twoHosts`. -/
def linkH2 : Link := hostLink "h2" "h1" "10.0.0.2/24"

/-- Every link held by a host of the scheme has State `DOWN`. -/
def Scheme.allDown (s : Scheme) : Bool :=
  s.Hosts.all (fun h => h.Links.all (fun l => l.State == "DOWN"))

/-- A machine on which `ip link show` finds nothing, as for ports that are no
kernel interfaces, and every other command succeeds. -/
def blindOS : OS :=
  { run := fun _ cmd =>
      match cmd with
      | ["ip", "link", "show", _] => ("", false)
      | _ => ("", true),
    start := fun _ _ => some 4242,
    fullPath := fun c => "/sbin/" ++ c, nanosecond := fun _ => 0 }

/-! ## Hardware address texts -/

/-- The lower case hexadecimal digit of a value below 16, read from the digit
table. -/
def lowerHexDigit (d : Nat) : Char := "0123456789abcdef".data.getD d '0'

/-- An octet written as two lower case hexadecimal digits. -/
def octetText (b : Nat) : List Char := [lowerHexDigit (b / 16), lowerHexDigit (b % 16)]

/-- Six octets written as two hexadecimal digits each and joined by colons. -/
def macText (a b c d e f : Nat) : String :=
  String.mk (octetText a ++ ':' :: octetText b ++ ':' :: octetText c ++ ':' :: octetText d ++
    ':' :: octetText e ++ ':' :: octetText f)

/-- The first octet of a hardware address text: its first two characters read
as hexadecimal digits. -/
def firstOctet (s : String) : Option Nat := xtoi2 (s.data.take 2) none

/-- Whether the locally administered bit, 0x02 of the first octet, is set in a
hardware address text. -/
def locallyAdministered (s : String) : Bool :=
  match firstOctet s with
  | some b => b &&& 2 != 0
  | none => false

/-! ## Command sequences -/

/-- Run the commands in order and stop at the first one that fails. -/
def runCmds (os : OS) : List Cmd → World → Option Err × World
  | [], w => (none, w)
  | c :: cs, w =>
    let r := RunCommand os w c
    if r.1.2 then runCmds os cs r.2 else (some (.command c r.1.1), r.2)

/-- Every command of the list succeeds when they are run in order after the
history `log`. -/
def allSucceed (os : OS) : List (Cmd × Bool) → List Cmd → Bool
  | _, [] => true
  | log, c :: cs => (os.run log c).2 && allSucceed os (log ++ [(c, true)]) cs

/-- The address-add command of a link: none when its `Cidr` does not parse as
an IPv4 or IPv6 CIDR text. -/
def Link.cidrCmds (l : Link) : List Cmd :=
  if cidrParses l.Cidr then [inNetNs l.NetNs ["ip", "addr", "add", l.Cidr, "dev", l.Name]]
  else []

/-- The link-up command of a link. -/
def Link.upCmd (l : Link) : Cmd := inNetNs l.NetNs ["ip", "link", "set", l.Name, "up"]

/-- The route-add commands of a link, one per entry of `Routes`. -/
def Link.routeCmds (l : Link) : List Cmd :=
  l.Routes.map (fun route => inNetNs l.NetNs ["route", "add", "-net", route.Dst, "gw", route.Gw])

/-- The commands of bringing a pair up, in order: address-add left and right,
link-up left and right, route-add for the routes of the right link. -/
def Pair.upCmds (pr : Pair) : List Cmd :=
  pr.Left.cidrCmds ++ pr.Right.cidrCmds ++ [pr.Left.upCmd, pr.Right.upCmd] ++ pr.Right.routeCmds

/-- The commands of attaching a link to a switch: `add-port`, followed for a
patch link by setting the interface type and its peer. -/
def Switch.addLinkCmds (s : Switch) (l : Link) : List Cmd :=
  if l.patch then
    [["ovs-vsctl", "add-port", s.Name, l.Name],
     ["ovs-vsctl", "set", "interface", l.Name, "type=patch"],
     ["ovs-vsctl", "set", "interface", l.Name, "options:peer=" ++ l.Peer.Name]]
  else [["ovs-vsctl", "add-port", s.Name, l.Name]]

/-- The history after the commands `cmds` have all succeeded. -/
def World.after (w : World) (cmds : List Cmd) : World :=
  { w with log := w.log ++ cmds.map (fun c => (c, true)) }

/-- A pair between `h1` and `h2` that is not a patch pair: the left address
does not parse, the right link has one route. -/
def routedPair : Pair :=
  { Left := { Link.zero with Cidr := "noip", Name := "veth0", NodeName := "h1", NetNs := "h1",
                             State := "DOWN" },
    Right := { Link.zero with Cidr := "10.0.0.2/24", Name := "veth0", NodeName := "h2",
                              NetNs := "h2", State := "DOWN",
                              Routes := [{ Dst := "10.1.0.0/16", Gw := "10.0.0.1" }] } }

/-- A pair between `h1` and `h2` that is not a patch pair, with IPv6
addresses. -/
def v6Pair : Pair :=
  { Left := { Link.zero with Cidr := "fd00::1/64", Name := "veth0", NodeName := "h1",
                             NetNs := "h1", State := "DOWN" },
    Right := { Link.zero with Cidr := "fd00::2/64", Name := "veth0", NodeName := "h2",
                              NetNs := "h2", State := "DOWN" } }

/-- A machine on which the `route` program fails and every other command
succeeds. -/
def noRouteOS : OS :=
  { okOS with run := fun _ cmd => ("", !(cmd.contains "route")) }

/-- A machine on which `ovs-vsctl set` fails and every other command
succeeds. -/
def noSetOS : OS :=
  { okOS with
    run := fun _ cmd =>
      match cmd with
      | "ovs-vsctl" :: "set" :: _ => ("ovs-vsctl: no row", false)
      | _ => ("", true) }

/-! ## Link construction on a seeded pool -/

/-- The seed `SetHwAddr` hands to `NextMac`: the text of the first real
hardware address of the machine. -/
def Env.seedMac (env : Env) : String := String.mk (hwChars (firstrealhw env.interfaces))

/-- The decimal text of a node's link count, as `%d` prints it. -/
def Node.countText (n : Node) : String := String.mk (uitoa n.LinksCount)

/-- A switch named `s1` that already has one port. -/
def s1OnePort : Switch := { bareSwitch "s1" with Ports := [patchPort "s1" "s2"] }

/-- The number of pool draws an override field causes: one when it is empty. -/
def emptyCount (s : String) : Nat := if s = "" then 1 else 0

/-- The number of reads of the random source an override `HwAddr` causes: one
when it is empty and the seed address parses. -/
def Env.macReads (env : Env) (s : String) : Nat :=
  if s = "" ∧ (ParseMAC env.seedMac).isSome = true then 1 else 0

/-! ## Process recovery scenarios -/

/-- A declared process whose command line holds a comma. -/
def socatProc : Process :=
  { Handle := none, Command := "socat", Args := ["TCP-LISTEN:8080,fork", "TCP:10.0.0.1:80"],
    Output := "" }

/-- A declared process that is listed by `psOS`. -/
def sleepProc : Process := { Handle := none, Command := "sleep", Args := ["60"], Output := "" }

/-- A declared process without arguments. -/
def topProc : Process := { Handle := none, Command := "top", Args := [], Output := "" }

/-- A machine whose process table lists `socat TCP-LISTEN:8080,fork
TCP:10.0.0.1:80` with pid 101, `sleep 60` with pid 102 and `top` with pid 103,
on which every pid is identified as being in the namespace `h1`, and which
starts every process with pid 4242. -/
def psOS : OS :=
  { okOS with
    run := fun _ cmd =>
      match cmd with
      | ["ps", "-A", "-eo", "%p,%a"] =>
        ("    PID,COMMAND\n    101,socat TCP-LISTEN:8080,fork TCP:10.0.0.1:80\n" ++
          "    102,sleep 60\n    103,top\n", true)
      | ["ip", "netns", "identify", _] => ("h1\n", true)
      | _ => ("", true) }

/-- The command line `runProcess` starts for a declared process: the cgroup
wrapper, the namespace wrapper, the command and its arguments. -/
def Host.launchCmd (os : OS) (h : Host) (proc : Process) : List String :=
  (match h.netns with
   | some name =>
     (h.Cgroup.map (·.CgExecCommand os)).getD [] ++ [os.fullPath "ip", "netns", "exec", name]
   | none => (h.Cgroup.map (·.CgExecCommand os)).getD []) ++
    (proc.Command :: proc.Args)

/-- The host `h1` in its namespace with the given declared processes. -/
def procHost (procs : List Process) : Host :=
  { Cgroup := none, Name := "h1", netns := some "h1", Links := [], Procs := procs }

/-- What `findProcessByName` answers on `psOS` for the declared processes used
here: `sleep 60` is pid 102, nothing else is found. -/
def psLook (p : Process) : Option Int := if p = sleepProc then some 102 else none

/-! ## Teardown: `Release` of a host and of what it owns -/

/-- A step of teardown that reaches the operating system: the unmount and the
removal of a namespace file, a command handed to `RunCommand`, the interrupt
signal sent to a process, the recursive deletion of a cgroup. -/
inductive Step where
  | unmount (path : String)
  | remove (path : String)
  | command (cmd : Cmd)
  | signal (pid : Int)
  | cgroupDelete (name : String)
deriving DecidableEq

/-- The steps attempted so far, oldest first, with whether each succeeded. -/
abbrev Trace := List (Step × Bool)

/-- Attempt a step on a machine where `ok` tells, from the steps attempted so
far, whether a step succeeds. -/
def attempt (ok : Trace → Step → Bool) (t : Trace) (s : Step) : Bool × Trace :=
  (ok t s, t ++ [(s, ok t s)])

/-- `NetnsRunDir`. -/
def NetnsRunDir : String := "/var/run/netns"

/-- `NetNs.Release`: whether the error is nil, and the trace. The result of
`syscall.Unmount` is not looked at. -/
def NetNs.Release (ok : Trace → Step → Bool) (name : String) (t : Trace) : Bool × Trace :=
  if name = "" then (true, t)
  else
    let path := NetnsRunDir ++ "/" ++ name
    let t1 := (attempt ok t (.unmount path)).2
    attempt ok t1 (.remove path)

/-- `Link.Release` (the source writes `pr.Name` for the name of the link `l`):
the result of `RunCommand` is not looked at. -/
def Link.Release (ok : Trace → Step → Bool) (l : Link) (t : Trace) : Trace :=
  (attempt ok t (.command (inNetNs l.NetNs ["ip", "link", "delete", l.Name]))).2

/-- `Process.Stop`: whether the error is nil, and the trace; without a handle
nothing is attempted. -/
def Process.Stop (ok : Trace → Step → Bool) (p : Process) (t : Trace) : Bool × Trace :=
  match p.Handle with
  | none => (false, t)
  | some pid => attempt ok t (.signal pid)

/-- `Cgroup.Release` on the `*Cgroup` of a host, which may be nil. -/
def Cgroup.Release (ok : Trace → Step → Bool) (c : Option Cgroup) (t : Trace) : Trace :=
  match c with
  | none => t
  | some cg => (attempt ok t (.cgroupDelete cg.Name)).2

/-- `Host.Release`: how the call ends and the trace. `h.netns.Release()` calls
a method with a value receiver through the `*NetNs`, which panics on nil; both
`NewHost` and `Host.UnmarshalJSON` set the field. -/
def Host.Release (ok : Trace → Step → Bool) (h : Host) (t : Trace) : Outcome × Trace :=
  match h.netns with
  | none => (.panic, t)
  | some name =>
    let t1 := (NetNs.Release ok name t).2
    let t2 := h.Links.foldl (fun acc link => link.Release ok acc) t1
    let t3 := h.Procs.foldl (fun acc proc => (proc.Stop ok acc).2) t2
    (.nil, Cgroup.Release ok h.Cgroup t3)

/-- The step of releasing the cgroup of a host: none without a cgroup. -/
def cgroupSteps (c : Option Cgroup) : List Step :=
  match c with
  | none => []
  | some cg => [Step.cgroupDelete cg.Name]

/-- The steps of releasing a host whose namespace is called `name`, in the
order the specification gives: the namespace (nothing for an empty name), a
delete for every link, a stop for every process that has a handle, the cgroup
when there is one. -/
def Host.releaseSteps (h : Host) (name : String) : List Step :=
  (if name = "" then []
   else [Step.unmount (NetnsRunDir ++ "/" ++ name), Step.remove (NetnsRunDir ++ "/" ++ name)]) ++
    h.Links.map (fun l => Step.command (inNetNs l.NetNs ["ip", "link", "delete", l.Name])) ++
    h.Procs.filterMap (fun p => p.Handle.map Step.signal) ++
    cgroupSteps h.Cgroup

/-- A host `h1` with one link, one running process and a cgroup. -/
def fullHost : Host :=
  { Cgroup := some { Name := "h1", Controllers := ["cpu"] }, Name := "h1", netns := some "h1",
    Links := [linkH1], Procs := [{ sleepProc with Handle := some 102 }] }

/-! ## Addresses inside a prefix -/

/-- Whether a CIDR text denotes an address inside the prefix of base `B`: the
network `ParseCIDR` returns holds the address masked with the prefix length of
the text, and that is compared with the 4 bytes of `B`. -/
def insidePrefix (text : String) (B : Nat) : Bool :=
  match ParseCIDR text with
  | some (_, net) => net.IP == natToIP4 B
  | none => false

/-! ## Two links made from the same host -/

/-- The pair `NewLink(h1, h2)` returns for hosts without links on the pool
preset with `10.0.0.0/24`. -/
def firstPair : Pair :=
  ((NewLink env0 (.host (bareHost "h1")) (.host (bareHost "h2")) []).map (·.1)).getD
    { Left := Link.zero, Right := Link.zero }

/-- The environment that call leaves. -/
def envAfterFirst : Env :=
  ((NewLink env0 (.host (bareHost "h1")) (.host (bareHost "h2")) []).map (·.2)).getD env0

/-- The host `h1` after the left link of `firstPair` was registered on it. -/
def h1AfterFirst : Host := (bareHost "h1").AddLink firstPair.Left

/-- The pair `NewLink(h1, h3)` returns next, `h3` being a host without
links. -/
def secondPair : Pair :=
  ((NewLink envAfterFirst (.host h1AfterFirst) (.host (bareHost "h3")) []).map (·.1)).getD
    { Left := Link.zero, Right := Link.zero }

/-! ## pkg/mn/netns.go: does a namespace exist -/

/-- Whether a text starts with another, as `strings.HasPrefix`. -/
def startsWith : List Char → List Char → Bool
  | _, [] => true
  | [], _ :: _ => false
  | c :: cs, d :: ds => c == d && startsWith cs ds

/-- `strings.Contains(s, sub)`: `sub` starts at some position of `s`. -/
def containsText : List Char → List Char → Bool
  | [], sub => startsWith [] sub
  | c :: cs, sub => startsWith (c :: cs) sub || containsText cs sub

/-- `NetNs.Exists` for the namespace called `name`: true when the listing
fails, otherwise whether the output contains the name. -/
def NetNs.Exists (os : OS) (name : String) (w : World) : Bool × World :=
  let r := RunCommand os w ["ip", "netns", "list"]
  if ¬ r.1.2 then (true, r.2) else (containsText r.1.1.data name.data, r.2)

/-- The namespaces a listing names, one per line. -/
def listedNamespaces (out : String) : List String := (splitAt '\n' out.data).map String.mk

/-- A machine whose `ip netns list` prints the one namespace `h10`. -/
def h10OS : OS :=
  { okOS with
    run := fun _ cmd =>
      match cmd with
      | ["ip", "netns", "list"] => ("h10\n", true)
      | _ => ("", true) }

/-! ## pkg/mn/switch.go: decoding a switch -/

/-- `Switch.Exists`. -/
def Switch.Exists (os : OS) (s : Switch) (w : World) : Bool × World :=
  let r := RunCommand os w ["ovs-vsctl", "br-exists", s.Name]
  (r.1.2, r.2)

/-- `Switch.Create`. -/
def Switch.Create (os : OS) (s : Switch) (w : World) : Option Err × World :=
  let cmd := ["ovs-vsctl", "add-br", s.Name]
  let r := RunCommand os w cmd
  if ¬ r.1.2 then (some (.command cmd r.1.1), r.2) else (none, r.2)

/-- `Switch.SetController`. -/
def Switch.SetController (os : OS) (s : Switch) (addr : String) (w : World) :
    Option Err × World :=
  let cmd := ["ovs-vsctl", "set-controller", s.Name, addr]
  let r := RunCommand os w cmd
  if ¬ r.1.2 then (some (.command cmd r.1.1), r.2) else (none, r.2)

/-- An error of decoding: the document is no JSON for the type, or a command
failed. -/
inductive DecodeErr where
  | json (msg : String)
  | os (e : Err)
deriving DecidableEq

/-- `Switch.UnmarshalJSON` on the receiver `s`; `doc` is what
`json.Unmarshal(b, &t)` leaves in `t` (the fields `Name`, `Ports` and
`Controller` of the document), or its error. -/
def Switch.UnmarshalJSON (os : OS) (s : Switch) (doc : Except String Switch) (w : World) :
    Option DecodeErr × Switch × World :=
  match doc with
  | .error msg => (some (.json msg), s, w)
  | .ok t =>
    let s1 : Switch := { s with Name := t.Name, Ports := t.Ports }
    let ex := s1.Exists os w
    let made : Option Err × World := if ¬ ex.1 then s1.Create os ex.2 else (none, ex.2)
    match made with
    | (some e, w1) => (some (.os e), s1, w1)
    | (none, w1) =>
      if s1.Controller ≠ "" then
        match s1.SetController os s1.Controller w1 with
        | (some e, w2) => (some (.os e), s1, w2)
        | (none, w2) => (none, s1, w2)
      else (none, s1, w1)

/-- The zero value `Switch{}` that `json.Unmarshal` decodes each element of
`Scheme.Switches` into. -/
def Switch.zero : Switch := { Name := "", Ports := [], Controller := "" }

/-- What decoding reads back from the exported form of a switch: the exported
fields; of a link the fields `patch` (not exported) and `ForceRoot` (tagged
`json:"-"`) are not written. -/
def Switch.exported (s : Switch) : Switch :=
  { s with Ports := s.Ports.map (fun l => { l with patch := false, ForceRoot := false }) }

/-- Whether a command is the `ovs-vsctl set-controller` of `SetController`. -/
def isSetController (c : Cmd × Bool) : Bool :=
  match c.1 with
  | "ovs-vsctl" :: "set-controller" :: _ => true
  | _ => false

/-- A switch `s1` with one port and a controller. -/
def controlledSwitch : Switch :=
  { Name := "s1", Ports := [patchPort "s1" "s2"], Controller := "tcp:127.0.0.1:6633" }

/-! ## Properties of the address pool -/

/-! ## Facts about the `net` model -/

set_option maxRecDepth 100000 in
theorem octet_facts : ∀ b < 256, parseOctet (ubtoa b) = some b ∧ '.' ∉ ubtoa b ∧ '/' ∉ ubtoa b := by
  decide

set_option maxRecDepth 100000 in
theorem prefixLen_facts : ∀ m < 33, parsePrefixLen (uitoa m) = some m ∧
    simpleMaskLen (CIDRMask m) = some m ∧ (CIDRMask m).length = 4 := by
  decide

set_option maxRecDepth 100000 in
theorem land_byte : ∀ b < 256, b &&& 255 = b ∧ b &&& 254 = b - b % 2 ∧ b &&& 252 = b - b % 4 ∧
    b &&& 248 = b - b % 8 ∧ b &&& 240 = b - b % 16 ∧ b &&& 224 = b - b % 32 ∧
    b &&& 192 = b - b % 64 ∧ b &&& 128 = b - b % 128 ∧ b &&& 0 = 0 := by
  decide

theorem ipToNat_natToIP4 (x : Nat) (hx : x < 2 ^ 32) : ipToNat (natToIP4 x) = x := by
  simp only [ipToNat, natToIP4, List.foldl]
  omega

theorem natToIP4_ipToNat (a b c d : Nat) (ha : a < 256) (hb : b < 256) (hc : c < 256)
    (hd : d < 256) : natToIP4 (ipToNat [a, b, c, d]) = [a, b, c, d] := by
  simp only [ipToNat, natToIP4, List.foldl]
  congr 1
  · omega
  congr 1
  · omega
  congr 1
  · omega
  congr 1
  omega

theorem ipToNat_lt (a b c d : Nat) (ha : a < 256) (hb : b < 256) (hc : c < 256)
    (hd : d < 256) : ipToNat [a, b, c, d] < 2 ^ 32 := by
  simp only [ipToNat, List.foldl]
  omega

theorem natToIP4_inj (x y : Nat) (hx : x < 2 ^ 32) (hy : y < 2 ^ 32)
    (h : natToIP4 x = natToIP4 y) : x = y := by
  rw [← ipToNat_natToIP4 x hx, ← ipToNat_natToIP4 y hy, h]

theorem natToIP4_length (x : Nat) : (natToIP4 x).length = 4 := rfl

theorem andBytes_natToIP4 (x m : Nat) (hm : m ≤ 32) :
    andBytes (natToIP4 x) (CIDRMask m) = natToIP4 (x - x % 2 ^ (32 - m)) := by
  have h0 := land_byte (x / 16777216 % 256) (Nat.mod_lt _ (by norm_num))
  have h1 := land_byte (x / 65536 % 256) (Nat.mod_lt _ (by norm_num))
  have h2 := land_byte (x / 256 % 256) (Nat.mod_lt _ (by norm_num))
  have h3 := land_byte (x % 256) (Nat.mod_lt _ (by norm_num))
  obtain ⟨a0, a1, a2, a3, a4, a5, a6, a7, a8⟩ := h0
  obtain ⟨b0, b1, b2, b3, b4, b5, b6, b7, b8⟩ := h1
  obtain ⟨c0, c1, c2, c3, c4, c5, c6, c7, c8⟩ := h2
  obtain ⟨d0, d1, d2, d3, d4, d5, d6, d7, d8⟩ := h3
  interval_cases m <;>
    simp only [CIDRMask, cidrMaskBytes, andBytes, natToIP4, Nat.shiftRight_eq_div_pow] <;>
    norm_num <;>
    (try simp only [a0, a1, a2, a3, a4, a5, a6, a7, a8,
      b0, b1, b2, b3, b4, b5, b6, b7, b8, c0, c1, c2, c3, c4, c5, c6, c7, c8,
      d0, d1, d2, d3, d4, d5, d6, d7, d8]) <;>
    clear a0 a1 a2 a3 a4 a5 a6 a7 a8 b0 b1 b2 b3 b4 b5 b6 b7 b8 c0 c1 c2 c3 c4 c5 c6 c7 c8
      d0 d1 d2 d3 d4 d5 d6 d7 d8 <;>
    omega
theorem incRev4 (a b c d : Nat) :
    incRev [d, c, b, a] =
      if (d + 1) % 256 > 0 then [(d + 1) % 256, c, b, a]
      else if (c + 1) % 256 > 0 then [0, (c + 1) % 256, b, a]
      else if (b + 1) % 256 > 0 then [0, 0, (b + 1) % 256, a]
      else if (a + 1) % 256 > 0 then [0, 0, 0, (a + 1) % 256]
      else [0, 0, 0, 0] := by
  simp only [incRev]
  split_ifs <;> rfl

theorem e32 : (2 : Nat) ^ 32 = 4294967296 := by norm_num

theorem inc_bytes (a b c d : Nat) (ha : a < 256) (hb : b < 256) (hc : c < 256) (hd : d < 256) :
    inc [a, b, c, d] = natToIP4 ((ipToNat [a, b, c, d] + 1) % 2 ^ 32) := by
  rw [e32]
  have hr : [a, b, c, d].reverse = [d, c, b, a] := rfl
  unfold inc
  rw [hr, incRev4]
  simp only [natToIP4, ipToNat, List.foldl]
  split_ifs <;>
    simp only [List.reverse_cons, List.reverse_nil, List.nil_append, List.cons_append,
      List.cons.injEq, and_true] <;>
    refine ⟨?_, ?_, ?_, ?_⟩ <;> omega

theorem inc_natToIP4 (x : Nat) (hx : x < 2 ^ 32) :
    inc (natToIP4 x) = natToIP4 ((x + 1) % 2 ^ 32) := by
  have h := inc_bytes (x / 16777216 % 256) (x / 65536 % 256) (x / 256 % 256) (x % 256)
    (Nat.mod_lt _ (by norm_num)) (Nat.mod_lt _ (by norm_num)) (Nat.mod_lt _ (by norm_num))
    (Nat.mod_lt _ (by norm_num))
  have e : ipToNat [x / 16777216 % 256, x / 65536 % 256, x / 256 % 256, x % 256] = x :=
    ipToNat_natToIP4 x hx
  rw [e] at h
  exact h

theorem splitAt_append (sep : Char) (xs rest : List Char) (h : sep ∉ xs) :
    splitAt sep (xs ++ sep :: rest) = xs :: splitAt sep rest := by
  induction xs with
  | nil => simp [splitAt]
  | cons c cs ih =>
    have hc : c ≠ sep := fun e => h (by simp [e])
    have hcs : sep ∉ cs := fun e => h (by simp [e])
    simp [splitAt, hc, ih hcs]

theorem splitAt_noSep (sep : Char) (xs : List Char) (h : sep ∉ xs) :
    splitAt sep xs = [xs] := by
  induction xs with
  | nil => simp [splitAt]
  | cons c cs ih =>
    have hc : c ≠ sep := fun e => h (by simp [e])
    have hcs : sep ∉ cs := fun e => h (by simp [e])
    simp [splitAt, hc, ih hcs]

theorem cutSlash_append (xs rest : List Char) (h : '/' ∉ xs) :
    cutSlash (xs ++ '/' :: rest) = some (xs, rest) := by
  induction xs with
  | nil => simp [cutSlash]
  | cons c cs ih =>
    have hc : c ≠ '/' := fun e => h (by simp [e])
    have hcs : '/' ∉ cs := fun e => h (by simp [e])
    simp [cutSlash, hc, ih hcs]

theorem parseIPv4_dotted (a b c d : Nat) (ha : a < 256) (hb : b < 256) (hc : c < 256)
    (hd : d < 256) : parseIPv4 (dotted [a, b, c, d]) = some [a, b, c, d] := by
  obtain ⟨pa, da, -⟩ := octet_facts a ha
  obtain ⟨pb, db, -⟩ := octet_facts b hb
  obtain ⟨pc, dc, -⟩ := octet_facts c hc
  obtain ⟨pd, dd, -⟩ := octet_facts d hd
  simp only [parseIPv4, dotted, splitAt_append _ _ _ da, splitAt_append _ _ _ db,
    splitAt_append _ _ _ dc, splitAt_noSep _ _ dd, pa, pb, pc, pd]

theorem slash_not_mem_dotted (a b c d : Nat) (ha : a < 256) (hb : b < 256) (hc : c < 256)
    (hd : d < 256) : '/' ∉ dotted [a, b, c, d] := by
  obtain ⟨-, -, sa⟩ := octet_facts a ha
  obtain ⟨-, -, sb⟩ := octet_facts b hb
  obtain ⟨-, -, sc⟩ := octet_facts c hc
  obtain ⟨-, -, sd⟩ := octet_facts d hd
  simp [dotted, sa, sb, sc, sd]

theorem Mask_v4 (bs m : List Nat) (hb : bs.length = 4) (hm : m.length = 4) :
    Mask (v4InV6Prefix ++ bs) m = andBytes bs m := by
  have h1 : (v4InV6Prefix ++ bs).length = 16 := by simp [v4InV6Prefix, hb]
  have h2 : (v4InV6Prefix ++ bs).take 12 = v4InV6Prefix := by simp [v4InV6Prefix]
  have h3 : (v4InV6Prefix ++ bs).drop 12 = bs := by simp [v4InV6Prefix]
  simp [Mask, h1, h2, h3, hm, hb]

theorem parseCIDRChars_text (x m : Nat) (hm : m ≤ 32) :
    parseCIDRChars (dotted (natToIP4 x) ++ '/' :: uitoa m) =
      some (v4InV6Prefix ++ natToIP4 x,
        { IP := natToIP4 (x - x % 2 ^ (32 - m)), Mask := CIDRMask m }) := by
  obtain ⟨pm, -, lm⟩ := prefixLen_facts m (by omega)
  have h0 : x / 16777216 % 256 < 256 := Nat.mod_lt _ (by norm_num)
  have h1 : x / 65536 % 256 < 256 := Nat.mod_lt _ (by norm_num)
  have h2 : x / 256 % 256 < 256 := Nat.mod_lt _ (by norm_num)
  have h3 : x % 256 < 256 := Nat.mod_lt _ (by norm_num)
  have hs := slash_not_mem_dotted _ _ _ _ h0 h1 h2 h3
  have hp := parseIPv4_dotted _ _ _ _ h0 h1 h2 h3
  rw [parseCIDRChars, natToIP4, cutSlash_append _ _ hs]
  simp only [hp, pm]
  rw [Mask_v4 [_, _, _, _] _ rfl lm]
  have := andBytes_natToIP4 x m hm
  rw [natToIP4] at this
  rw [this]

theorem ParseCIDR_cidrText (x m : Nat) (hm : m ≤ 32) :
    ParseCIDR (cidrText x m) =
      some (v4InV6Prefix ++ natToIP4 x,
        { IP := natToIP4 (x - x % 2 ^ (32 - m)), Mask := CIDRMask m }) :=
  parseCIDRChars_text x m hm

theorem parseOctet_lt (cs : List Char) (v : Nat) (h : parseOctet cs = some v) : v < 256 := by
  unfold parseOctet at h
  split_ifs at h with h1 h2 h3 h4
  simp only [Option.some.injEq] at h
  omega

theorem parsePrefixLen_le (cs : List Char) (n : Nat) (h : parsePrefixLen cs = some n) :
    n ≤ 32 := by
  unfold parsePrefixLen at h
  split_ifs at h with h1 h2 h3
  simp only [Option.some.injEq] at h
  omega

theorem parseIPv4_some (cs : List Char) (bs : List Nat) (h : parseIPv4 cs = some bs) :
    ∃ a b c d, bs = [a, b, c, d] ∧ a < 256 ∧ b < 256 ∧ c < 256 ∧ d < 256 := by
  unfold parseIPv4 at h
  split at h
  · split at h
    · rename_i a b c d ha hb hc hd
      simp only [Option.some.injEq] at h
      exact ⟨a, b, c, d, h.symm, parseOctet_lt _ _ ha, parseOctet_lt _ _ hb,
        parseOctet_lt _ _ hc, parseOctet_lt _ _ hd⟩
    · exact absurd h (by simp)
  · exact absurd h (by simp)

theorem CIDRMask_length (m : Nat) (hm : m ≤ 32) : (CIDRMask m).length = 4 :=
  (prefixLen_facts m (by omega)).2.2

/-- Whatever text `ParseCIDR` accepts, the result is an IPv4 address in 16
byte form together with its network: base address and canonical mask. -/
theorem ParseCIDR_sound (s : String) (ip : IP) (net : IPNet) (h : ParseCIDR s = some (ip, net)) :
    ∃ x m, x < 2 ^ 32 ∧ m ≤ 32 ∧ ip = v4InV6Prefix ++ natToIP4 x ∧
      net = { IP := natToIP4 (x - x % 2 ^ (32 - m)), Mask := CIDRMask m } := by
  unfold ParseCIDR parseCIDRChars at h
  split at h
  · exact absurd h (by simp)
  · split at h
    · rename_i addr mask _ bs n hb hn
      obtain ⟨a, b, c, d, rfl, ha, hb', hc, hd⟩ := parseIPv4_some _ _ hb
      have hm := parsePrefixLen_le _ _ hn
      simp only [Option.some.injEq, Prod.mk.injEq] at h
      obtain ⟨h1, h2⟩ := h
      refine ⟨ipToNat [a, b, c, d], n, ipToNat_lt a b c d ha hb' hc hd, hm, ?_, ?_⟩
      · rw [natToIP4_ipToNat a b c d ha hb' hc hd]; exact h1.symm
      · rw [← h2, Mask_v4 [a, b, c, d] _ rfl (CIDRMask_length n hm),
          ← andBytes_natToIP4 _ _ hm, natToIP4_ipToNat a b c d ha hb' hc hd]
    · exact absurd h (by simp)

theorem To4_natToIP4 (x : Nat) : To4 (natToIP4 x) = some (natToIP4 x) := rfl

theorem ipChars_natToIP4 (x : Nat) : ipChars (natToIP4 x) = dotted (natToIP4 x) := rfl

theorem IPNetString_natToIP4 (x m : Nat) (hm : m ≤ 32) :
    IPNetString { IP := natToIP4 x, Mask := CIDRMask m } = cidrText x m := by
  obtain ⟨-, sm, lm⟩ := prefixLen_facts m (by omega)
  simp only [IPNetString, ipNetChars, networkNumberAndMask, To4_natToIP4, lm, if_true, sm,
    ipChars_natToIP4, cidrText]

theorem sameMasked_eq (m : List Nat) : ∀ (a b : List Nat), a.length = m.length →
    b.length = m.length → sameMasked a m b = decide (andBytes a m = andBytes b m) := by
  induction m with
  | nil =>
    intro a b ha hb
    cases a <;> cases b <;> simp_all [sameMasked, andBytes]
  | cons m0 ms ih =>
    intro a b ha hb
    cases a with
    | nil => simp at ha
    | cons a0 as =>
      cases b with
      | nil => simp at hb
      | cons b0 bs =>
        simp only [List.length_cons, add_left_inj] at ha hb
        simp only [sameMasked, andBytes, ih as bs ha hb, List.cons.injEq]
        by_cases h1 : a0 &&& m0 = b0 &&& m0 <;> by_cases h2 : andBytes as ms = andBytes bs ms <;>
          simp [h1, h2]

theorem Contains_natToIP4 (x y m : Nat) (hm : m ≤ 32) :
    Contains { IP := natToIP4 x, Mask := CIDRMask m } (natToIP4 y) =
      decide (natToIP4 (x - x % 2 ^ (32 - m)) = natToIP4 (y - y % 2 ^ (32 - m))) := by
  have lm := CIDRMask_length m hm
  simp only [Contains, networkNumberAndMask, To4_natToIP4, lm, if_true, Option.getD_some,
    natToIP4_length, ne_eq, not_true_eq_false, if_false]
  rw [sameMasked_eq _ _ _ (by rw [lm]; rfl) (by rw [lm]; rfl), andBytes_natToIP4 _ _ hm,
    andBytes_natToIP4 _ _ hm]

theorem cidrText_inj (x y m : Nat) (hx : x < 2 ^ 32) (hy : y < 2 ^ 32) (hm : m ≤ 32)
    (h : cidrText x m = cidrText y m) : x = y := by
  have hx' := ParseCIDR_cidrText x m hm
  rw [h, ParseCIDR_cidrText y m hm] at hx'
  simp only [Option.some.injEq, Prod.mk.injEq, List.append_cancel_left_eq] at hx'
  exact (natToIP4_inj x y hx hy hx'.1.symm)

theorem get_found (B x m : Nat) (pre : Bool) (cidr : String) (ip : IP) (m1 : IPMask)
    (h : ParseCIDR cidr = some (ip, { IP := natToIP4 B, Mask := m1 }))
    (hmask : Mask ip m1 = natToIP4 B) :
    (poolAt B x m pre).get cidr =
      some (natToIP4 x, { IP := natToIP4 x, Mask := CIDRMask m }, IPString (natToIP4 B), true) := by
  simp only [Pool.get, h, hmask, poolAt, cacheGet, if_true]

theorem NextCidr_eq (p : Pool) (arg : Option String) (pick : Nat) :
    p.NextCidr arg pick = nextFrom p (selectCidr p arg pick) := rfl

theorem nextFrom_found (B x m : Nat) (pre : Bool) (cidr : String)
    (hx : x < 2 ^ 32) (hm : m ≤ 32)
    (hget : (poolAt B x m pre).get cidr =
        some (natToIP4 x, { IP := natToIP4 x, Mask := CIDRMask m }, IPString (natToIP4 B), true)) :
    nextFrom (poolAt B x m pre) cidr =
      some (cidrText ((x + 1) % 2 ^ 32) m, poolAt B ((x + 1) % 2 ^ 32) m pre) := by
  unfold nextFrom
  rw [hget]
  simp only [if_true, inc_natToIP4 x hx]
  rw [Contains_natToIP4 _ _ _ hm]
  simp only [decide_True, not_true_eq_false, if_false, IPNetString_natToIP4 _ _ hm]
  simp only [poolAt, cacheSet, if_true]

/-- A call without argument on the single-network pool whose cursor is still
inside the network. -/
theorem NextCidr_preset_step (B x m : Nat) (pre : Bool) (pick : Nat)
    (hx : x < 2 ^ 32) (hm : m ≤ 32) (hB : x - x % 2 ^ (32 - m) = B) :
    (poolAt B x m pre).NextCidr none pick =
      some (cidrText ((x + 1) % 2 ^ 32) m, poolAt B ((x + 1) % 2 ^ 32) m pre) := by
  rw [NextCidr_eq]
  have hsel : selectCidr (poolAt B x m pre) none pick = cidrText x m := by
    simp only [selectCidr, poolAt, List.length_singleton, Nat.mod_one, List.get?_cons_zero,
      IPNetString_natToIP4 _ _ hm]
  rw [hsel]
  apply nextFrom_found B x m pre _ hx hm
  have hp := ParseCIDR_cidrText x m hm
  rw [hB] at hp
  apply get_found B x m pre _ _ _ hp
  rw [Mask_v4 _ _ (natToIP4_length x) (CIDRMask_length m hm), andBytes_natToIP4 _ _ hm, hB]

/-- A call with an explicit prefix on the single-network pool of that prefix. -/
theorem NextCidr_explicit_step (B x m : Nat) (pre : Bool) (pick : Nat) (pfx : String) (ip : IP)
    (hx : x < 2 ^ 32) (hm : m ≤ 32)
    (hp : ParseCIDR pfx = some (ip, { IP := natToIP4 B, Mask := CIDRMask m })) :
    (poolAt B x m pre).NextCidr (some pfx) pick =
      some (cidrText ((x + 1) % 2 ^ 32) m, poolAt B ((x + 1) % 2 ^ 32) m pre) := by
  rw [NextCidr_eq]
  have hsel : selectCidr (poolAt B x m pre) (some pfx) pick = pfx := rfl
  rw [hsel]
  apply nextFrom_found B x m pre _ hx hm
  apply get_found B x m pre _ _ _ hp
  obtain ⟨y, m', hy, hm', rfl, hnet⟩ := ParseCIDR_sound _ _ _ hp
  simp only [IPNet.mk.injEq] at hnet
  rw [Mask_v4 _ _ (natToIP4_length y) (CIDRMask_length m hm), hnet.2, andBytes_natToIP4 _ _ hm',
    hnet.1]

/-- The first call with an explicit prefix on a pool with an empty cache, when
the prefix has room after its base address. -/
theorem NextCidr_explicit_first (B m : Nat) (pfx : String) (ip : IP) (pick : Nat)
    (hB : B < 2 ^ 32) (hm : m < 32) (hbase : B % 2 ^ (32 - m) = 0)
    (hp : ParseCIDR pfx = some (ip, { IP := natToIP4 B, Mask := CIDRMask m })) :
    newPool.NextCidr (some pfx) pick = some (cidrText (B + 1) m, poolAt B (B + 1) m false) := by
  rw [NextCidr_eq]
  have hsel : selectCidr newPool (some pfx) pick = pfx := rfl
  rw [hsel]
  obtain ⟨y, m', hy, hm', rfl, hnet⟩ := ParseCIDR_sound _ _ _ hp
  simp only [IPNet.mk.injEq] at hnet
  have hmask : Mask (v4InV6Prefix ++ natToIP4 y) (CIDRMask m) = natToIP4 B := by
    rw [Mask_v4 _ _ (natToIP4_length y) (CIDRMask_length m (by omega)), hnet.2,
      andBytes_natToIP4 _ _ hm', hnet.1]
  have hpow : 2 ≤ 2 ^ (32 - m) := by
    calc 2 = 2 ^ 1 := by norm_num
      _ ≤ 2 ^ (32 - m) := Nat.pow_le_pow_right (by norm_num) (by omega)
  have hle : 2 ^ (32 - m) ≤ 2 ^ 32 := Nat.pow_le_pow_right (by norm_num) (by omega)
  have hB1 : B + 1 < 2 ^ 32 := by
    have := Nat.div_add_mod B (2 ^ (32 - m))
    have hdvd : 2 ^ (32 - m) ∣ 2 ^ 32 := pow_dvd_pow 2 (by omega)
    obtain ⟨q, hq⟩ := hdvd
    rw [hbase] at this
    by_contra hcon
    have hq' : B / 2 ^ (32 - m) < q := by
      by_contra hh
      push_neg at hh
      have : 2 ^ (32 - m) * q ≤ 2 ^ (32 - m) * (B / 2 ^ (32 - m)) := Nat.mul_le_mul_left _ hh
      omega
    have : 2 ^ (32 - m) * (B / 2 ^ (32 - m) + 1) ≤ 2 ^ (32 - m) * q := Nat.mul_le_mul_left _ hq'
    rw [Nat.mul_add] at this
    omega
  have hin : (B + 1) - (B + 1) % 2 ^ (32 - m) = B := by
    have h1 : (B + 1) % 2 ^ (32 - m) = 1 := by
      rw [Nat.add_mod, hbase, zero_add, Nat.mod_mod, Nat.mod_eq_of_lt (by omega)]
    omega
  unfold nextFrom
  simp only [Pool.get, hp, hmask, newPool, cacheGet, inc_natToIP4 B hB, Bool.false_eq_true,
    if_false, Nat.mod_eq_of_lt hB1]
  rw [Contains_natToIP4 _ _ _ (by omega)]
  simp only [hbase, Nat.sub_zero, hin, decide_True, not_true_eq_false, if_false,
    IPNetString_natToIP4 _ _ (show m ≤ 32 by omega), cacheSet, poolAt]

theorem base_add_le (B m : Nat) (hB : B < 2 ^ 32) (hbase : B % 2 ^ (32 - m) = 0) :
    B + 2 ^ (32 - m) ≤ 2 ^ 32 := by
  have hdvd : 2 ^ (32 - m) ∣ 2 ^ 32 := pow_dvd_pow 2 (by omega)
  obtain ⟨q, hq⟩ := hdvd
  have hd := Nat.div_add_mod B (2 ^ (32 - m))
  rw [hbase] at hd
  have hq' : B / 2 ^ (32 - m) < q := by
    by_contra hh
    push_neg at hh
    have : 2 ^ (32 - m) * q ≤ 2 ^ (32 - m) * (B / 2 ^ (32 - m)) := Nat.mul_le_mul_left _ hh
    omega
  have : 2 ^ (32 - m) * (B / 2 ^ (32 - m) + 1) ≤ 2 ^ (32 - m) * q := Nat.mul_le_mul_left _ hq'
  rw [Nat.mul_add] at this
  omega

theorem base_add_mod (B m n : Nat) (hbase : B % 2 ^ (32 - m) = 0) (hn : n < 2 ^ (32 - m)) :
    (B + n) - (B + n) % 2 ^ (32 - m) = B := by
  have h1 : (B + n) % 2 ^ (32 - m) = n := by
    rw [Nat.add_mod, hbase, zero_add, Nat.mod_mod, Nat.mod_eq_of_lt hn]
  omega

theorem expectedCidrs_succ (B m n : Nat) :
    expectedCidrs B m (n + 1) = expectedCidrs B m n ++ [cidrText ((B + (n + 1)) % 2 ^ 32) m] := by
  simp [expectedCidrs, List.range_succ]

theorem NextCidrN_preset (B m : Nat) (pre : Bool) (pick : Nat → Nat) (hB : B < 2 ^ 32)
    (hm : m ≤ 32) (hbase : B % 2 ^ (32 - m) = 0) :
    ∀ n, n ≤ 2 ^ (32 - m) →
      NextCidrN none pick n (poolAt B B m pre) =
        some (expectedCidrs B m n, poolAt B ((B + n) % 2 ^ 32) m pre) := by
  intro n
  induction n with
  | zero =>
    intro _
    rw [Nat.add_zero, Nat.mod_eq_of_lt hB]
    rfl
  | succ n ih =>
    intro hn
    have hle := base_add_le B m hB hbase
    have hlt : B + n < 2 ^ 32 := by omega
    rw [NextCidrN, ih (by omega)]
    simp only []
    rw [Nat.mod_eq_of_lt hlt,
      NextCidr_preset_step B (B + n) m pre (pick n) hlt hm (base_add_mod B m n hbase (by omega))]
    simp only [expectedCidrs_succ, Nat.add_assoc]

theorem NextCidrN_explicit (B m : Nat) (pfx : String) (ip : IP) (pick : Nat → Nat)
    (hB : B < 2 ^ 32) (hm : m < 32) (hbase : B % 2 ^ (32 - m) = 0)
    (hp : ParseCIDR pfx = some (ip, { IP := natToIP4 B, Mask := CIDRMask m })) :
    ∀ n, NextCidrN (some pfx) pick (n + 1) newPool =
        some (expectedCidrs B m (n + 1), poolAt B ((B + (n + 1)) % 2 ^ 32) m false) := by
  intro n
  induction n with
  | zero =>
    have hle := base_add_le B m hB hbase
    have hpow : 2 ≤ 2 ^ (32 - m) := by
      calc 2 = 2 ^ 1 := by norm_num
        _ ≤ 2 ^ (32 - m) := Nat.pow_le_pow_right (by norm_num) (by omega)
    have hlt : B + 1 < 2 ^ 32 := by omega
    have hr : expectedCidrs B m 1 = [cidrText (B + 1) m] := by
      simp only [expectedCidrs, List.range_succ, List.range_zero, List.nil_append,
        List.map_cons, List.map_nil, zero_add, Nat.mod_eq_of_lt hlt]
    simp only [NextCidrN, NextCidr_explicit_first B m pfx ip (pick 0) hB hm hbase hp,
      List.nil_append, zero_add, Nat.mod_eq_of_lt hlt, hr]
  | succ n ih =>
    rw [NextCidrN, ih]
    simp only []
    rw [NextCidr_explicit_step B _ m false (pick (n + 1)) pfx ip (Nat.mod_lt _ (by norm_num))
      (by omega) hp]
    have e : ((B + (n + 1)) % 2 ^ 32 + 1) % 2 ^ 32 = (B + (n + 1 + 1)) % 2 ^ 32 := by
      rw [Nat.add_mod, Nat.mod_mod, ← Nat.add_mod, Nat.add_assoc]
    rw [e, expectedCidrs_succ B m (n + 1)]

theorem expectedCidrs_length (B m n : Nat) : (expectedCidrs B m n).length = n := by
  simp [expectedCidrs]

theorem expectedCidrs_nodup (B m n : Nat) (hm : m ≤ 32) (hn : n ≤ 2 ^ 32) :
    (expectedCidrs B m n).Nodup := by
  unfold expectedCidrs
  apply List.Nodup.map_on _ (List.nodup_range n)
  intro j hj j' hj' h
  rw [List.mem_range] at hj hj'
  have := cidrText_inj _ _ m (Nat.mod_lt _ (by norm_num)) (Nat.mod_lt _ (by norm_num)) hm h
  rw [e32] at this hn
  omega

/-- What a successfully parsed seed gives: a base address that is a multiple
of the prefix size, and the canonical mask. -/
theorem seed_shape (seed : String) (ip : IP) (net : IPNet) (m : Nat)
    (hseed : ParseCIDR seed = some (ip, net)) (hlen : simpleMaskLen net.Mask = some m) :
    m ≤ 32 ∧ ipToNat net.IP < 2 ^ 32 ∧ ipToNat net.IP % 2 ^ (32 - m) = 0 ∧
      net = { IP := natToIP4 (ipToNat net.IP), Mask := CIDRMask m } := by
  obtain ⟨x, m', hx, hm', -, rfl⟩ := ParseCIDR_sound _ _ _ hseed
  have hs := (prefixLen_facts m' (by omega)).2.1
  simp only [hs, Option.some.injEq] at hlen
  subst hlen
  have hlt : x - x % 2 ^ (32 - m') < 2 ^ 32 := by omega
  simp only [ipToNat_natToIP4 _ hlt]
  exact ⟨hm', hlt, Nat.sub_mod_eq_zero_of_mod_eq (Nat.mod_mod _ _).symm, trivial⟩

theorem ThePool_seed (seed : String) (ip : IP) (B m : Nat) (hm : m ≤ 32)
    (hp : ParseCIDR seed = some (ip, { IP := natToIP4 B, Mask := CIDRMask m })) :
    ThePool Pool.zero (some seed) = some (poolAt B B m true) := by
  obtain ⟨y, m', hy, hm', rfl, hnet⟩ := ParseCIDR_sound _ _ _ hp
  simp only [IPNet.mk.injEq] at hnet
  have hmask : Mask (v4InV6Prefix ++ natToIP4 y) (CIDRMask m) = natToIP4 B := by
    rw [Mask_v4 _ _ (natToIP4_length y) (CIDRMask_length m hm), hnet.2,
      andBytes_natToIP4 _ _ hm', hnet.1]
  simp [ThePool, Pool.zero, hp, hmask, newPool, cacheSet, poolAt]

theorem presetCidrs_eq (seed : String) (ip : IP) (net : IPNet) (m n : Nat) (pick : Nat → Nat)
    (hseed : ParseCIDR seed = some (ip, net)) (hlen : simpleMaskLen net.Mask = some m)
    (hn : n ≤ 2 ^ (32 - m)) :
    presetCidrs seed pick n = some (expectedCidrs (ipToNat net.IP) m n) := by
  obtain ⟨hm, hB, hbase, hnet⟩ := seed_shape seed ip net m hseed hlen
  rw [hnet] at hseed
  simp only [presetCidrs, ThePool_seed seed ip _ m hm hseed,
    NextCidrN_preset _ m true pick hB hm hbase n hn, Option.map_some']

theorem explicitCidrs_eq (seed : String) (ip : IP) (net : IPNet) (m n : Nat)
    (hseed : ParseCIDR seed = some (ip, net)) (hlen : simpleMaskLen net.Mask = some m)
    (hm32 : m < 32) :
    explicitCidrs seed n = some (expectedCidrs (ipToNat net.IP) m n) := by
  obtain ⟨hm, hB, hbase, hnet⟩ := seed_shape seed ip net m hseed hlen
  rw [hnet] at hseed
  cases n with
  | zero => simp [explicitCidrs, ThePool, Pool.zero, NextCidrN, expectedCidrs]
  | succ n =>
    have h0 : ThePool Pool.zero none = some newPool := by simp [ThePool, Pool.zero]
    simp only [explicitCidrs, h0,
      NextCidrN_explicit _ m seed ip (fun _ => 0) hB hm32 hbase hseed n, Option.map_some']

theorem seed_10_0_0_0_30 : ParseCIDR "10.0.0.0/30" =
    some (v4InV6Prefix ++ [10, 0, 0, 0], { IP := [10, 0, 0, 0], Mask := [255, 255, 255, 252] }) := by
  decide

theorem expected_10_0_0_0_30 : expectedCidrs (ipToNat [10, 0, 0, 0]) 30 4 =
    ["10.0.0.1/30", "10.0.0.2/30", "10.0.0.3/30", "10.0.0.4/30"] := by
  decide

/-- Beyond the calls the properties below speak of: on the pool preset with
`10.0.0.3/32` the second call returns the text of the first once more, and on
the pool preset with `10.0.0.0/30` the calls go on past the prefix. -/
theorem presetCidrs_beyond :
    presetCidrs "10.0.0.3/32" (fun _ => 0) 2 = some ["10.0.0.4/32", "10.0.0.4/32"] ∧
    presetCidrs "10.0.0.0/30" (fun _ => 0) 5 =
      some ["10.0.0.1/30", "10.0.0.2/30", "10.0.0.3/30", "10.0.0.4/30", "10.0.0.5/30"] := by
  constructor <;> decide

/-- C1: for every text that parses as an IPv4 prefix of length `m`, `n`
successive `NextCidr` calls on that prefix return `n` pairwise distinct texts
as long as `n` does not exceed `2 ^ (32 - m) - 1`, the number of addresses
of the prefix after its base address. This holds both without argument on the
pool preset with that seed, and with the prefix passed explicitly on each call
to a pool created without a seed. -/
theorem nextCidr_pairwise_distinct (seed : String) (ip : IP) (net : IPNet) (m n : Nat)
    (pick : Nat → Nat) (hseed : ParseCIDR seed = some (ip, net))
    (hlen : simpleMaskLen net.Mask = some m) (hn : n ≤ 2 ^ (32 - m) - 1) :
    (∃ rs, presetCidrs seed pick n = some rs ∧ rs.length = n ∧ rs.Nodup) ∧
    (∃ rs, explicitCidrs seed n = some rs ∧ rs.length = n ∧ rs.Nodup) := by
  obtain ⟨hm, -, -, -⟩ := seed_shape seed ip net m hseed hlen
  have hpos : 0 < 2 ^ (32 - m) := pow_pos (by norm_num) _
  have hle : 2 ^ (32 - m) ≤ 2 ^ 32 := Nat.pow_le_pow_right (by norm_num) (by omega)
  constructor
  · exact ⟨_, presetCidrs_eq seed ip net m n pick hseed hlen (by omega),
      expectedCidrs_length _ _ _, expectedCidrs_nodup _ _ _ hm (by omega)⟩
  · rcases Nat.lt_or_ge m 32 with h32 | h32
    · exact ⟨_, explicitCidrs_eq seed ip net m n hseed hlen h32,
        expectedCidrs_length _ _ _, expectedCidrs_nodup _ _ _ hm (by omega)⟩
    · have hm32 : m = 32 := by omega
      subst hm32
      have hn0 : n = 0 := by simpa using hn
      subst hn0
      exact ⟨[], by simp [explicitCidrs, ThePool, Pool.zero, NextCidrN], rfl, List.nodup_nil⟩

/-- Witness for C1: three calls on the prefix `10.0.0.0/30`. -/
theorem nextCidr_pairwise_distinct_witness :
    ParseCIDR "10.0.0.0/30" =
      some (v4InV6Prefix ++ [10, 0, 0, 0], { IP := [10, 0, 0, 0], Mask := [255, 255, 255, 252] }) ∧
    simpleMaskLen [255, 255, 255, 252] = some 30 ∧ 3 ≤ 2 ^ (32 - 30) - 1 ∧
    (∃ rs, presetCidrs "10.0.0.0/30" (fun _ => 0) 3 = some rs ∧ rs.length = 3 ∧ rs.Nodup) ∧
    (∃ rs, explicitCidrs "10.0.0.0/30" 3 = some rs ∧ rs.length = 3 ∧ rs.Nodup) :=
  ⟨by decide, by decide, by decide,
    nextCidr_pairwise_distinct "10.0.0.0/30" _ _ 30 3 (fun _ => 0) seed_10_0_0_0_30
      (by decide) (by decide)⟩

theorem inside_lt (seed : String) (ip : IP) (net : IPNet) (m k : Nat)
    (hseed : ParseCIDR seed = some (ip, net)) (hlen : simpleMaskLen net.Mask = some m)
    (hlt : ipToNat net.IP + k < 2 ^ 32)
    (hin : Contains net (natToIP4 (ipToNat net.IP + k)) = true) : k < 2 ^ (32 - m) := by
  obtain ⟨hm, hB, hbase, hnet⟩ := seed_shape seed ip net m hseed hlen
  have hin' : Contains { IP := natToIP4 (ipToNat net.IP), Mask := CIDRMask m }
      (natToIP4 (ipToNat net.IP + k)) = true := by
    rw [← hnet]; exact hin
  rw [Contains_natToIP4 _ _ _ hm, decide_eq_true_eq] at hin'
  have hpos : 0 < 2 ^ (32 - m) := pow_pos (by norm_num) _
  have h1 := natToIP4_inj _ _ (by omega) (by omega) hin'
  rw [hbase, Nat.sub_zero] at h1
  have h2 : (ipToNat net.IP + k) % 2 ^ (32 - m) = k % 2 ^ (32 - m) := by
    rw [Nat.add_mod, hbase, zero_add, Nat.mod_mod]
  have h3 := Nat.mod_lt k hpos
  have h4 := Nat.mod_le k (2 ^ (32 - m))
  omega

/-- C2: on a pool preset with a seed that parses as the IPv4 prefix of base
address `B` and length `m`, the `k`-th `NextCidr` call returns the text of the
address `B + k` (the 32-bit sum, carries between octets included) followed by
`/m`, for every `k ≥ 1` for which `B + k` is an address inside the prefix;
with the seed `10.0.0.0/30` the first three results are `10.0.0.1/30`,
`10.0.0.2/30` and `10.0.0.3/30`. -/
theorem nextCidr_kth_address (seed : String) (ip : IP) (net : IPNet) (m k : Nat)
    (pick : Nat → Nat) (hseed : ParseCIDR seed = some (ip, net))
    (hlen : simpleMaskLen net.Mask = some m) (hk1 : 1 ≤ k)
    (hlt : ipToNat net.IP + k < 2 ^ 32)
    (hin : Contains net (natToIP4 (ipToNat net.IP + k)) = true) :
    (∃ rs, presetCidrs seed pick (k - 1) = some rs ∧
      presetCidrs seed pick k = some (rs ++ [cidrText (ipToNat net.IP + k) m])) ∧
    presetCidrs "10.0.0.0/30" pick 3 = some ["10.0.0.1/30", "10.0.0.2/30", "10.0.0.3/30"] := by
  have hk := inside_lt seed ip net m k hseed hlen hlt hin
  constructor
  · refine ⟨_, presetCidrs_eq seed ip net m (k - 1) pick hseed hlen (by omega), ?_⟩
    obtain ⟨j, rfl⟩ : ∃ j, k = j + 1 := ⟨k - 1, by omega⟩
    rw [presetCidrs_eq seed ip net m (j + 1) pick hseed hlen (by omega), expectedCidrs_succ,
      Nat.mod_eq_of_lt hlt]
    rfl
  · rw [presetCidrs_eq "10.0.0.0/30" _ _ 30 3 pick seed_10_0_0_0_30 (by decide) (by decide)]
    decide

/-- Witness for C2: the second call on the pool preset with `10.0.0.0/30`. -/
theorem nextCidr_kth_address_witness :
    simpleMaskLen [255, 255, 255, 252] = some 30 ∧ 1 ≤ 2 ∧
    ipToNat [10, 0, 0, 0] + 2 < 2 ^ 32 ∧
    Contains { IP := [10, 0, 0, 0], Mask := [255, 255, 255, 252] }
      (natToIP4 (ipToNat [10, 0, 0, 0] + 2)) = true ∧
    (∃ rs, presetCidrs "10.0.0.0/30" (fun _ => 0) (2 - 1) = some rs ∧
      presetCidrs "10.0.0.0/30" (fun _ => 0) 2 =
        some (rs ++ [cidrText (ipToNat [10, 0, 0, 0] + 2) 30])) ∧
    presetCidrs "10.0.0.0/30" (fun _ => 0) 3 =
      some ["10.0.0.1/30", "10.0.0.2/30", "10.0.0.3/30"] :=
  ⟨by decide, by decide, by decide, by decide,
    nextCidr_kth_address "10.0.0.0/30" _ _ 30 2 (fun _ => 0) seed_10_0_0_0_30
      (by decide) (by decide) (by decide) (by decide)⟩

/-- C3: on a pool preset with a seed that parses as an IPv4 prefix of length
`m`, the `NextCidr` call number `2 ^ (32 - m)`, the one made after the last
address of the prefix has been issued, returns a text that none of the earlier
calls returned; with the seed `10.0.0.0/30` the fourth call returns
`10.0.0.4/30`, which is none of `10.0.0.1/30`, `10.0.0.2/30`, `10.0.0.3/30`. -/
theorem nextCidr_after_exhaustion (seed : String) (ip : IP) (net : IPNet) (m : Nat)
    (pick : Nat → Nat) (hseed : ParseCIDR seed = some (ip, net))
    (hlen : simpleMaskLen net.Mask = some m) :
    (∃ rs r, presetCidrs seed pick (2 ^ (32 - m) - 1) = some rs ∧
      presetCidrs seed pick (2 ^ (32 - m)) = some (rs ++ [r]) ∧ r ∉ rs) ∧
    (presetCidrs "10.0.0.0/30" pick 4 =
        some ["10.0.0.1/30", "10.0.0.2/30", "10.0.0.3/30", "10.0.0.4/30"] ∧
      "10.0.0.4/30" ∉ ["10.0.0.1/30", "10.0.0.2/30", "10.0.0.3/30"]) := by
  obtain ⟨hm, hB, hbase, -⟩ := seed_shape seed ip net m hseed hlen
  have hpos : 0 < 2 ^ (32 - m) := pow_pos (by norm_num) _
  have hle : 2 ^ (32 - m) ≤ 2 ^ 32 := Nat.pow_le_pow_right (by norm_num) (by omega)
  constructor
  · obtain ⟨j, hj⟩ : ∃ j, 2 ^ (32 - m) = j + 1 := ⟨2 ^ (32 - m) - 1, by omega⟩
    have hnd := expectedCidrs_nodup (ipToNat net.IP) m (j + 1) hm (by omega)
    rw [expectedCidrs_succ] at hnd
    refine ⟨expectedCidrs (ipToNat net.IP) m j, cidrText ((ipToNat net.IP + (j + 1)) % 2 ^ 32) m,
      ?_, ?_, ?_⟩
    · rw [hj]
      exact presetCidrs_eq seed ip net m j pick hseed hlen (by omega)
    · rw [hj, presetCidrs_eq seed ip net m (j + 1) pick hseed hlen (by omega), expectedCidrs_succ]
    · intro hmem
      exact (List.nodup_append.mp hnd).2.2 hmem (List.mem_singleton_self _)
  · refine ⟨?_, by decide⟩
    rw [presetCidrs_eq "10.0.0.0/30" _ _ 30 4 pick seed_10_0_0_0_30 (by decide) (by decide)]
    exact congrArg some expected_10_0_0_0_30

/-- Witness for C3: the fourth call on the pool preset with `10.0.0.0/30`. -/
theorem nextCidr_after_exhaustion_witness :
    simpleMaskLen [255, 255, 255, 252] = some 30 ∧
    (∃ rs r, presetCidrs "10.0.0.0/30" (fun _ => 0) (2 ^ (32 - 30) - 1) = some rs ∧
      presetCidrs "10.0.0.0/30" (fun _ => 0) (2 ^ (32 - 30)) = some (rs ++ [r]) ∧ r ∉ rs) :=
  ⟨by decide,
    (nextCidr_after_exhaustion "10.0.0.0/30" _ _ 30 (fun _ => 0) seed_10_0_0_0_30
      (by decide)).1⟩


/-! ## Link construction -/

/-- C4: whenever `NewLink` returns a pair, for any two nodes, any overrides and
any state of the address pool, each side's peer reference names the other
side: `Left.Peer.NodeName = Right.NodeName`, `Left.Peer.IfName = Right.Name`,
`Right.Peer.NodeName = Left.NodeName` and `Right.Peer.IfName = Left.Name`. -/
theorem newLink_mutual_peer (env : Env) (left right : Node) (refs : List Link) (pr : Pair)
    (h : (NewLink env left right refs).map (·.1) = some pr) :
    pr.Left.Peer.NodeName = pr.Right.NodeName ∧ pr.Left.Peer.IfName = pr.Right.Name ∧
    pr.Right.Peer.NodeName = pr.Left.NodeName ∧ pr.Right.Peer.IfName = pr.Left.Name := by
  unfold NewLink at h
  simp only [] at h
  split at h
  · simp at h
  · rename_i q env1 _
    simp only [Option.map_some', Option.some.injEq] at h
    subst h
    simp [Link.SetPeer]

set_option maxRecDepth 100000 in
/-- Witness for C4: a link between the hosts `h1` and `h2` on the preset pool. -/
theorem newLink_mutual_peer_witness :
    ∃ pr, (NewLink env0 (.host (bareHost "h1")) (.host (bareHost "h2")) []).map (·.1) = some pr ∧
      pr.Left.Peer.NodeName = "h2" ∧ pr.Right.NodeName = "h2" ∧
      pr.Left.Peer.NodeName = pr.Right.NodeName ∧ pr.Left.Peer.IfName = pr.Right.Name ∧
      pr.Right.Peer.NodeName = pr.Left.NodeName ∧ pr.Right.Peer.IfName = pr.Left.Name :=
  ⟨((NewLink env0 (.host (bareHost "h1")) (.host (bareHost "h2")) []).map (·.1)).getD
      { Left := Link.zero, Right := Link.zero },
    by decide, by decide, by decide,
    newLink_mutual_peer env0 (.host (bareHost "h1")) (.host (bareHost "h2")) [] _ (by decide)⟩

/-- Counterexample to C10: with the override `Link{ForceRoot: true}` for the
left side, `NewLink` on two switches returns a pair whose left link is not
marked patch, so `Pair.IsPatch` is false. -/
theorem newLink_switches_forceRoot_not_patch :
    (NewLink env0 (.switch (bareSwitch "s1")) (.switch (bareSwitch "s2"))
        [{ Link.zero with ForceRoot := true }]).map (fun r => (r.1.Left.patch, r.1.IsPatch)) =
      some (false, false) := by
  decide

/-- C10 as amended: on two switches `NewLink` always returns a pair, it leaves
the address pool as it was, and each link is marked patch unless its override
sets `ForceRoot`, in which case it keeps the mark of the override; so
`Pair.IsPatch` is true whenever the left override does not set `ForceRoot`. -/
theorem newLink_switches_patch (env : Env) (s1 s2 : Switch) (refs : List Link) :
    ∃ pr, NewLink env (.switch s1) (.switch s2) refs = some (pr, env) ∧
      pr.Left.patch = (!(leftOverride refs).ForceRoot || (leftOverride refs).patch) ∧
      pr.Right.patch = (!(rightOverride refs).ForceRoot || (rightOverride refs).patch) ∧
      pr.IsPatch = (!(leftOverride refs).ForceRoot || (leftOverride refs).patch) := by
  have hN : ∀ (l : Link) (n : Node) (p : String),
      (((l.SetNodeName n).SetName n p).SetPatch).patch = (!l.ForceRoot || l.patch) := by
    intro l n p
    unfold Link.SetPatch Link.SetName Link.SetNodeName
    split_ifs <;> simp_all
  have hP : ∀ (a b : Link), (a.SetPeer b).patch = a.patch := fun a b => rfl
  rcases refs with _ | ⟨a, _ | ⟨b, _ | ⟨c, t⟩⟩⟩ <;>
    refine ⟨_, rfl, ?_, ?_, ?_⟩ <;>
    simp only [Pair.IsPatch, hP, hN, leftOverride, rightOverride]

/-- Witness for C10 as amended: two switches and no overrides. -/
theorem newLink_switches_patch_witness :
    ∃ pr, NewLink env0 (.switch (bareSwitch "s1")) (.switch (bareSwitch "s2")) [] =
        some (pr, env0) ∧ pr.Left.patch = true ∧ pr.Right.patch = true ∧ pr.IsPatch = true :=
  newLink_switches_patch env0 (bareSwitch "s1") (bareSwitch "s2") []


/-! ## Recovery of a declared topology -/

theorem createCmds_append (a b : List (Cmd × Bool)) :
    createCmds (a ++ b) = createCmds a ++ createCmds b := by
  simp [createCmds]

theorem inNetNs_not_create (ns : String) (cmd : Cmd) (b : Bool)
    (h : isCreate (cmd, b) = false) : isCreate (inNetNs ns cmd, b) = false := by
  unfold inNetNs
  split_ifs
  · rfl
  · exact h

theorem createCmds_run (os : OS) (w : World) (cmd : Cmd) :
    createCmds (RunCommand os w cmd).2.log =
      createCmds w.log ++ (if isCreate (cmd, true) then [cmd] else []) := by
  simp only [RunCommand, createCmds_append]
  congr 1
  simp only [createCmds, List.filter_cons, List.filter_nil]
  have : isCreate (cmd, (os.run w.log cmd).2) = isCreate (cmd, true) := rfl
  rw [this]
  split_ifs <;> rfl

theorem Create_createCmds (os : OS) (pr : Pair) (w : World) :
    createCmds (pr.Create os w).2.log = createCmds w.log ++ [pr.createCmd] := by
  have hc : isCreate (pr.createCmd, true) = true := rfl
  have hm : isCreate (["ip", "link", "set", pr.Left.Name, "netns", pr.Left.NetNs], true) = false :=
    rfl
  have he : ("ip" :: (if pr.Right.NetNs ≠ "" then
      ["link", "add", "name", pr.Left.Name, "type", "veth", "peer", "name", pr.Right.Name] ++
        ["netns", pr.Right.NetNs]
      else ["link", "add", "name", pr.Left.Name, "type", "veth", "peer", "name", pr.Right.Name])) =
      pr.createCmd := by
    unfold Pair.createCmd
    split_ifs <;> rfl
  unfold Pair.Create
  simp only [he]
  split_ifs <;>
    simp [Link.MoveToNs, createCmds_run, hm, hc]
  · split_ifs <;> simp [createCmds_run, hm, hc]


theorem ApplyCidr_createCmds (os : OS) (l : Link) (w : World) :
    createCmds (l.ApplyCidr os w).2.log = createCmds w.log := by
  have h : isCreate (inNetNs l.NetNs ["ip", "addr", "add", l.Cidr, "dev", l.Name], true) = false :=
    inNetNs_not_create _ _ _ rfl
  unfold Link.ApplyCidr
  simp only []
  split_ifs <;> simp [createCmds_run, h]

theorem LinkUp_createCmds (os : OS) (l : Link) (w : World) :
    createCmds (l.Up os w).2.log = createCmds w.log := by
  have h : isCreate (inNetNs l.NetNs ["ip", "link", "set", l.Name, "up"], true) = false :=
    inNetNs_not_create _ _ _ rfl
  unfold Link.Up
  simp only []
  split_ifs <;> simp [createCmds_run, h]

theorem applyRoutes_createCmds (os : OS) (ns : String) (rs : List Route) :
    ∀ w, createCmds (applyRoutes os ns rs w).2.log = createCmds w.log := by
  induction rs with
  | nil => intro w; rfl
  | cons r rest ih =>
    intro w
    have h : isCreate (inNetNs ns ["route", "add", "-net", r.Dst, "gw", r.Gw], true) = false :=
      inNetNs_not_create _ _ _ rfl
    unfold applyRoutes
    simp only []
    split_ifs
    · rw [ih]; simp [createCmds_run, h]
    · simp [createCmds_run, h]

theorem Up_createCmds (os : OS) (pr : Pair) (w : World) :
    createCmds (pr.Up os w).2.log = createCmds w.log := by
  unfold Pair.Up
  split_ifs
  · rfl
  · have h1 := ApplyCidr_createCmds os pr.Left w
    split
    · rename_i e w1 he; rw [he] at h1; exact h1
    · rename_i w1 he
      rw [he] at h1
      have h2 := ApplyCidr_createCmds os pr.Right w1
      split
      · rename_i e w2 he2; rw [he2] at h2; simp_all
      · rename_i w2 he2
        rw [he2] at h2
        have h3 := LinkUp_createCmds os pr.Left w2
        split
        · rename_i e w3 he3; rw [he3] at h3; simp_all
        · rename_i w3 he3
          rw [he3] at h3
          have h4 := LinkUp_createCmds os pr.Right w3
          split
          · rename_i e w4 he4; rw [he4] at h4; simp_all
          · rename_i w4 he4
            rw [he4] at h4
            have h5 := applyRoutes_createCmds os pr.Right.NetNs pr.Right.Routes w4
            unfold Link.ApplyRoutes
            split
            · rename_i e w5 he5; rw [he5] at h5; simp_all
            · rename_i w5 he5; rw [he5] at h5; simp_all

/-- One round of the loop of `recoverHostLinks` in which `Pair.Create` fails. -/
theorem hostLoop_create_fails (os : OS) (i j : Nat) (left right : Link) (rest : List Link)
    (s : Scheme) (w w1 : World) (e : Err) (hj : s.GetHost left.Peer.NodeName = some j)
    (hr : LinkByPeer (s.linksOf (.host j)) left.Peer = right) (hn : right.NodeName ≠ "")
    (hh : left.NodeName ++ left.Name ++ right.NodeName ++ right.Name ∉ s.pairs)
    (hc : Pair.Create os { Left := left, Right := right } w = (some e, w1)) :
    recoverHostLinksLoop os i (left :: rest) s w = (some e, s, w1) := by
  rw [recoverHostLinksLoop]
  simp only [hj, hr, hn, hh, if_false, hc]

/-- One round of the loop of `recoverHostLinks` in which `Pair.Up` fails. -/
theorem hostLoop_up_fails (os : OS) (i j : Nat) (left right : Link) (rest : List Link)
    (s : Scheme) (w w1 w2 : World) (e : Err) (p : Pair)
    (hj : s.GetHost left.Peer.NodeName = some j)
    (hr : LinkByPeer (s.linksOf (.host j)) left.Peer = right) (hn : right.NodeName ≠ "")
    (hh : left.NodeName ++ left.Name ++ right.NodeName ++ right.Name ∉ s.pairs)
    (hc : Pair.Create os { Left := left, Right := right } w = (none, w1))
    (hu : Pair.Up os { Left := left, Right := right } w1 = ((p, some e), w2)) :
    recoverHostLinksLoop os i (left :: rest) s w = (some e, s, w2) := by
  rw [recoverHostLinksLoop]
  simp only [hj, hr, hn, hh, if_false, hc, hu]

/-- One round of the loop of `recoverHostLinks` in which the pair is created
and brought up: both links are registered and the key is recorded. -/
theorem hostLoop_ok (os : OS) (i j k : Nat) (left right : Link) (rest : List Link)
    (s : Scheme) (w w1 w2 : World) (p : Pair)
    (hj : s.GetHost left.Peer.NodeName = some j)
    (hr : LinkByPeer (s.linksOf (.host j)) left.Peer = right) (hn : right.NodeName ≠ "")
    (hh : left.NodeName ++ left.Name ++ right.NodeName ++ right.Name ∉ s.pairs)
    (hc : Pair.Create os { Left := left, Right := right } w = (none, w1))
    (hu : Pair.Up os { Left := left, Right := right } w1 = ((p, none), w2))
    (hk : (s.hostAddLinkAt i left).GetHost right.NodeName = some k) :
    recoverHostLinksLoop os i (left :: rest) s w =
      recoverHostLinksLoop os i rest
        (((s.hostAddLinkAt i left).hostAddLinkAt k right).record
          (left.NodeName ++ left.Name ++ right.NodeName ++ right.Name)) w2 := by
  rw [recoverHostLinksLoop]
  simp only [hj, hr, hn, hh, if_false, hc, hu, hk]

/-- One round of the loop of `recoverHostLinks` on a link whose key is
recorded: nothing is run. -/
theorem hostLoop_skip (os : OS) (i j : Nat) (left right : Link) (rest : List Link) (s : Scheme)
    (w : World) (hj : s.GetHost left.Peer.NodeName = some j)
    (hr : LinkByPeer (s.linksOf (.host j)) left.Peer = right)
    (hh : left.NodeName ++ left.Name ++ right.NodeName ++ right.Name ∈ s.pairs) :
    recoverHostLinksLoop os i (left :: rest) s w = recoverHostLinksLoop os i rest s w := by
  rw [recoverHostLinksLoop]
  simp only [hj, hr, hh, if_true]
  split_ifs <;> rfl

/-- One pass of `recoverHostLinks` over a host of a two-host scheme whose
first link has an unrecorded key and whose further links, if any, have the
same key: on any machine `Pair.Create` runs its command exactly once. -/
theorem hostPass_creates_once (os : OS) (i j k : Nat) (left right : Link) (n : Nat)
    (s : Scheme) (w : World) (hl : s.linksOf (.host i) = left :: List.replicate n left)
    (hj : s.GetHost left.Peer.NodeName = some j)
    (hr : LinkByPeer (s.linksOf (.host j)) left.Peer = right) (hn : right.NodeName ≠ "")
    (hh : left.NodeName ++ left.Name ++ right.NodeName ++ right.Name ∉ s.pairs)
    (hk : (s.hostAddLinkAt i left).GetHost right.NodeName = some k)
    (hj' : (((s.hostAddLinkAt i left).hostAddLinkAt k right).record
      (left.NodeName ++ left.Name ++ right.NodeName ++ right.Name)).GetHost left.Peer.NodeName =
        some j)
    (hr' : LinkByPeer ((((s.hostAddLinkAt i left).hostAddLinkAt k right).record
      (left.NodeName ++ left.Name ++ right.NodeName ++ right.Name)).linksOf (.host j)) left.Peer =
        right) :
    createCmds (s.recoverHostLinks os i w).2.2.log =
      createCmds w.log ++ [Pair.createCmd { Left := left, Right := right }] ∧
    ((s.recoverHostLinks os i w).2.1 = s ∨
      (s.recoverHostLinks os i w).2.1 = ((s.hostAddLinkAt i left).hostAddLinkAt k right).record
        (left.NodeName ++ left.Name ++ right.NodeName ++ right.Name)) := by
  have hC := Create_createCmds os { Left := left, Right := right } w
  rw [Scheme.recoverHostLinks, hl]
  rcases hc : Pair.Create os { Left := left, Right := right } w with ⟨_ | e, w1⟩
  · rw [hc] at hC
    have hU := Up_createCmds os { Left := left, Right := right } w1
    rcases hu : Pair.Up os { Left := left, Right := right } w1 with ⟨⟨p, _ | e⟩, w2⟩
    · rw [hu] at hU
      rw [hostLoop_ok os i j k left right _ s w w1 w2 p hj hr hn hh hc hu hk]
      have hskip : ∀ m, recoverHostLinksLoop os i (List.replicate m left)
          (((s.hostAddLinkAt i left).hostAddLinkAt k right).record
            (left.NodeName ++ left.Name ++ right.NodeName ++ right.Name)) w2 =
          (none, ((s.hostAddLinkAt i left).hostAddLinkAt k right).record
            (left.NodeName ++ left.Name ++ right.NodeName ++ right.Name), w2) := by
        intro m
        induction m with
        | zero => rfl
        | succ m ih =>
          rw [List.replicate_succ, hostLoop_skip os i j left right _ _ _ hj' hr' ?_, ih]
          unfold Scheme.record
          split_ifs with hmem
          · exact hmem
          · simp
      rw [hskip]
      exact ⟨by rw [hU, hC], Or.inr rfl⟩
    · rw [hu] at hU
      rw [hostLoop_up_fails os i j left right _ s w w1 w2 e p hj hr hn hh hc hu]
      exact ⟨by rw [hU, hC], Or.inl rfl⟩
  · rw [hc] at hC
    rw [hostLoop_create_fails os i j left right _ s w w1 e hj hr hn hh hc]
    exact ⟨hC, Or.inl rfl⟩

/-- With no process declared on any host, the process loop of `Recover` runs
nothing and returns nil. -/
theorem recoverAllProcs_noProcs (os : OS) : ∀ (n i : Nat) (s : Scheme) (w : World),
    s.noProcs = true → (recoverAllProcs os n i s w).1 = Outcome.nil ∧
      (recoverAllProcs os n i s w).2.2 = w ∧ (recoverAllProcs os n i s w).2.1.noProcs = true := by
  intro n
  induction n with
  | zero => intro i s w h; exact ⟨rfl, rfl, h⟩
  | succ n ih =>
    intro i s w h
    rw [recoverAllProcs]
    rcases hg : s.Hosts.get? i with _ | host
    · exact ⟨rfl, rfl, h⟩
    · have hall : ∀ x ∈ s.Hosts, x.Procs.isEmpty = true := by
        simpa [Scheme.noProcs] using h
      have hp : host.Procs = [] := List.isEmpty_iff.mp (hall host (List.get?_mem hg))
      have hr : host.recoverProcs os w = (Outcome.nil, host, w) := by
        rw [Host.recoverProcs, hp]; rfl
      simp only [hr]
      apply ih
      simp only [Scheme.noProcs, List.all_eq_true]
      intro h' hm'
      rcases List.mem_or_eq_of_mem_set hm' with h1 | h1
      · exact hall h' h1
      · rw [h1]; exact hall host (List.get?_mem hg)

/-- The pass over `h1` of the two-host scheme, on any machine. -/
theorem twoHosts_pass1 (os : OS) :
    createCmds (twoHosts.recoverHostLinks os 0 World.init).2.2.log =
      [Pair.createCmd { Left := linkH1, Right := linkH2 }] ∧
    ((twoHosts.recoverHostLinks os 0 World.init).2.1 = twoHosts ∨
      (twoHosts.recoverHostLinks os 0 World.init).2.1 = twoHostsAfter) :=
  hostPass_creates_once os 0 1 1 linkH1 linkH2 0 twoHosts World.init rfl (by decide) (by decide)
    (by decide) (by decide) (by decide) (by decide) (by decide)

/-- The pass over `h2` of the two-host scheme as declared, on any machine. -/
theorem twoHosts_pass2 (os : OS) (w : World) :
    createCmds (twoHosts.recoverHostLinks os 1 w).2.2.log =
      createCmds w.log ++ [Pair.createCmd { Left := linkH2, Right := linkH1 }] ∧
    (twoHosts.recoverHostLinks os 1 w).2.1.noProcs = true := by
  have h := hostPass_creates_once os 1 0 0 linkH2 linkH1 0 twoHosts w rfl (by decide) (by decide)
    (by decide) (by decide) (by decide) (by decide) (by decide)
  refine ⟨h.1, ?_⟩
  rcases h.2 with e | e <;> rw [e] <;> decide

/-- The pass over `h2` after the pass over `h1` went through, on any machine. -/
theorem twoHostsAfter_pass2 (os : OS) (w : World) :
    createCmds (twoHostsAfter.recoverHostLinks os 1 w).2.2.log =
      createCmds w.log ++ [Pair.createCmd { Left := linkH2, Right := linkH1 }] ∧
    (twoHostsAfter.recoverHostLinks os 1 w).2.1.noProcs = true := by
  have h := hostPass_creates_once os 1 0 0 linkH2 linkH1 1 twoHostsAfter w rfl (by decide)
    (by decide) (by decide) (by decide) (by decide) (by decide) (by decide)
  refine ⟨h.1, ?_⟩
  rcases h.2 with e | e <;> rw [e] <;> decide


theorem addPatchPortAt_Hosts (os : OS) (s : Scheme) (i : Nat) (l : Link) (w : World) :
    (s.addPatchPortAt os i l w).2.1.Hosts = s.Hosts := by
  unfold Scheme.addPatchPortAt
  split <;> rfl

theorem addLinkAt_Hosts (os : OS) (s : Scheme) (i : Nat) (l : Link) (w : World) :
    (s.addLinkAt os i l w).2.1.Hosts = s.Hosts := by
  unfold Scheme.addLinkAt
  split <;> rfl

theorem record_Hosts (s : Scheme) (k : String) : (s.record k).Hosts = s.Hosts := by
  unfold Scheme.record
  split_ifs <;> rfl

theorem hostAddLinkAt_noProcs (s : Scheme) (i : Nat) (l : Link) (h : s.noProcs = true) :
    (s.hostAddLinkAt i l).noProcs = true := by
  unfold Scheme.hostAddLinkAt
  rcases hg : s.Hosts.get? i with _ | host
  · exact h
  · have hall : ∀ x ∈ s.Hosts, x.Procs.isEmpty = true := by
      simpa [Scheme.noProcs] using h
    simp only [Scheme.noProcs, List.all_eq_true]
    intro h' hm'
    rcases List.mem_or_eq_of_mem_set hm' with h1 | h1
    · exact hall h' h1
    · rw [h1]; exact hall host (List.get?_mem hg)

theorem record_noProcs (s : Scheme) (k : String) (h : s.noProcs = true) :
    (s.record k).noProcs = true := by
  unfold Scheme.noProcs
  rw [record_Hosts]
  exact h

/-- The loop of `recoverSwitchPorts` leaves the hosts as they are. -/
theorem switchLoop_Hosts (os : OS) (i : Nat) : ∀ (ports : List Link) (s : Scheme) (w : World),
    (recoverSwitchPortsLoop os i ports s w).2.1.Hosts = s.Hosts := by
  intro ports
  induction ports with
  | nil => intro s w; rfl
  | cons port rest ih =>
    intro s w
    rw [recoverSwitchPortsLoop]
    split
    · exact ih _ _
    · split
      · rfl
      · simp only []
        split_ifs
        · exact ih _ _
        · split
          · rw [ih, addPatchPortAt_Hosts, addPatchPortAt_Hosts]
          · split
            · rfl
            · split
              · rename_i w5 _ _ e s1 w3 heq
                have := addLinkAt_Hosts os s i port w5
                rw [heq] at this
                exact this
              · rename_i w5 _ _ s1 w3 heq
                have hs1 := addLinkAt_Hosts os s i port w5
                rw [heq] at hs1
                split
                · exact hs1
                · rw [ih, record_Hosts]; exact hs1

/-- The loop of `recoverHostLinks` declares no process. -/
theorem hostLoop_noProcs (os : OS) (i : Nat) : ∀ (links : List Link) (s : Scheme) (w : World),
    s.noProcs = true → (recoverHostLinksLoop os i links s w).2.1.noProcs = true := by
  intro links
  induction links with
  | nil => intro s w h; exact h
  | cons left rest ih =>
    intro s w h
    rw [recoverHostLinksLoop]
    split
    · exact ih _ _ h
    · simp only []
      split_ifs
      · exact ih _ _ h
      · exact ih _ _ h
      · split
        · exact h
        · split
          · exact h
          · split
            · exact hostAddLinkAt_noProcs _ _ _ h
            · exact ih _ _ (record_noProcs _ _
                (hostAddLinkAt_noProcs _ _ _ (hostAddLinkAt_noProcs _ _ _ h)))

theorem recoverSwitches_noProcs (os : OS) : ∀ (n i : Nat) (s : Scheme) (w : World),
    s.noProcs = true → (recoverSwitches os n i s w).1.noProcs = true := by
  intro n
  induction n with
  | zero => intro i s w h; exact h
  | succ n ih =>
    intro i s w h
    rw [recoverSwitches]
    apply ih
    unfold Scheme.noProcs Scheme.recoverSwitchPorts
    rw [switchLoop_Hosts]
    exact h

theorem recoverHosts_noProcs (os : OS) : ∀ (n i : Nat) (s : Scheme) (w : World),
    s.noProcs = true → (recoverHosts os n i s w).1.noProcs = true := by
  intro n
  induction n with
  | zero => intro i s w h; exact h
  | succ n ih =>
    intro i s w h
    rw [recoverHosts]
    apply ih
    exact hostLoop_noProcs os i _ s w h

/-- With no process declared on any host, `Recover` returns nil whatever
happens while the links are recovered. -/
theorem recover_nil (os : OS) (s : Scheme) (w : World) (h : s.noProcs = true) :
    (s.Recover os w).1 = Outcome.nil := by
  unfold Scheme.Recover
  exact (recoverAllProcs_noProcs os _ 0 _ _
    (recoverHosts_noProcs os _ 0 _ _ (recoverSwitches_noProcs os _ 0 s w h))).1

theorem set_of_get? {α : Type} : ∀ (l : List α) (i : Nat) (a : α), l.get? i = some a →
    l.set i a = l := by
  intro l
  induction l with
  | nil => intro i a h; rfl
  | cons x xs ih =>
    intro i a h
    cases i with
    | zero =>
      have h' : x = a := by simpa using h
      rw [h']; rfl
    | succ i =>
      have h' : xs.get? i = some a := h
      rw [List.set_cons_succ, ih i a h']

/-- With no process declared on any host, the process loop of `Recover` leaves
the scheme and the history as they are. -/
theorem recoverAllProcs_id (os : OS) : ∀ (n i : Nat) (s : Scheme) (w : World),
    s.noProcs = true → recoverAllProcs os n i s w = (Outcome.nil, s, w) := by
  intro n
  induction n with
  | zero => intro i s w _; rfl
  | succ n ih =>
    intro i s w h
    rw [recoverAllProcs]
    rcases hg : s.Hosts.get? i with _ | host
    · rfl
    · have hall : ∀ x ∈ s.Hosts, x.Procs.isEmpty = true := by
        simpa [Scheme.noProcs] using h
      have hp : host.Procs = [] := List.isEmpty_iff.mp (hall host (List.get?_mem hg))
      have hr : host.recoverProcs os w = (Outcome.nil, host, w) := by
        rw [Host.recoverProcs, hp]; rfl
      simp only [hr, set_of_get? _ _ _ hg]
      exact ih _ _ _ h

theorem LinkByPeer_mem (ls : List Link) (p : Peer) :
    LinkByPeer ls p ∈ ls ∨ LinkByPeer ls p = Link.zero := by
  induction ls with
  | nil => right; rfl
  | cons l rest ih =>
    unfold LinkByPeer
    split_ifs
    · left; exact List.mem_cons_self _ _
    · rcases ih with h | h
      · left; exact List.mem_cons_of_mem _ h
      · right; exact h

theorem linksOf_allDown (s : Scheme) (i : Nat) (h : s.allDown = true) :
    ∀ l ∈ s.linksOf (.host i), l.State = "DOWN" := by
  intro l hl
  have hl' : l ∈ (s.Hosts.get? i).elim [] (·.Links) := hl
  rcases hg : s.Hosts.get? i with _ | host
  · rw [hg] at hl'; simp at hl'
  · rw [hg] at hl'
    simp only [Option.elim] at hl'
    have hl := hl'
    have hall : ∀ x ∈ s.Hosts, ∀ y ∈ x.Links, y.State = "DOWN" := by
      simpa [Scheme.allDown] using h
    exact hall host (List.get?_mem hg) l hl

theorem hostAddLinkAt_allDown (s : Scheme) (i : Nat) (l : Link) (h : s.allDown = true)
    (hl : l.State = "DOWN") : (s.hostAddLinkAt i l).allDown = true := by
  unfold Scheme.hostAddLinkAt
  rcases hg : s.Hosts.get? i with _ | host
  · exact h
  · have hall : ∀ x ∈ s.Hosts, ∀ y ∈ x.Links, y.State = "DOWN" := by
      simpa [Scheme.allDown] using h
    simp only [Scheme.allDown, List.all_eq_true, beq_iff_eq]
    intro h' hm' y hy
    rcases List.mem_or_eq_of_mem_set hm' with h1 | h1
    · exact hall h' h1 y hy
    · rw [h1] at hy
      simp only [Host.AddLink, List.mem_append, List.mem_singleton] at hy
      rcases hy with hy | hy
      · exact hall host (List.get?_mem hg) y hy
      · rw [hy]; exact hl

theorem record_allDown (s : Scheme) (k : String) (h : s.allDown = true) :
    (s.record k).allDown = true := by
  unfold Scheme.allDown
  rw [record_Hosts]
  exact h

/-- The loop of `recoverHostLinks` never changes a State: when every link held
by a host is `DOWN` before, every link held by a host is `DOWN` after. -/
theorem hostLoop_allDown (os : OS) (i : Nat) : ∀ (links : List Link) (s : Scheme) (w : World),
    (∀ l ∈ links, l.State = "DOWN") → s.allDown = true →
    (recoverHostLinksLoop os i links s w).2.1.allDown = true := by
  intro links
  induction links with
  | nil => intro s w _ h; exact h
  | cons left rest ih =>
    intro s w hl h
    have hrest : ∀ l ∈ rest, l.State = "DOWN" := fun l m => hl l (List.mem_cons_of_mem _ m)
    have hleft : left.State = "DOWN" := hl left (List.mem_cons_self _ _)
    rw [recoverHostLinksLoop]
    split
    · exact ih _ _ hrest h
    · rename_i j _
      simp only []
      split_ifs with hn hh
      · exact ih _ _ hrest h
      · exact ih _ _ hrest h
      · have hright : (LinkByPeer (s.linksOf (.host j)) left.Peer).State = "DOWN" := by
          rcases LinkByPeer_mem (s.linksOf (.host j)) left.Peer with hm | hz
          · exact linksOf_allDown s j h _ hm
          · rw [hz] at hn; exact absurd rfl hn
        split
        · exact h
        · split
          · exact h
          · split
            · exact hostAddLinkAt_allDown _ _ _ h hleft
            · exact ih _ _ hrest (record_allDown _ _
                (hostAddLinkAt_allDown _ _ _ (hostAddLinkAt_allDown _ _ _ h hleft) hright))

theorem recoverHosts_allDown (os : OS) : ∀ (n i : Nat) (s : Scheme) (w : World),
    s.allDown = true → (recoverHosts os n i s w).1.allDown = true := by
  intro n
  induction n with
  | zero => intro i s w h; exact h
  | succ n ih =>
    intro i s w h
    rw [recoverHosts]
    apply ih
    exact hostLoop_allDown os i _ s w (linksOf_allDown s i h) h

theorem recoverSwitches_Hosts (os : OS) : ∀ (n i : Nat) (s : Scheme) (w : World),
    (recoverSwitches os n i s w).1.Hosts = s.Hosts := by
  intro n
  induction n with
  | zero => intro i s w; rfl
  | succ n ih =>
    intro i s w
    rw [recoverSwitches, ih]
    unfold Scheme.recoverSwitchPorts
    rw [switchLoop_Hosts]

/-- Whatever the machine does, `Recover` leaves every host link `DOWN` when all
were declared `DOWN` and no process is declared. -/
theorem recover_allDown (os : OS) (s : Scheme) (w : World) (h : s.allDown = true)
    (hp : s.noProcs = true) : (s.Recover os w).2.1.allDown = true := by
  unfold Scheme.Recover
  have h1 : (recoverSwitches os s.Switches.length 0 s w).1.allDown = true := by
    unfold Scheme.allDown
    rw [recoverSwitches_Hosts]
    exact h
  have h2 := recoverHosts_allDown os
    (recoverSwitches os s.Switches.length 0 s w).1.Hosts.length 0 _
    (recoverSwitches os s.Switches.length 0 s w).2 h1
  have h3 := recoverHosts_noProcs os
    (recoverSwitches os s.Switches.length 0 s w).1.Hosts.length 0 _
    (recoverSwitches os s.Switches.length 0 s w).2
    (recoverSwitches_noProcs os s.Switches.length 0 s w hp)
  simp only []
  rw [recoverAllProcs_id os _ 0 _ _ h3]
  exact h2

set_option maxRecDepth 100000 in
/-- C5 fails on the code: for the two hosts `h1` and `h2`, each with one link
whose peer names the other, and a fresh pair set, one `Recover` pass runs the
`ip link add ... type veth` command of `Pair.Create` twice, once from each
endpoint, on every machine. On a machine that tracks its interfaces the
first succeeds and the second fails. -/
theorem recover_twoHosts_creates_twice (os : OS) :
    createCmds (twoHosts.Recover os World.init).2.2.log =
      [["ip", "link", "add", "name", "veth0", "type", "veth", "peer", "name", "veth0",
          "netns", "h2"],
       ["ip", "link", "add", "name", "veth0", "type", "veth", "peer", "name", "veth0",
          "netns", "h1"]] ∧
    (twoHosts.Recover linuxOS World.init).2.2.log.filter isCreate =
      [(["ip", "link", "add", "name", "veth0", "type", "veth", "peer", "name", "veth0",
          "netns", "h2"], true),
       (["ip", "link", "add", "name", "veth0", "type", "veth", "peer", "name", "veth0",
          "netns", "h1"], false)] := by
  refine ⟨?_, by decide⟩

  have hR : twoHosts.Recover os World.init =
      recoverAllProcs os
        ((twoHosts.recoverHostLinks os 0 World.init).2.1.recoverHostLinks os 1
          (twoHosts.recoverHostLinks os 0 World.init).2.2).2.1.Hosts.length 0
        ((twoHosts.recoverHostLinks os 0 World.init).2.1.recoverHostLinks os 1
          (twoHosts.recoverHostLinks os 0 World.init).2.2).2.1
        ((twoHosts.recoverHostLinks os 0 World.init).2.1.recoverHostLinks os 1
          (twoHosts.recoverHostLinks os 0 World.init).2.2).2.2 := rfl
  rw [hR]
  obtain ⟨h1c, h1s⟩ := twoHosts_pass1 os
  rcases h1s with e | e <;> rw [e]
  · obtain ⟨h2c, h2p⟩ := twoHosts_pass2 os (twoHosts.recoverHostLinks os 0 World.init).2.2
    rw [(recoverAllProcs_noProcs os _ 0 _ _ h2p).2.1, h2c, h1c]
    rfl
  · obtain ⟨h2c, h2p⟩ := twoHostsAfter_pass2 os (twoHosts.recoverHostLinks os 0 World.init).2.2
    rw [(recoverAllProcs_noProcs os _ 0 _ _ h2p).2.1, h2c, h1c]
    rfl

set_option maxRecDepth 100000 in
/-- C6 fails on the code (evaluation at the failing inputs). On a machine that
tracks its interfaces, a second `Recover` pass over the two hosts `h1` and
`h2`, run right after the first with the scheme and the machine as the first
left them, runs the `ip link add ... type veth` command of `Pair.Create` again
for the connection the first pass created: the pair set holds the key of one
direction only. And on a machine whose `ip link show` does not find patch
ports, a second pass over two switches joined by patch ports runs `ovs-vsctl
add-port` again: the patch branch records no key at all. -/
theorem recover_twice_creates_again :
    (twoHosts.Recover linuxOS World.init).2.1.pairs = ["h1veth0h2veth0"] ∧
    (((twoHosts.Recover linuxOS World.init).2.1.Recover linuxOS
        (twoHosts.Recover linuxOS World.init).2.2).2.2.log.drop
      (twoHosts.Recover linuxOS World.init).2.2.log.length).filter isCreate =
      [(["ip", "link", "add", "name", "veth0", "type", "veth", "peer", "name", "veth0",
          "netns", "h1"], false)] ∧
    ((twoSwitches "s1" "s2" (patchPort "s1" "s2") (patchPort "s2" "s1") "" "").Recover blindOS
        World.init).2.1.pairs = [] ∧
    (((((twoSwitches "s1" "s2" (patchPort "s1" "s2") (patchPort "s2" "s1") "" "").Recover blindOS
        World.init).2.1.Recover blindOS
        ((twoSwitches "s1" "s2" (patchPort "s1" "s2") (patchPort "s2" "s1") "" "").Recover blindOS
          World.init).2.2).2.2.log.drop
      ((twoSwitches "s1" "s2" (patchPort "s1" "s2") (patchPort "s2" "s1") "" "").Recover blindOS
        World.init).2.2.log.length).filter isAddPort).length = 24 := by
  refine ⟨by decide, by decide, by decide, by decide⟩

set_option maxRecDepth 100000 in
/-- C7 fails on the code: on every machine and after any history `Recover`
returns nil for the scheme whose switch port names the absent peer `h9` and
for the two-host scheme, although `recoverSwitchPorts` returns the error for
the absent peer when the port does not exist yet, and `recoverHostLinks`
returns the error of the failed `ip link add`. -/
theorem recover_drops_errors (os : OS) (w : World) :
    (ghostPeer.Recover os w).1 = Outcome.nil ∧
    (twoHosts.Recover os w).1 = Outcome.nil ∧
    (ghostPeer.recoverSwitchPorts linuxOS 0 World.init).1 = some (Err.cantFindHost "h9") ∧
    (twoHosts.recoverHostLinks noVethOS 0 World.init).1 =
      some (Err.command ["ip", "link", "add", "name", "veth0", "type", "veth", "peer", "name",
        "veth0", "netns", "h2"] "RTNETLINK answers: Operation not supported") :=
  ⟨recover_nil os ghostPeer w (by decide), recover_nil os twoHosts w (by decide), by decide,
    by decide⟩

set_option maxRecDepth 100000 in
/-- C8 fails on the code: for the two hosts `h1` and `h2` whose links are
declared `DOWN`, after a `Recover` pass every link held by a host still has
State `DOWN`, on every machine. On a machine where every command succeeds
each host holds its link three times, each copy `DOWN`, although `Pair.Up`
returned the pair with both States `UP`. -/
theorem recover_twoHosts_state_down (os : OS) :
    (twoHosts.Recover os World.init).2.1.allDown = true ∧
    (twoHosts.Recover okOS World.init).1 = Outcome.nil ∧
    (twoHosts.Recover okOS World.init).2.2.log.all (fun c => c.2) = true ∧
    (twoHosts.Recover okOS World.init).2.1.Hosts.map
        (fun h => h.Links.map (fun l => (l.NodeName, l.Peer.NodeName, l.State))) =
      [[("h1", "h2", "DOWN"), ("h1", "h2", "DOWN"), ("h1", "h2", "DOWN")],
       [("h2", "h1", "DOWN"), ("h2", "h1", "DOWN"), ("h2", "h1", "DOWN")]] ∧
    ((Pair.Up okOS { Left := linkH1, Right := linkH2 } World.init).1.1.Left.State,
     (Pair.Up okOS { Left := linkH1, Right := linkH2 } World.init).1.1.Right.State) =
      ("UP", "UP") :=
  ⟨recover_allDown os twoHosts World.init (by decide) (by decide), by decide, by decide,
    by decide, by decide⟩
theorem hexVal_lt (c : Char) (v : Nat) (h : hexVal c = some v) : v < 16 := by
  unfold hexVal at h
  split_ifs at h <;> simp only [Option.some.injEq] at h <;> omega

theorem xtoi2_lt (s : List Char) (e : Option Char) (v : Nat) (h : xtoi2 s e = some v) :
    v < 256 := by
  unfold xtoi2 at h
  split at h
  · simp only [] at h
    split_ifs at h
    split at h
    · rename_i a b ha hb
      simp only [Option.some.injEq] at h
      have := hexVal_lt _ _ ha
      have := hexVal_lt _ _ hb
      omega
    · exact absurd h (by simp)
  · exact absurd h (by simp)

theorem macGroups_sound (sep : Char) : ∀ (n : Nat) (s : List Char) (bs : List Nat),
    macGroups sep n s = some bs → bs.length = n ∧ ∀ b ∈ bs, b < 256 := by
  intro n
  induction n with
  | zero =>
    intro s bs h
    simp only [macGroups, Option.some.injEq] at h
    subst h
    exact ⟨rfl, by simp⟩
  | succ n ih =>
    intro s bs h
    rw [macGroups] at h
    split at h
    · exact absurd h (by simp)
    · rename_i b hb
      split at h
      · exact absurd h (by simp)
      · rename_i rest hrest
        simp only [Option.some.injEq] at h
        subst h
        obtain ⟨hl, hlt⟩ := ih _ _ hrest
        refine ⟨by simp [hl], ?_⟩
        intro x hx
        rcases List.mem_cons.mp hx with h1 | h1
        · rw [h1]; exact xtoi2_lt _ _ _ hb
        · exact hlt x h1

theorem macQuads_sound (sep : Char) : ∀ (n : Nat) (s : List Char) (bs : List Nat),
    macQuads sep n s = some bs → bs.length = 2 * n ∧ ∀ b ∈ bs, b < 256 := by
  intro n
  induction n with
  | zero =>
    intro s bs h
    simp only [macQuads, Option.some.injEq] at h
    subst h
    exact ⟨rfl, by simp⟩
  | succ n ih =>
    intro s bs h
    rw [macQuads] at h
    split at h
    · rename_i a b ha hb
      split at h
      · exact absurd h (by simp)
      · rename_i rest hrest
        simp only [Option.some.injEq] at h
        subst h
        obtain ⟨hl, hlt⟩ := ih _ _ hrest
        refine ⟨by simp [hl]; omega, ?_⟩
        intro x hx
        rcases List.mem_cons.mp hx with h1 | h1
        · rw [h1]; exact xtoi2_lt _ _ _ ha
        · rcases List.mem_cons.mp h1 with h2 | h2
          · rw [h2]; exact xtoi2_lt _ _ _ hb
          · exact hlt x h2
    · exact absurd h (by simp)

/-- Whatever text `ParseMAC` accepts, the result has at least six octets, each
below 256. -/
theorem ParseMAC_sound (mac : String) (hw : List Nat) (h : ParseMAC mac = some hw) :
    (∃ a b c d e f rest, hw = a :: b :: c :: d :: e :: f :: rest) ∧ ∀ x ∈ hw, x < 256 := by
  have key : (hw.length = 6 ∨ hw.length = 8 ∨ hw.length = 20) ∧ ∀ x ∈ hw, x < 256 := by
    unfold ParseMAC at h
    simp only [] at h
    split_ifs at h with h1 h2 h3 h4 h5 h6 h7
    · obtain ⟨hl, hlt⟩ := macGroups_sound _ _ _ _ h
      exact ⟨by omega, hlt⟩
    · obtain ⟨hl, hlt⟩ := macQuads_sound _ _ _ _ h
      exact ⟨by omega, hlt⟩
  refine ⟨?_, key.2⟩
  have hlen : 6 ≤ hw.length := by omega
  match hw, hlen with
  | a :: b :: c :: d :: e :: f :: rest, _ => exact ⟨a, b, c, d, e, f, rest, rfl⟩


set_option maxRecDepth 100000 in
theorem hexChar_table : ∀ d, d < 16 → hexChar d = lowerHexDigit d ∧ hexVal (hexChar d) = some d := by
  decide

theorem octet_hex (b : Nat) (hb : b < 256) (e : Option Char) :
    [hexChar (b / 16), hexChar (b % 16)] = octetText b ∧
      xtoi2 [hexChar (b / 16), hexChar (b % 16)] e = some b := by
  have h1 := hexChar_table (b / 16) (by omega)
  have h2 := hexChar_table (b % 16) (by omega)
  refine ⟨by simp only [octetText, h1.1, h2.1], ?_⟩
  simp only [xtoi2, h1.2, h2.2, not_true_eq_false, if_false, Option.some.injEq]
  omega

theorem xtoi2_octet (b : Nat) (hb : b < 256) (sep : Char) (rest : List Char) :
    xtoi2 (hexChar (b / 16) :: hexChar (b % 16) :: sep :: rest) (some sep) = some b := by
  have h1 := hexChar_table (b / 16) (by omega)
  have h2 := hexChar_table (b % 16) (by omega)
  simp only [xtoi2, h1.2, h2.2, beq_self_eq_true, not_true_eq_false, if_false,
    Option.some.injEq]
  omega

/-- Reading back six octets written by `hwChars`. -/
theorem ParseMAC_hwChars (a b c d e f : Nat) (ha : a < 256) (hb : b < 256) (hc : c < 256)
    (hd : d < 256) (he : e < 256) (hf : f < 256) :
    ParseMAC (String.mk (hwChars [a, b, c, d, e, f])) = some [a, b, c, d, e, f] := by
  have h6 := (octet_hex f hf (some ':')).2
  simp only [ParseMAC, hwChars, List.length_cons, List.length_nil, List.get?_cons_succ,
    List.get?_cons_zero, Option.getD_some, macGroups, List.drop_succ_cons, List.drop_zero,
    xtoi2_octet _ ha, xtoi2_octet _ hb, xtoi2_octet _ hc, xtoi2_octet _ hd, xtoi2_octet _ he, h6]
  simp

theorem hwChars_six (a b c d e f : Nat) (ha : a < 256) (hb : b < 256) (hc : c < 256)
    (hd : d < 256) (he : e < 256) (hf : f < 256) :
    String.mk (hwChars [a, b, c, d, e, f]) = macText a b c d e f := by
  have e1 := (octet_hex a ha none).1
  have e2 := (octet_hex b hb none).1
  have e3 := (octet_hex c hc none).1
  have e4 := (octet_hex d hd none).1
  have e5 := (octet_hex e he none).1
  have e6 := (octet_hex f hf none).1
  simp only [macText, ← e1, ← e2, ← e3, ← e4, ← e5, ← e6, hwChars, List.cons_append,
    List.nil_append]

/-- C14: for every seed that parses as a hardware address and every outcome
`r` of a successful read of the random source, the first octet of the text
`NextMac` returns is the first octet of the seed, so the locally administered
bit (0x02 of the first octet) is set in the result exactly when the seed has
it: the `buf[0] |= 2` of the source acts on a byte that is not printed. -/
theorem nextMac_first_octet_of_seed (p : Pool) (mac : String) (hw r : List Nat)
    (h : ParseMAC mac = some hw) :
    firstOctet (p.NextMac mac (some r)) = some (hw.getD 0 0) ∧
      locallyAdministered (p.NextMac mac (some r)) = (hw.getD 0 0 &&& 2 != 0) := by
  obtain ⟨⟨a, b, c, d, e, f, rest, rfl⟩, hlt⟩ := ParseMAC_sound mac _ h
  have ha : a < 256 := hlt a (by simp)
  have h1 : firstOctet (p.NextMac mac (some r)) = some a := by
    simp only [Pool.NextMac, h, firstOctet, hwChars, List.getD_cons_zero, List.take_succ_cons,
      List.take_zero]
    exact (octet_hex a ha none).2
  refine ⟨by simpa using h1, ?_⟩
  simp only [locallyAdministered, h1, List.getD_cons_zero]

set_option maxRecDepth 100000 in
/-- Failing input for C14: with the seed `00:11:22:33:44:55` the result starts
with the octet 0 whatever the random bytes are, and the bit is not set. -/
theorem nextMac_first_octet_of_seed_witness :
    ParseMAC "00:11:22:33:44:55" = some [0, 17, 34, 51, 68, 85] ∧
      ∀ (p : Pool) (r : List Nat),
        firstOctet (p.NextMac "00:11:22:33:44:55" (some r)) = some 0 ∧
          locallyAdministered (p.NextMac "00:11:22:33:44:55" (some r)) = false :=
  ⟨by decide, fun p r => nextMac_first_octet_of_seed p "00:11:22:33:44:55" [0, 17, 34, 51, 68, 85] r (by decide)⟩

/-- C15: for a seed that parses as a hardware address and six random bytes
`r0 .. r5`, `NextMac` returns six two-digit lower case hexadecimal octets
joined by colons: the first three octets of the seed followed by `r3`, `r4`,
`r5`; the text reads back as these six octets. For a seed that does not parse
it returns the empty string, whatever the random source does. -/
theorem nextMac_oui_and_random (p : Pool) (mac : String) (r0 r1 r2 r3 r4 r5 : Nat)
    (hr : r3 < 256 ∧ r4 < 256 ∧ r5 < 256) :
    (∀ hw, ParseMAC mac = some hw →
      ∃ a b c rest, hw = a :: b :: c :: rest ∧
        p.NextMac mac (some [r0, r1, r2, r3, r4, r5]) = macText a b c r3 r4 r5 ∧
        ParseMAC (p.NextMac mac (some [r0, r1, r2, r3, r4, r5])) = some [a, b, c, r3, r4, r5]) ∧
    (ParseMAC mac = none → ∀ rnd, p.NextMac mac rnd = "") := by
  constructor
  · intro hw h
    obtain ⟨⟨a, b, c, d, e, f, rest, rfl⟩, hlt⟩ := ParseMAC_sound mac _ h
    have ha : a < 256 := hlt a (by simp)
    have hb : b < 256 := hlt b (by simp)
    have hc : c < 256 := hlt c (by simp)
    have hN : p.NextMac mac (some [r0, r1, r2, r3, r4, r5]) =
        String.mk (hwChars [a, b, c, r3, r4, r5]) := by
      simp [Pool.NextMac, h]
    refine ⟨a, b, c, _, rfl, ?_, ?_⟩
    · rw [hN]; exact hwChars_six a b c r3 r4 r5 ha hb hc hr.1 hr.2.1 hr.2.2
    · rw [hN]; exact ParseMAC_hwChars a b c r3 r4 r5 ha hb hc hr.1 hr.2.1 hr.2.2
  · intro h rnd
    simp only [Pool.NextMac, h]

set_option maxRecDepth 100000 in
/-- Witness for C15: the seed `52:54:00:12:34:56` and the random bytes
`1 2 3 4 5 6` give `52:54:00:04:05:06`; the text `eth0` gives the empty
string. -/
theorem nextMac_oui_and_random_witness :
    Pool.zero.NextMac "52:54:00:12:34:56" (some [1, 2, 3, 4, 5, 6]) = "52:54:00:04:05:06" ∧
    (∃ a b c rest, [0x52, 0x54, 0x00, 0x12, 0x34, 0x56] = a :: b :: c :: rest ∧
        Pool.zero.NextMac "52:54:00:12:34:56" (some [1, 2, 3, 4, 5, 6]) = macText a b c 4 5 6 ∧
        ParseMAC (Pool.zero.NextMac "52:54:00:12:34:56" (some [1, 2, 3, 4, 5, 6])) =
          some [a, b, c, 4, 5, 6]) ∧
    Pool.zero.NextMac "eth0" (some [1, 2, 3, 4, 5, 6]) = "" :=
  ⟨by decide,
   (nextMac_oui_and_random Pool.zero "52:54:00:12:34:56" 1 2 3 4 5 6 (by decide)).1 _ (by decide),
   (nextMac_oui_and_random Pool.zero "eth0" 1 2 3 4 5 6 (by decide)).2 (by decide) _⟩

/-! ## The two views of `net.ParseCIDR` agree on IPv4 text -/

/-- A decimal digit is none of the marks `netip.ParseAddr` looks for. -/
theorem isDigit_not_mark (c : Char) (h : isDigit c = true) : ¬ (c = '.' ∨ c = ':' ∨ c = '%') := by
  rintro (rfl | rfl | rfl) <;> revert h <;> decide

/-- A field `parseOctet` accepts holds digits only. -/
theorem parseOctet_digits (cs : List Char) (n : Nat) (h : parseOctet cs = some n) :
    cs.all isDigit = true := by
  unfold parseOctet at h
  split_ifs at h with h1 h2
  simpa using h2

/-- Text that splits at a dot after a run of digits is sent to the IPv4 branch. -/
theorem firstMark_dotted : ∀ (cs f g : List Char) (rest : List (List Char)),
    splitAt '.' cs = f :: g :: rest → f.all isDigit = true → firstMark cs = some '.' := by
  intro cs
  induction cs with
  | nil => intro f g rest h; simp [splitAt] at h
  | cons c cs ih =>
    intro f g rest h hf
    by_cases hc : c = '.'
    · simp [firstMark, hc]
    · simp only [splitAt, hc, if_false] at h
      rcases hs : splitAt '.' cs with _ | ⟨f1, fs⟩
      · rw [hs] at h
        simp at h
      · rw [hs] at h
        simp only [List.cons.injEq] at h
        obtain ⟨rfl, rfl⟩ := h
        simp only [List.all_cons, Bool.and_eq_true] at hf
        have hm := isDigit_not_mark c hf.1
        simp only [firstMark, hm, if_false]
        exact ih f1 g rest hs hf.2

/-- Every text the IPv4 model `ParseCIDR` accepts is accepted by `cidrParses`. -/
theorem cidrParses_of_ParseCIDR (s : String) (h : (ParseCIDR s).isSome = true) :
    cidrParses s = true := by
  unfold ParseCIDR parseCIDRChars at h
  unfold cidrParses
  rcases hcut : cutSlash s.data with _ | ⟨addr, mask⟩
  · rw [hcut] at h
    simp at h
  · rw [hcut] at h
    simp only at h ⊢
    rcases hip : parseIPv4 addr with _ | bs
    · rw [hip] at h
      simp at h
    · rcases hpl : parsePrefixLen mask with _ | n
      · rw [hip, hpl] at h
        simp at h
      · have hmark : firstMark addr = some '.' := by
          unfold parseIPv4 at hip
          split at hip
          · rename_i a b c d hsp
            rcases ha : parseOctet a with _ | va
            · rw [ha] at hip
              simp at hip
            · exact firstMark_dotted addr a b [c, d] hsp (parseOctet_digits a va ha)
          · simp at hip
        have hbits : addrBitLen addr = some 32 := by
          simp [addrBitLen, hmark, hip]
        rw [hbits]
        unfold parsePrefixLen at hpl
        split_ifs at hpl with h1 h2 h3
        simp only [prefixLenOk, Bool.and_eq_true, Bool.not_eq_true', decide_eq_true_eq]
        refine ⟨⟨?_, ?_⟩, ?_⟩
        · cases mask with
          | nil => exact absurd rfl h1
          | cons c cs => rfl
        · simpa using h2
        · omega

/-! ## Bringing a pair up, attaching a link to a switch -/

theorem allSucceed_append (os : OS) : ∀ (a b : List Cmd) (log : List (Cmd × Bool)),
    allSucceed os log (a ++ b) =
      (allSucceed os log a && allSucceed os (log ++ a.map (fun c => (c, true))) b) := by
  intro a
  induction a with
  | nil => intro b log; simp [allSucceed]
  | cons c cs ih =>
    intro b log
    simp only [List.cons_append, allSucceed, List.map_cons, List.append_eq]
    rw [ih]
    simp [Bool.and_assoc]

theorem World.after_nil (w : World) : w.after [] = w := by
  simp [World.after]

theorem World.after_append (w : World) (a b : List Cmd) : w.after (a ++ b) = (w.after a).after b := by
  simp [World.after]

theorem World.after_log (w : World) (a : List Cmd) :
    (w.after a).log = w.log ++ a.map (fun c => (c, true)) := rfl

/-- When every command succeeds, all of them are run and recorded. -/
theorem runCmds_ok (os : OS) : ∀ (cmds : List Cmd) (w : World),
    allSucceed os w.log cmds = true → runCmds os cmds w = (none, w.after cmds) := by
  intro cmds
  induction cmds with
  | nil => intro w _; simp [runCmds, World.after]
  | cons c cs ih =>
    intro w h
    simp only [allSucceed, Bool.and_eq_true] at h
    simp only [runCmds, RunCommand, h.1, if_true]
    have := ih { w with log := w.log ++ [(c, true)] } h.2
    rw [this]
    simp [World.after]

/-- When some command fails, the run stops at the first such command. -/
theorem runCmds_err (os : OS) : ∀ (cmds : List Cmd) (w : World),
    allSucceed os w.log cmds = false →
      ∃ done c rest, cmds = done ++ c :: rest ∧ allSucceed os w.log done = true ∧
        (os.run (w.after done).log c).2 = false ∧
        runCmds os cmds w =
          (some (.command c (os.run (w.after done).log c).1),
            { w with log := (w.after done).log ++ [(c, false)] }) := by
  intro cmds
  induction cmds with
  | nil => intro w h; simp [allSucceed] at h
  | cons c cs ih =>
    intro w h
    by_cases hc : (os.run w.log c).2 = true
    · simp only [allSucceed, hc, Bool.true_and] at h
      obtain ⟨done, c1, rest, e1, e2, e3, e4⟩ := ih { w with log := w.log ++ [(c, true)] } h
      refine ⟨c :: done, c1, rest, by simp [e1], by simp [allSucceed, hc, e2], ?_, ?_⟩
      · simpa [World.after] using e3
      · simp only [runCmds, RunCommand, hc, if_true, e4]
        simp [World.after]
    · simp only [Bool.not_eq_true] at hc
      refine ⟨[], c, cs, rfl, rfl, by simpa [World.after] using hc, ?_⟩
      simp [runCmds, RunCommand, hc, World.after]

theorem runCmds_append_ok (os : OS) : ∀ (a b : List Cmd) (w w1 : World),
    runCmds os a w = (none, w1) → runCmds os (a ++ b) w = runCmds os b w1 := by
  intro a
  induction a with
  | nil => intro b w w1 h; simp only [runCmds, Prod.mk.injEq, true_and] at h; subst h; rfl
  | cons c cs ih =>
    intro b w w1 h
    simp only [runCmds, List.cons_append] at h ⊢
    split_ifs at h ⊢ with hc
    · exact ih b _ _ h
    · simp at h

theorem runCmds_append_err (os : OS) : ∀ (a b : List Cmd) (w w1 : World) (e : Err),
    runCmds os a w = (some e, w1) → runCmds os (a ++ b) w = (some e, w1) := by
  intro a
  induction a with
  | nil => intro b w w1 e h; simp [runCmds] at h
  | cons c cs ih =>
    intro b w w1 e h
    simp only [runCmds, List.cons_append] at h ⊢
    split_ifs at h ⊢ with hc
    · exact ih b _ _ _ h
    · exact h

theorem ApplyCidr_runCmds (os : OS) (l : Link) (w : World) :
    l.ApplyCidr os w = runCmds os l.cidrCmds w := by
  rcases h : cidrParses l.Cidr <;> simp [Link.ApplyCidr, Link.cidrCmds, h, runCmds]

theorem LinkUp_runCmds (os : OS) (l : Link) (w : World) :
    l.Up os w = runCmds os [l.upCmd] w := by
  simp [Link.Up, Link.upCmd, runCmds]

theorem applyRoutes_runCmds (os : OS) (ns : String) : ∀ (rs : List Route) (w : World),
    applyRoutes os ns rs w =
      runCmds os (rs.map (fun route => inNetNs ns ["route", "add", "-net", route.Dst, "gw", route.Gw]))
        w := by
  intro rs
  induction rs with
  | nil => intro w; rfl
  | cons r rest ih =>
    intro w
    simp only [applyRoutes, List.map_cons, runCmds, ih]

/-- `Pair.Up` on a pair that is not a patch pair, told through the run of its
command sequence. -/
theorem Up_runCmds (os : OS) (pr : Pair) (w : World) (hp : pr.Left.patch = false) :
    (pr.Up os w).2 = (runCmds os pr.upCmds w).2 ∧
    ((runCmds os pr.upCmds w).1 = none →
      (pr.Up os w).1 = ({ Left := pr.Left.SetState "UP", Right := pr.Right.SetState "UP" }, none)) ∧
    (∀ e, (runCmds os pr.upCmds w).1 = some e →
      ∃ stage, (pr.Up os w).1 = (pr, some (.wrapped stage e))) := by
  unfold Pair.Up
  simp only [hp, Bool.false_eq_true, if_false, ApplyCidr_runCmds, LinkUp_runCmds,
    Link.ApplyRoutes, applyRoutes_runCmds, Pair.upCmds, List.append_assoc]
  rcases h1 : runCmds os pr.Left.cidrCmds w with ⟨_ | e1, w1⟩
  · rw [runCmds_append_ok os _ _ _ _ h1]
    rcases h2 : runCmds os pr.Right.cidrCmds w1 with ⟨_ | e2, w2⟩
    · rw [runCmds_append_ok os _ _ _ _ h2]
      rcases h3 : runCmds os [pr.Left.upCmd] w2 with ⟨_ | e3, w3⟩
      · have h3a : runCmds os ([pr.Left.upCmd, pr.Right.upCmd] ++ pr.Right.routeCmds) w2 =
            runCmds os ([pr.Right.upCmd] ++ pr.Right.routeCmds) w3 :=
          runCmds_append_ok os [pr.Left.upCmd] _ _ _ h3
        rw [h3a]
        rcases h4 : runCmds os [pr.Right.upCmd] w3 with ⟨_ | e4, w4⟩
        · rw [runCmds_append_ok os _ _ _ _ h4]
          rcases h5 : runCmds os pr.Right.routeCmds w4 with ⟨_ | e5, w5⟩
          · simp only [Link.routeCmds] at h5
            simp [h2, h3, h4, h5]
          · simp only [Link.routeCmds] at h5
            simp [h2, h3, h4, h5]
        · rw [runCmds_append_err os _ _ _ _ _ h4]
          simp [h2, h3, h4]
      · have h3a : runCmds os ([pr.Left.upCmd, pr.Right.upCmd] ++ pr.Right.routeCmds) w2 =
            (some e3, w3) :=
          runCmds_append_err os [pr.Left.upCmd] _ _ _ _ h3
        rw [h3a]
        simp [h2, h3]
    · rw [runCmds_append_err os _ _ _ _ _ h2]
      simp [h2]
  · rw [runCmds_append_err os _ _ _ _ _ h1]
    simp

/-- C16: for every pair whose left link is marked patch (the mark `Pair.Up`
tests), on every machine and after every history, `Pair.Up` issues no command,
returns no error and returns the pair as it was. -/
theorem pairUp_patch_noop (os : OS) (pr : Pair) (w : World) (hp : pr.Left.patch = true) :
    pr.Up os w = ((pr, none), w) := by
  simp only [Pair.Up, hp, if_true]

/-- Witness for C16: a patch pair between two switches, on a machine where
every command would fail. -/
theorem pairUp_patch_noop_witness :
    Pair.Up { okOS with run := fun _ _ => ("", false) }
        { Left := patchPort "s1" "s2", Right := patchPort "s2" "s1" } World.init =
      (({ Left := patchPort "s1" "s2", Right := patchPort "s2" "s1" }, none), World.init) :=
  pairUp_patch_noop _ _ _ (by decide)

/-- `Switch.AddLink` told through the run of its command sequence. -/
theorem AddLink_runCmds (os : OS) (s : Switch) (l : Link) (w : World) :
    s.AddLink os l w =
      ((runCmds os (s.addLinkCmds l) w).1,
        (if (runCmds os (s.addLinkCmds l) w).1 = none then
          { s with Ports := s.Ports ++ [if l.patch then l.SetState "UP" else l] }
        else s),
        (runCmds os (s.addLinkCmds l) w).2) := by
  unfold Switch.AddLink Switch.addLinkCmds
  by_cases hp : l.patch = true
  · simp only [hp, if_true, Switch.AddPatchPort, runCmds]
    split_ifs <;> simp_all
  · simp only [hp, if_false, Switch.AddPort, runCmds]
    split_ifs <;> simp_all

set_option maxRecDepth 100000 in
/-- C17: for every pair that is not a patch pair, on every machine and after
every history. The commands of `Pair.upCmds` are, in order, the address-add of
the left and of the right link (none for a link whose `Cidr` `net.ParseCIDR`
does not accept, be it IPv4 or IPv6 text), the link-up of the left then the
right link, and one route-add per entry of `Right.Routes`, none for
`Left.Routes`. When all of them succeed, `Pair.Up` runs exactly these, returns
no error and returns the pair with both States `UP` and every other field as it
was. When one of them fails, `Pair.Up` runs the commands before it and the
failing one, nothing after it, and returns an error together with the pair as
it was. -/
theorem pairUp_commands (os : OS) (pr : Pair) (w : World) (hp : pr.Left.patch = false) :
    pr.upCmds =
      (if cidrParses pr.Left.Cidr then
        [inNetNs pr.Left.NetNs ["ip", "addr", "add", pr.Left.Cidr, "dev", pr.Left.Name]]
       else []) ++
      (if cidrParses pr.Right.Cidr then
        [inNetNs pr.Right.NetNs ["ip", "addr", "add", pr.Right.Cidr, "dev", pr.Right.Name]]
       else []) ++
      [inNetNs pr.Left.NetNs ["ip", "link", "set", pr.Left.Name, "up"],
       inNetNs pr.Right.NetNs ["ip", "link", "set", pr.Right.Name, "up"]] ++
      pr.Right.Routes.map (fun route =>
        inNetNs pr.Right.NetNs ["route", "add", "-net", route.Dst, "gw", route.Gw]) ∧
    (allSucceed os w.log pr.upCmds = true →
      pr.Up os w =
        (({ Left := { pr.Left with State := "UP" }, Right := { pr.Right with State := "UP" } },
          none), w.after pr.upCmds)) ∧
    (allSucceed os w.log pr.upCmds = false →
      ∃ done c rest e, pr.upCmds = done ++ c :: rest ∧ allSucceed os w.log done = true ∧
        (os.run (w.after done).log c).2 = false ∧
        pr.Up os w = ((pr, some e), { w with log := (w.after done).log ++ [(c, false)] })) := by
  obtain ⟨hw, hok, herr⟩ := Up_runCmds os pr w hp
  refine ⟨rfl, ?_, ?_⟩
  · intro h
    have hr := runCmds_ok os _ w h
    rw [hr] at hw hok
    have h1 := hok rfl
    exact Prod.ext h1 hw
  · intro h
    obtain ⟨done, c, rest, e1, e2, e3, e4⟩ := runCmds_err os _ w h
    rw [e4] at hw herr
    obtain ⟨stage, hs⟩ := herr _ rfl
    exact ⟨done, c, rest, _, e1, e2, e3, Prod.ext hs hw⟩

set_option maxRecDepth 100000 in
/-- Witness for C17: the pair `routedPair`, whose left address `noip` does not
parse and whose right link has one route, and the pair `v6Pair` with the
addresses `fd00::1/64` and `fd00::2/64`. Where every command succeeds
`routedPair` takes four commands, `v6Pair` takes four with an address-add on
each side, and both States become `UP`; where `route` fails `routedPair` is
returned as it was, with an error. -/
theorem pairUp_commands_witness :
    routedPair.upCmds =
      [["ip", "netns", "exec", "h2", "ip", "addr", "add", "10.0.0.2/24", "dev", "veth0"],
       ["ip", "netns", "exec", "h1", "ip", "link", "set", "veth0", "up"],
       ["ip", "netns", "exec", "h2", "ip", "link", "set", "veth0", "up"],
       ["ip", "netns", "exec", "h2", "route", "add", "-net", "10.1.0.0/16", "gw", "10.0.0.1"]] ∧
    v6Pair.upCmds =
      [["ip", "netns", "exec", "h1", "ip", "addr", "add", "fd00::1/64", "dev", "veth0"],
       ["ip", "netns", "exec", "h2", "ip", "addr", "add", "fd00::2/64", "dev", "veth0"],
       ["ip", "netns", "exec", "h1", "ip", "link", "set", "veth0", "up"],
       ["ip", "netns", "exec", "h2", "ip", "link", "set", "veth0", "up"]] ∧
    routedPair.Up okOS World.init =
      (({ Left := { routedPair.Left with State := "UP" },
          Right := { routedPair.Right with State := "UP" } }, none),
        World.init.after routedPair.upCmds) ∧
    v6Pair.Up okOS World.init =
      (({ Left := { v6Pair.Left with State := "UP" },
          Right := { v6Pair.Right with State := "UP" } }, none),
        World.init.after v6Pair.upCmds) ∧
    (∃ done c rest e, routedPair.upCmds = done ++ c :: rest ∧
        allSucceed noRouteOS World.init.log done = true ∧
        (noRouteOS.run (World.init.after done).log c).2 = false ∧
        routedPair.Up noRouteOS World.init =
          ((routedPair, some e),
            { World.init with log := (World.init.after done).log ++ [(c, false)] })) :=
  ⟨by decide, by decide,
    (pairUp_commands okOS routedPair World.init (by decide)).2.1 (by decide),
    (pairUp_commands okOS v6Pair World.init (by decide)).2.1 (by decide),
    (pairUp_commands noRouteOS routedPair World.init (by decide)).2.2 (by decide)⟩

/-- C18: for every switch and link, on every machine and after every history.
`Switch.AddLink` is `AddPatchPort` for a patch link and `AddPort` otherwise.
Its commands are `ovs-vsctl add-port <switch> <link>`, followed for a patch
link by `set interface <link> type=patch` and
`set interface <link> options:peer=<Peer.Name>`. When all of them succeed it
returns no error and appends one entry to `Ports`: the link as it is for
`AddPort`, the link with State `UP` for `AddPatchPort`. When one of them fails
it stops there, returns the error of that command and leaves the switch as it
was. -/
theorem addLink_dispatch (os : OS) (s : Switch) (l : Link) (w : World) :
    s.AddLink os l w = (if l.patch then s.AddPatchPort os l w else s.AddPort os l w) ∧
    (allSucceed os w.log (s.addLinkCmds l) = true →
      s.AddLink os l w =
        (none,
          { s with Ports := s.Ports ++ [if l.patch then { l with State := "UP" } else l] },
          w.after (s.addLinkCmds l))) ∧
    (allSucceed os w.log (s.addLinkCmds l) = false →
      ∃ done c rest, s.addLinkCmds l = done ++ c :: rest ∧ allSucceed os w.log done = true ∧
        (os.run (w.after done).log c).2 = false ∧
        s.AddLink os l w =
          (some (.command c (os.run (w.after done).log c).1), s,
            { w with log := (w.after done).log ++ [(c, false)] })) := by
  refine ⟨rfl, ?_, ?_⟩
  · intro h
    rw [AddLink_runCmds, runCmds_ok os _ w h]
    simp [Link.SetState]
  · intro h
    obtain ⟨done, c, rest, e1, e2, e3, e4⟩ := runCmds_err os _ w h
    refine ⟨done, c, rest, e1, e2, e3, ?_⟩
    rw [AddLink_runCmds, e4]
    simp

/-- Witness for C18: the patch port `s1-pp0` added to the switch `s1`, where
every command succeeds and where `ovs-vsctl set` fails; an ordinary link added
where every command succeeds. -/
theorem addLink_dispatch_witness :
    (bareSwitch "s1").AddLink okOS (patchPort "s1" "s2") World.init =
      (none,
        { bareSwitch "s1" with Ports := [{ patchPort "s1" "s2" with State := "UP" }] },
        World.init.after
          [["ovs-vsctl", "add-port", "s1", "s1-pp0"],
           ["ovs-vsctl", "set", "interface", "s1-pp0", "type=patch"],
           ["ovs-vsctl", "set", "interface", "s1-pp0", "options:peer=s2-pp0"]]) ∧
    (bareSwitch "s1").AddLink okOS linkH1 World.init =
      (none, { bareSwitch "s1" with Ports := [linkH1] },
        World.init.after [["ovs-vsctl", "add-port", "s1", "veth0"]]) ∧
    (∃ done c rest, (bareSwitch "s1").addLinkCmds (patchPort "s1" "s2") = done ++ c :: rest ∧
        allSucceed noSetOS World.init.log done = true ∧
        (noSetOS.run (World.init.after done).log c).2 = false ∧
        (bareSwitch "s1").AddLink noSetOS (patchPort "s1" "s2") World.init =
          (some (.command c (noSetOS.run (World.init.after done).log c).1), bareSwitch "s1",
            { World.init with log := (World.init.after done).log ++ [(c, false)] })) :=
  ⟨(addLink_dispatch okOS (bareSwitch "s1") (patchPort "s1" "s2") World.init).2.1 (by decide),
   (addLink_dispatch okOS (bareSwitch "s1") linkH1 World.init).2.1 (by decide),
   (addLink_dispatch noSetOS (bareSwitch "s1") (patchPort "s1" "s2") World.init).2.2 (by decide)⟩

/-! ## What `NewLink` draws from the pool, and how it fills the links -/

theorem ThePool_poolAt (B x m : Nat) (pre : Bool) :
    ThePool (poolAt B x m pre) none = some (poolAt B x m pre) := rfl

theorem SetCidr_seeded (l : Link) (env : Env) (B k m : Nat) (pre : Bool)
    (hinst : env.inst = poolAt B (B + k) m pre) (hm : m ≤ 32) (hB : B < 2 ^ 32)
    (hbase : B % 2 ^ (32 - m) = 0) (hk : k + 1 < 2 ^ (32 - m)) (hempty : l.Cidr = "") :
    l.SetCidr env =
      some ({ l with Cidr := cidrText (B + k + 1) m },
        { env with inst := poolAt B (B + k + 1) m pre, pickCalls := env.pickCalls + 1 }) := by
  have hle := base_add_le B m hB hbase
  have hx : B + k < 2 ^ 32 := by omega
  have hstep := NextCidr_preset_step B (B + k) m pre (env.pick env.pickCalls) hx hm
    (base_add_mod B m k hbase (by omega))
  have hmod : (B + k + 1) % 2 ^ 32 = B + k + 1 := Nat.mod_eq_of_lt (by omega)
  rw [hmod] at hstep
  simp only [Link.SetCidr, hempty, if_true, hinst, ThePool_poolAt, hstep]

theorem SetCidr_keep (l : Link) (env : Env) (h : l.Cidr ≠ "") : l.SetCidr env = some (l, env) := by
  simp only [Link.SetCidr, h, if_false]

theorem SetHwAddr_seeded (l : Link) (env : Env) (B x m : Nat) (pre : Bool)
    (hinst : env.inst = poolAt B x m pre) (hempty : l.HwAddr = "") :
    l.SetHwAddr env =
      some ({ l with HwAddr := env.inst.NextMac env.seedMac (env.rand env.randCalls) },
        { env with
          randCalls :=
            if (ParseMAC env.seedMac).isSome then env.randCalls + 1 else env.randCalls }) := by
  cases env
  simp only at hinst
  subst hinst
  simp only [Link.SetHwAddr, hempty, if_true, ThePool_poolAt, Pool.NextMac, Env.seedMac]

theorem SetHwAddr_keep (l : Link) (env : Env) (h : l.HwAddr ≠ "") :
    l.SetHwAddr env = some (l, env) := by
  simp only [Link.SetHwAddr, h, if_false]

/-- The setters after `SetHwAddr` in the host-involving branch leave the
address fields alone and fix node name, namespace, state and routes. -/
theorem hostFill_fields (l : Link) (own namer : Node) :
    (Link.SetRoute ((((l.SetNetNs own).SetName namer "eth").SetNodeName own).SetState
        "DOWN")).Cidr = l.Cidr ∧
    (Link.SetRoute ((((l.SetNetNs own).SetName namer "eth").SetNodeName own).SetState
        "DOWN")).HwAddr = l.HwAddr ∧
    (Link.SetRoute ((((l.SetNetNs own).SetName namer "eth").SetNodeName own).SetState
        "DOWN")).State = "DOWN" ∧
    (Link.SetRoute ((((l.SetNetNs own).SetName namer "eth").SetNodeName own).SetState
        "DOWN")).Routes = l.Routes ∧
    (Link.SetRoute ((((l.SetNetNs own).SetName namer "eth").SetNodeName own).SetState
        "DOWN")).NetNs = (l.SetNetNs own).NetNs ∧
    (Link.SetRoute ((((l.SetNetNs own).SetName namer "eth").SetNodeName own).SetState
        "DOWN")).NodeName = (if l.NodeName = "" then own.NodeName else l.NodeName) ∧
    (Link.SetRoute ((((l.SetNetNs own).SetName namer "eth").SetNodeName own).SetState
        "DOWN")).Name = ((l.SetNetNs own).SetName namer "eth").Name := by
  have hN : ∀ (a : Link), (a.SetNetNs own).Cidr = a.Cidr ∧ (a.SetNetNs own).HwAddr = a.HwAddr ∧
      (a.SetNetNs own).Routes = a.Routes ∧ (a.SetNetNs own).NodeName = a.NodeName := by
    intro a
    rcases h : own.NetNs with _ | name <;> simp only [Link.SetNetNs, h] <;> split_ifs <;> simp
  have hM : ∀ (a : Link), (a.SetName namer "eth").Cidr = a.Cidr ∧
      (a.SetName namer "eth").HwAddr = a.HwAddr ∧ (a.SetName namer "eth").Routes = a.Routes ∧
      (a.SetName namer "eth").NodeName = a.NodeName ∧
      (a.SetName namer "eth").NetNs = a.NetNs := by
    intro a
    unfold Link.SetName
    split_ifs <;> simp
  have hO : ∀ (a : Link), (a.SetNodeName own).Cidr = a.Cidr ∧
      (a.SetNodeName own).HwAddr = a.HwAddr ∧ (a.SetNodeName own).Routes = a.Routes ∧
      (a.SetNodeName own).NetNs = a.NetNs ∧ (a.SetNodeName own).Name = a.Name ∧
      (a.SetNodeName own).NodeName = (if a.NodeName = "" then own.NodeName else a.NodeName) := by
    intro a
    unfold Link.SetNodeName
    split_ifs <;> simp
  simp only [Link.SetRoute, Link.SetState, hO, hM, hN, and_self]

/-- One side of the host-involving branch on a seeded pool with room for one
more address. -/
theorem hostSide_seeded (l : Link) (own namer : Node) (env : Env) (B k m : Nat) (pre : Bool)
    (hinst : env.inst = poolAt B (B + k) m pre) (hm : m ≤ 32) (hB : B < 2 ^ 32)
    (hbase : B % 2 ^ (32 - m) = 0) (hk : k + 1 < 2 ^ (32 - m)) :
    ∃ l1 env1, hostSide l own namer env = some (l1, env1) ∧
      l1.Cidr = (if l.Cidr = "" then cidrText (B + k + 1) m else l.Cidr) ∧
      l1.HwAddr =
        (if l.HwAddr = "" then env.inst.NextMac env.seedMac (env.rand env.randCalls)
         else l.HwAddr) ∧
      env1.inst = poolAt B (B + k + (if l.Cidr = "" then 1 else 0)) m pre ∧
      env1.pickCalls = env.pickCalls + (if l.Cidr = "" then 1 else 0) ∧
      env1.randCalls = env.randCalls +
        (if l.HwAddr = "" ∧ (ParseMAC env.seedMac).isSome = true then 1 else 0) ∧
      env1.interfaces = env.interfaces ∧ env1.rand = env.rand ∧ env1.pick = env.pick := by
  unfold hostSide
  by_cases hc : l.Cidr = ""
  · rw [SetCidr_seeded l env B k m pre hinst hm hB hbase hk hc]
    simp only
    by_cases hh : l.HwAddr = ""
    · have hh1 : ({ l with Cidr := cidrText (B + k + 1) m } : Link).HwAddr = "" := hh
      rw [SetHwAddr_seeded _ _ B (B + k + 1) m pre rfl hh1]
      refine ⟨_, _, rfl, ?_⟩
      simp only [hostFill_fields, hc, hh, if_true, true_and, Env.seedMac]
      split_ifs <;> simp [Pool.NextMac]
    · have hh1 : ({ l with Cidr := cidrText (B + k + 1) m } : Link).HwAddr ≠ "" := hh
      rw [SetHwAddr_keep _ _ hh1]
      refine ⟨_, _, rfl, ?_⟩
      simp only [hostFill_fields, hc, hh, if_true, if_false, false_and]
      simp
  · rw [SetCidr_keep l env hc]
    simp only
    by_cases hh : l.HwAddr = ""
    · rw [SetHwAddr_seeded _ _ B (B + k) m pre hinst hh]
      refine ⟨_, _, rfl, ?_⟩
      simp only [hostFill_fields, hc, hh, if_true, if_false, true_and]
      split_ifs <;> simp [hinst]
    · rw [SetHwAddr_keep _ _ hh]
      refine ⟨_, _, rfl, ?_⟩
      simp only [hostFill_fields, hc, hh, if_false, false_and]
      simp [hinst]

theorem NewLink_switchBranch (env : Env) (left right : Node) (refs : List Link)
    (hs : left.isSwitch = true ∧ right.isSwitch = true) :
    NewLink env left right refs =
      some ({ Left := ((((leftOverride refs).SetNodeName left).SetName left "pp").SetPatch).SetPeer
                (((rightOverride refs).SetNodeName right).SetName right "pp").SetPatch,
              Right := ((((rightOverride refs).SetNodeName right).SetName right "pp").SetPatch).SetPeer
                (((((leftOverride refs).SetNodeName left).SetName left "pp").SetPatch).SetPeer
                  (((rightOverride refs).SetNodeName right).SetName right "pp").SetPatch) },
        env) := by
  rcases refs with _ | ⟨a, _ | ⟨b, _ | ⟨c, t⟩⟩⟩ <;>
    simp [NewLink, hs, leftOverride, rightOverride]

theorem NewLink_hostBranch (env : Env) (left right : Node) (refs : List Link)
    (hns : ¬ (left.isSwitch = true ∧ right.isSwitch = true)) :
    NewLink env left right refs =
      (hostSide (leftOverride refs) left right env).bind (fun a =>
        (hostSide (rightOverride refs) right right a.2).bind (fun b =>
          some ({ Left := a.1.SetPeer b.1, Right := b.1.SetPeer (a.1.SetPeer b.1) }, b.2))) := by
  have key : ∀ lo ro : Link,
      (match (match hostSide lo left right env with
          | none => none
          | some (l, env1) =>
            match hostSide ro right right env1 with
            | none => none
            | some (r, env2) => some (({ Left := l, Right := r } : Pair), env2)) with
        | none => none
        | some (pr, env1) =>
          some (({ Left := pr.Left.SetPeer pr.Right,
                   Right := pr.Right.SetPeer (pr.Left.SetPeer pr.Right) } : Pair), env1)) =
      (hostSide lo left right env).bind (fun a =>
        (hostSide ro right right a.2).bind (fun b =>
          some ({ Left := a.1.SetPeer b.1, Right := b.1.SetPeer (a.1.SetPeer b.1) }, b.2))) := by
    intro lo ro
    rcases h1 : hostSide lo left right env with _ | ⟨l, e1⟩
    · rfl
    · rcases h2 : hostSide ro right right e1 with _ | ⟨r, e2⟩
      · simp [h2]
      · simp [h2]
  rcases refs with _ | ⟨a, _ | ⟨b, _ | ⟨c, t⟩⟩⟩ <;>
    simp only [NewLink, hns, if_false, leftOverride, rightOverride] <;> exact key _ _

theorem SetNetNs_congr (a b : Link) (own : Node) (h : a.NetNs = b.NetNs) :
    (a.SetNetNs own).NetNs = (b.SetNetNs own).NetNs ∧ (a.SetNetNs own).Name = a.Name := by
  rcases hn : own.NetNs with _ | name <;> simp only [Link.SetNetNs, hn, h] <;>
    split_ifs <;> simp [*]

theorem SetName_congr (a b : Link) (n : Node) (p : String) (h1 : a.NetNs = b.NetNs)
    (h2 : a.Name = b.Name) : (a.SetName n p).Name = (b.SetName n p).Name := by
  unfold Link.SetName
  simp only [h1, h2]
  split_ifs <;> simp [h2]

theorem SetCidr_frame (l l1 : Link) (env env1 : Env) (h : l.SetCidr env = some (l1, env1)) :
    l1.NodeName = l.NodeName ∧ l1.NetNs = l.NetNs ∧ l1.Name = l.Name ∧ l1.Routes = l.Routes ∧
      l1.HwAddr = l.HwAddr := by
  unfold Link.SetCidr at h
  split_ifs at h
  · split at h
    · simp at h
    · split at h
      · simp at h
      · simp only [Option.some.injEq, Prod.mk.injEq] at h
        obtain ⟨rfl, -⟩ := h
        simp
  · simp only [Option.some.injEq, Prod.mk.injEq] at h
    obtain ⟨rfl, -⟩ := h
    simp

theorem SetHwAddr_frame (l l1 : Link) (env env1 : Env) (h : l.SetHwAddr env = some (l1, env1)) :
    l1.NodeName = l.NodeName ∧ l1.NetNs = l.NetNs ∧ l1.Name = l.Name ∧ l1.Routes = l.Routes ∧
      l1.Cidr = l.Cidr := by
  unfold Link.SetHwAddr at h
  split_ifs at h
  · split at h
    · simp at h
    · simp only [Option.some.injEq, Prod.mk.injEq] at h
      obtain ⟨rfl, -⟩ := h
      simp
  · simp only [Option.some.injEq, Prod.mk.injEq] at h
    obtain ⟨rfl, -⟩ := h
    simp

/-- What one side of the host-involving branch returns, whenever it returns. -/
theorem hostSide_shape (l : Link) (own namer : Node) (env : Env) (l1 : Link) (env1 : Env)
    (h : hostSide l own namer env = some (l1, env1)) :
    l1.NodeName = (if l.NodeName = "" then own.NodeName else l.NodeName) ∧
    l1.NetNs = (l.SetNetNs own).NetNs ∧ l1.State = "DOWN" ∧ l1.Routes = l.Routes ∧
    l1.Name = ((l.SetNetNs own).SetName namer "eth").Name := by
  unfold hostSide at h
  rcases hc : l.SetCidr env with _ | ⟨a, e1⟩
  · simp [hc] at h
  · rcases hh : a.SetHwAddr e1 with _ | ⟨b, e2⟩
    · simp [hc, hh] at h
    · simp only [hc, hh, Option.some.injEq, Prod.mk.injEq] at h
      obtain ⟨rfl, -⟩ := h
      obtain ⟨a1, a2, a3, a4, -⟩ := SetCidr_frame _ _ _ _ hc
      obtain ⟨b1, b2, b3, b4, -⟩ := SetHwAddr_frame _ _ _ _ hh
      have hns : b.NetNs = l.NetNs := by rw [b2, a2]
      have hnm : b.Name = l.Name := by rw [b3, a3]
      have hn1 := SetNetNs_congr b l own hns
      have hn2 := SetNetNs_congr l b own hns.symm
      have hname : ((b.SetNetNs own).SetName namer "eth").Name =
          ((l.SetNetNs own).SetName namer "eth").Name :=
        SetName_congr _ _ _ _ hn1.1 (by rw [hn1.2, hn2.2, hnm])
      simp only [hostFill_fields, b1, a1, b4, a4, hn1.1, hname, and_self]

theorem NextMac_pool_irrelevant (p q : Pool) (mac : String) (r : Option (List Nat)) :
    p.NextMac mac r = q.NextMac mac r := rfl

/-- `NewLink` with at least one host on a seeded pool with room for two more
addresses: it returns, and this is what it drew. -/
theorem NewLink_seeded (env : Env) (left right : Node) (refs : List Link) (B k m : Nat)
    (pre : Bool) (hinst : env.inst = poolAt B (B + k) m pre) (hm : m ≤ 32) (hB : B < 2 ^ 32)
    (hbase : B % 2 ^ (32 - m) = 0) (hk : k + 2 < 2 ^ (32 - m))
    (hns : ¬ (left.isSwitch = true ∧ right.isSwitch = true)) :
    ∃ pr env1, NewLink env left right refs = some (pr, env1) ∧
      pr.Left.Cidr =
        (if (leftOverride refs).Cidr = "" then cidrText (B + k + 1) m
         else (leftOverride refs).Cidr) ∧
      pr.Right.Cidr =
        (if (rightOverride refs).Cidr = "" then
          cidrText (B + k + emptyCount (leftOverride refs).Cidr + 1) m
         else (rightOverride refs).Cidr) ∧
      pr.Left.HwAddr =
        (if (leftOverride refs).HwAddr = "" then
          env.inst.NextMac env.seedMac (env.rand env.randCalls)
         else (leftOverride refs).HwAddr) ∧
      pr.Right.HwAddr =
        (if (rightOverride refs).HwAddr = "" then
          env.inst.NextMac env.seedMac
            (env.rand (env.randCalls + env.macReads (leftOverride refs).HwAddr))
         else (rightOverride refs).HwAddr) ∧
      env1.inst =
        poolAt B (B + k + emptyCount (leftOverride refs).Cidr + emptyCount (rightOverride refs).Cidr)
          m pre ∧
      env1.pickCalls =
        env.pickCalls + emptyCount (leftOverride refs).Cidr + emptyCount (rightOverride refs).Cidr ∧
      env1.randCalls =
        env.randCalls + env.macReads (leftOverride refs).HwAddr +
          env.macReads (rightOverride refs).HwAddr := by
  obtain ⟨l, e1, h1, c1, m1, i1, p1, r1, f1, g1, k1⟩ :=
    hostSide_seeded (leftOverride refs) left right env B k m pre hinst hm hB hbase (by omega)
  have hk2 : k + (if (leftOverride refs).Cidr = "" then 1 else 0) + 1 < 2 ^ (32 - m) := by
    split_ifs <;> omega
  obtain ⟨r, e2, h2, c2, m2, i2, p2, r2, f2, g2, k2⟩ :=
    hostSide_seeded (rightOverride refs) right right e1 B
      (k + (if (leftOverride refs).Cidr = "" then 1 else 0)) m pre
      (by rw [i1, Nat.add_assoc]) hm hB hbase hk2
  refine ⟨{ Left := l.SetPeer r, Right := r.SetPeer (l.SetPeer r) }, e2, ?_, ?_⟩
  · rw [NewLink_hostBranch env left right refs hns, h1]
    simp only [Option.some_bind, h2]
  · have hseed : e1.seedMac = env.seedMac := by simp only [Env.seedMac, f1]
    simp only [Link.SetPeer, c1, c2, m1, m2, i2, p2, r2, p1, r1, g1, hseed, emptyCount,
      Env.macReads, NextMac_pool_irrelevant e1.inst env.inst, Nat.add_assoc, and_self, true_and]

/-- C11: `NewLink` draws from the address pool exactly when needed. Between
two switches, in every environment, it returns with the environment as it was
(no `NextCidr` call, no `NextMac` call, no read of the random source) and each
link keeps the `Cidr` and `HwAddr` of its override, which are empty without
overrides. With at least one host, on a pool seeded with the prefix of base `B`
and length `m` whose cursor is at `B + k` with room for two more addresses, it
returns; a link whose override leaves `Cidr` empty receives the next address of
the pool, the left link before the right one, and a link whose override leaves
`HwAddr` empty receives the result of `NextMac` on the next read of the random
source, the left link before the right one; every non-empty override value is
kept; the pool cursor and the call counts advance by the number of draws. -/
theorem newLink_pool_draws (env : Env) (left right : Node) (refs : List Link) (B k m : Nat)
    (pre : Bool) (hinst : env.inst = poolAt B (B + k) m pre) (hm : m ≤ 32) (hB : B < 2 ^ 32)
    (hbase : B % 2 ^ (32 - m) = 0) (hk : k + 2 < 2 ^ (32 - m)) :
    (left.isSwitch = true ∧ right.isSwitch = true →
      ∀ env2 : Env, ∃ pr, NewLink env2 left right refs = some (pr, env2) ∧
        pr.Left.Cidr = (leftOverride refs).Cidr ∧ pr.Left.HwAddr = (leftOverride refs).HwAddr ∧
        pr.Right.Cidr = (rightOverride refs).Cidr ∧
        pr.Right.HwAddr = (rightOverride refs).HwAddr) ∧
    (¬ (left.isSwitch = true ∧ right.isSwitch = true) →
      ∃ pr env1, NewLink env left right refs = some (pr, env1) ∧
        pr.Left.Cidr =
          (if (leftOverride refs).Cidr = "" then cidrText (B + k + 1) m
           else (leftOverride refs).Cidr) ∧
        pr.Right.Cidr =
          (if (rightOverride refs).Cidr = "" then
            cidrText (B + k + emptyCount (leftOverride refs).Cidr + 1) m
           else (rightOverride refs).Cidr) ∧
        pr.Left.HwAddr =
          (if (leftOverride refs).HwAddr = "" then
            env.inst.NextMac env.seedMac (env.rand env.randCalls)
           else (leftOverride refs).HwAddr) ∧
        pr.Right.HwAddr =
          (if (rightOverride refs).HwAddr = "" then
            env.inst.NextMac env.seedMac
              (env.rand (env.randCalls + env.macReads (leftOverride refs).HwAddr))
           else (rightOverride refs).HwAddr) ∧
        env1.inst =
          poolAt B
            (B + k + emptyCount (leftOverride refs).Cidr + emptyCount (rightOverride refs).Cidr)
            m pre ∧
        env1.pickCalls =
          env.pickCalls + emptyCount (leftOverride refs).Cidr +
            emptyCount (rightOverride refs).Cidr ∧
        env1.randCalls =
          env.randCalls + env.macReads (leftOverride refs).HwAddr +
            env.macReads (rightOverride refs).HwAddr) := by
  constructor
  · intro hs env2
    refine ⟨_, NewLink_switchBranch env2 left right refs hs, ?_⟩
    have hN : ∀ (l : Link) (n : Node) (p : String),
        (((l.SetNodeName n).SetName n p).SetPatch).Cidr = l.Cidr ∧
        (((l.SetNodeName n).SetName n p).SetPatch).HwAddr = l.HwAddr := by
      intro l n p
      unfold Link.SetPatch Link.SetName Link.SetNodeName
      split_ifs <;> simp
    simp only [Link.SetPeer, hN, and_self]
  · intro hns
    exact NewLink_seeded env left right refs B k m pre hinst hm hB hbase hk hns

set_option maxRecDepth 100000 in
/-- Witness for C11: on the pool preset with `10.0.0.0/24`, a link between the
hosts `h1` and `h2` without overrides gets `10.0.0.1/24` on the left and
`10.0.0.2/24` on the right; with the left `Cidr` given, the right link gets
`10.0.0.1/24`; between two switches nothing is drawn. -/
theorem newLink_pool_draws_witness :
    (NewLink env0 (.host (bareHost "h1")) (.host (bareHost "h2")) []).map
        (fun r => (r.1.Left.Cidr, r.1.Right.Cidr, r.1.Left.HwAddr, r.1.Right.HwAddr,
          r.2.pickCalls, r.2.randCalls)) =
      some ("10.0.0.1/24", "10.0.0.2/24", "52:54:00:04:05:06", "52:54:00:04:05:06", 2, 2) ∧
    (NewLink env0 (.host (bareHost "h1")) (.host (bareHost "h2"))
        [{ Link.zero with Cidr := "192.168.1.1/24", HwAddr := "02:00:00:00:00:01" }]).map
        (fun r => (r.1.Left.Cidr, r.1.Right.Cidr, r.1.Left.HwAddr, r.1.Right.HwAddr,
          r.2.pickCalls, r.2.randCalls)) =
      some ("192.168.1.1/24", "10.0.0.1/24", "02:00:00:00:00:01", "52:54:00:04:05:06", 1, 1) ∧
    (∃ pr env1, NewLink env0 (.host (bareHost "h1")) (.host (bareHost "h2")) [] =
        some (pr, env1) ∧
      pr.Left.Cidr =
        (if (leftOverride []).Cidr = "" then cidrText (167772160 + 0 + 1) 24
         else (leftOverride []).Cidr) ∧
      pr.Right.Cidr =
        (if (rightOverride []).Cidr = "" then
          cidrText (167772160 + 0 + emptyCount (leftOverride []).Cidr + 1) 24
         else (rightOverride []).Cidr) ∧
      pr.Left.HwAddr =
        (if (leftOverride []).HwAddr = "" then
          env0.inst.NextMac env0.seedMac (env0.rand env0.randCalls)
         else (leftOverride []).HwAddr) ∧
      pr.Right.HwAddr =
        (if (rightOverride []).HwAddr = "" then
          env0.inst.NextMac env0.seedMac
            (env0.rand (env0.randCalls + env0.macReads (leftOverride []).HwAddr))
         else (rightOverride []).HwAddr) ∧
      env1.inst =
        poolAt 167772160
          (167772160 + 0 + emptyCount (leftOverride []).Cidr + emptyCount (rightOverride []).Cidr)
          24 true ∧
      env1.pickCalls =
        env0.pickCalls + emptyCount (leftOverride []).Cidr + emptyCount (rightOverride []).Cidr ∧
      env1.randCalls =
        env0.randCalls + env0.macReads (leftOverride []).HwAddr +
          env0.macReads (rightOverride []).HwAddr) ∧
    (∀ env2 : Env, ∃ pr, NewLink env2 (.switch (bareSwitch "s1")) (.switch (bareSwitch "s2")) [] =
        some (pr, env2) ∧
      pr.Left.Cidr = (leftOverride []).Cidr ∧ pr.Left.HwAddr = (leftOverride []).HwAddr ∧
      pr.Right.Cidr = (rightOverride []).Cidr ∧ pr.Right.HwAddr = (rightOverride []).HwAddr) :=
  ⟨by decide, by decide,
   (newLink_pool_draws env0 (.host (bareHost "h1")) (.host (bareHost "h2")) [] 167772160 0 24 true
      (by decide) (by decide) (by decide) (by decide) (by decide)).2 (by decide),
   (newLink_pool_draws env0 (.switch (bareSwitch "s1")) (.switch (bareSwitch "s2")) []
      167772160 0 24 true (by decide) (by decide) (by decide) (by decide) (by decide)).1
      (by decide)⟩

/-- C12: for every pair `NewLink` returns for two nodes that are not both
switches and no overrides, in every environment, each link has the name of its
own node as `NodeName`, the namespace name of its own node as `NetNs` (empty
when the node has no namespace, as a switch), State `DOWN` and no routes; and
on a seeded pool with room for two more addresses `NewLink` does return a
pair. -/
theorem newLink_host_fields (env : Env) (left right : Node)
    (hns : ¬ (left.isSwitch = true ∧ right.isSwitch = true)) :
    (∀ pr env1, NewLink env left right [] = some (pr, env1) →
      pr.Left.NodeName = left.NodeName ∧ pr.Left.NetNs = left.NetNs.getD "" ∧
      pr.Left.State = "DOWN" ∧ pr.Left.Routes = [] ∧
      pr.Right.NodeName = right.NodeName ∧ pr.Right.NetNs = right.NetNs.getD "" ∧
      pr.Right.State = "DOWN" ∧ pr.Right.Routes = []) ∧
    (∀ B k m pre, env.inst = poolAt B (B + k) m pre → m ≤ 32 → B < 2 ^ 32 →
      B % 2 ^ (32 - m) = 0 → k + 2 < 2 ^ (32 - m) →
      ∃ pr env1, NewLink env left right [] = some (pr, env1)) := by
  constructor
  · intro pr env1 h
    rw [NewLink_hostBranch env left right [] hns] at h
    rcases h1 : hostSide (leftOverride []) left right env with _ | ⟨l, e1⟩
    · simp [h1] at h
    · rcases h2 : hostSide (rightOverride []) right right e1 with _ | ⟨r, e2⟩
      · simp [h1, h2] at h
      · simp only [h1, h2, Option.some_bind, Option.some.injEq, Prod.mk.injEq] at h
        obtain ⟨rfl, -⟩ := h
        obtain ⟨a1, a2, a3, a4, -⟩ := hostSide_shape _ _ _ _ _ _ h1
        obtain ⟨b1, b2, b3, b4, -⟩ := hostSide_shape _ _ _ _ _ _ h2
        have hz : ∀ n : Node, (Link.zero.SetNetNs n).NetNs = n.NetNs.getD "" := by
          intro n
          rcases hn : n.NetNs with _ | name <;> simp [Link.SetNetNs, hn, Link.zero]
        simp only [Link.SetPeer, a1, a2, a3, a4, b1, b2, b3, b4, leftOverride, rightOverride, hz]
        simp [Link.zero]
  · intro B k m pre hinst hm hB hbase hk
    obtain ⟨pr, env1, h, -⟩ := NewLink_seeded env left right [] B k m pre hinst hm hB hbase hk hns
    exact ⟨pr, env1, h⟩

set_option maxRecDepth 100000 in
/-- Witness for C12: a link from the switch `s1` to the host `h2` on the pool
preset with `10.0.0.0/24`. -/
theorem newLink_host_fields_witness :
    (NewLink env0 (.switch (bareSwitch "s1")) (.host (bareHost "h2")) []).map
        (fun r => (r.1.Left.NodeName, r.1.Left.NetNs, r.1.Left.State, r.1.Left.Routes)) =
      some ("s1", "", "DOWN", []) ∧
    (NewLink env0 (.switch (bareSwitch "s1")) (.host (bareHost "h2")) []).map
        (fun r => (r.1.Right.NodeName, r.1.Right.NetNs, r.1.Right.State, r.1.Right.Routes)) =
      some ("h2", "h2", "DOWN", []) ∧
    (∃ pr env1, NewLink env0 (.switch (bareSwitch "s1")) (.host (bareHost "h2")) [] =
      some (pr, env1)) :=
  ⟨by decide, by decide,
   (newLink_host_fields env0 (.switch (bareSwitch "s1")) (.host (bareHost "h2")) (by decide)).2
     167772160 0 24 true (by decide) (by decide) (by decide) (by decide) (by decide)⟩

set_option maxRecDepth 100000 in
/-- Counterexample to C13: the left link of a pair from the switch `s1`, which
has one port, to the host `h2`, which has no link, belongs to `s1` and has an
empty namespace name; it is named `h2-eth0`, after the right node and its link
count, not `s1-eth1`. -/
theorem newLink_left_named_after_right :
    (NewLink env0 (.switch s1OnePort) (.host (bareHost "h2")) []).map
        (fun r => (r.1.Left.NodeName, r.1.Left.NetNs, r.1.Left.Name)) =
      some ("s1", "", "h2-eth0") ∧
    (Node.switch s1OnePort).NodeName = "s1" ∧ (Node.switch s1OnePort).LinksCount = 1 := by
  decide

/-- C13 as amended: for every pair `NewLink` returns when neither override sets
a `Name`. The right link is named `veth<N>` when its `NetNs` is not empty and
`<rightName>-<pfx><N>` when it is, with `N` the link count of the right node and
`pfx` being `pp` between two switches and `eth` otherwise. Between two switches
the left link is named in the same way from the left node: `veth<N>` or
`<leftName>-pp<N>` with `N` the link count of the left node. With at least one
host, a left link whose `NetNs` is empty is named `<rightName>-eth<N>` after
the right node, with `N` the link count of the right node. -/
theorem newLink_names (env : Env) (left right : Node) (refs : List Link) (pr : Pair)
    (env1 : Env) (h : NewLink env left right refs = some (pr, env1))
    (hl : (leftOverride refs).Name = "") (hr : (rightOverride refs).Name = "") :
    pr.Right.Name =
      (if pr.Right.NetNs ≠ "" then "veth" ++ right.countText
       else right.NodeName ++ "-" ++
         (if left.isSwitch = true ∧ right.isSwitch = true then "pp" else "eth") ++
         right.countText) ∧
    (left.isSwitch = true ∧ right.isSwitch = true →
      pr.Left.Name =
        (if pr.Left.NetNs ≠ "" then "veth" ++ left.countText
         else left.NodeName ++ "-" ++ "pp" ++ left.countText)) ∧
    (¬ (left.isSwitch = true ∧ right.isSwitch = true) → pr.Left.NetNs = "" →
      pr.Left.Name = right.NodeName ++ "-" ++ "eth" ++ right.countText) := by
  have hS : ∀ (l : Link) (n : Node) (p : String), l.Name = "" →
      (l.SetName n p).Name =
        (if l.NetNs ≠ "" then "veth" ++ n.countText else n.NodeName ++ "-" ++ p ++ n.countText) ∧
      (l.SetName n p).NetNs = l.NetNs := by
    intro l n p hn
    unfold Link.SetName Node.countText
    simp only [hn, ne_eq, not_true_eq_false, if_false]
    split_ifs <;> simp
  have hP : ∀ (l : Link) (n : Node) (p : String),
      (((l.SetNodeName n).SetName n p).SetPatch).Name = ((l.SetNodeName n).SetName n p).Name ∧
      (((l.SetNodeName n).SetName n p).SetPatch).NetNs = ((l.SetNodeName n).SetName n p).NetNs ∧
      (l.SetNodeName n).Name = l.Name ∧ (l.SetNodeName n).NetNs = l.NetNs := by
    intro l n p
    unfold Link.SetPatch Link.SetNodeName
    split_ifs <;> simp
  by_cases hs : left.isSwitch = true ∧ right.isSwitch = true
  · rw [NewLink_switchBranch env left right refs hs] at h
    simp only [Option.some.injEq, Prod.mk.injEq] at h
    obtain ⟨rfl, -⟩ := h
    have e1 := hS ((leftOverride refs).SetNodeName left) left "pp" (by rw [(hP _ left "pp").2.2.1, hl])
    have e2 := hS ((rightOverride refs).SetNodeName right) right "pp"
      (by rw [(hP _ right "pp").2.2.1, hr])
    refine ⟨?_, ?_, fun hns => absurd hs hns⟩
    · simp only [Link.SetPeer, hP, e2, hs, and_self, if_true]
    · intro _
      simp only [Link.SetPeer, hP, e1]
  · rw [NewLink_hostBranch env left right refs hs] at h
    rcases h1 : hostSide (leftOverride refs) left right env with _ | ⟨l, e1⟩
    · simp [h1] at h
    · rcases h2 : hostSide (rightOverride refs) right right e1 with _ | ⟨r, e2⟩
      · simp [h1, h2] at h
      · simp only [h1, h2, Option.some_bind, Option.some.injEq, Prod.mk.injEq] at h
        obtain ⟨rfl, -⟩ := h
        obtain ⟨-, a2, -, -, a5⟩ := hostSide_shape _ _ _ _ _ _ h1
        obtain ⟨-, b2, -, -, b5⟩ := hostSide_shape _ _ _ _ _ _ h2
        have nl := SetNetNs_congr (leftOverride refs) (leftOverride refs) left rfl
        have nr := SetNetNs_congr (rightOverride refs) (rightOverride refs) right rfl
        have el := hS ((leftOverride refs).SetNetNs left) right "eth" (by rw [nl.2, hl])
        have er := hS ((rightOverride refs).SetNetNs right) right "eth" (by rw [nr.2, hr])
        refine ⟨?_, fun hh => absurd hh hs, ?_⟩
        · simp only [Link.SetPeer, b5, b2, er.1, hs, if_false]
        · intro _ hempty
          simp only [Link.SetPeer] at hempty ⊢
          rw [a2] at hempty
          rw [a5, el.1, hempty]
          simp

set_option maxRecDepth 100000 in
/-- Witness for C13 as amended: the pair from the switch `s1` with one port to
the host `h2` without links; the right link is `veth0`, the left one
`h2-eth0`. -/
theorem newLink_names_witness :
    (NewLink env0 (.switch s1OnePort) (.host (bareHost "h2")) []).map
        (fun r => (r.1.Left.Name, r.1.Right.Name, r.1.Right.NetNs)) =
      some ("h2-eth0", "veth0", "h2") ∧
    ∀ pr env1, NewLink env0 (.switch s1OnePort) (.host (bareHost "h2")) [] = some (pr, env1) →
      pr.Right.Name =
        (if pr.Right.NetNs ≠ "" then "veth" ++ (Node.host (bareHost "h2")).countText
         else (Node.host (bareHost "h2")).NodeName ++ "-" ++
           (if (Node.switch s1OnePort).isSwitch = true ∧
               (Node.host (bareHost "h2")).isSwitch = true then "pp" else "eth") ++
           (Node.host (bareHost "h2")).countText) ∧
      ((Node.switch s1OnePort).isSwitch = true ∧ (Node.host (bareHost "h2")).isSwitch = true →
        pr.Left.Name =
          (if pr.Left.NetNs ≠ "" then "veth" ++ (Node.switch s1OnePort).countText
           else (Node.switch s1OnePort).NodeName ++ "-" ++ "pp" ++
             (Node.switch s1OnePort).countText)) ∧
      (¬ ((Node.switch s1OnePort).isSwitch = true ∧ (Node.host (bareHost "h2")).isSwitch = true) →
        pr.Left.NetNs = "" →
        pr.Left.Name = (Node.host (bareHost "h2")).NodeName ++ "-" ++ "eth" ++
          (Node.host (bareHost "h2")).countText) :=
  ⟨by decide, fun pr env1 h =>
    newLink_names env0 (.switch s1OnePort) (.host (bareHost "h2")) [] pr env1 h (by decide)
      (by decide)⟩

/-! ## Finding and recovering processes -/

/-- No piece of a split text holds the separator. -/
theorem splitAt_pieces (sep : Char) : ∀ (s : List Char), ∀ piece ∈ splitAt sep s, sep ∉ piece := by
  intro s
  induction s with
  | nil => intro piece h; simp [splitAt] at h; subst h; simp
  | cons c cs ih =>
    intro piece h
    unfold splitAt at h
    split_ifs at h with hc
    · rcases List.mem_cons.mp h with h1 | h1
      · subst h1; simp
      · exact ih piece h1
    · split at h
      · simp only [List.mem_singleton] at h
        subst h
        simpa using fun h => hc h.symm
      · rename_i f fs hf
        rcases List.mem_cons.mp h with h1 | h1
        · subst h1
          have := ih f (by rw [hf]; simp)
          simp only [List.mem_cons, not_or]
          exact ⟨fun h => hc h.symm, this⟩
        · exact ih piece (by rw [hf]; exact List.mem_cons_of_mem _ h1)

/-- A name that holds a comma matches no line of the listing. -/
theorem findInLines_comma (os : OS) (name netns : String) (hcomma : ',' ∈ name.data) :
    ∀ (lines : List (List Char)) (w : World), findInLines os name netns lines w = (.ok none, w) := by
  intro lines
  induction lines with
  | nil => intro w; rfl
  | cons line rest ih =>
    intro w
    unfold findInLines
    split
    · rename_i p0 p1 hsplit
      have hp1 : ',' ∉ p1 := splitAt_pieces ',' line p1 (by rw [hsplit]; simp)
      have hne : String.mk p1 ≠ name := by
        intro h
        rw [← h] at hcomma
        exact hp1 hcomma
      simp only [hne, ne_eq, not_false_eq_true, if_true]
      exact ih w
    · exact ih w

/-- C19: a declared process whose command line (`Command`, a space, the
space-joined `Args`) holds a comma is never found, on any machine, whatever
the process table lists and whatever namespace is asked for: when `ps`
succeeds, `findProcessByName` returns nil without error and without asking for
the namespace of any pid. The lines are split at every comma and a line that
does not split in two is skipped. -/
theorem findProcessByName_comma_not_found (os : OS) (p : Process) (netns : String) (w : World)
    (hcomma : ',' ∈ (p.Command ++ " " ++ joinWith " " p.Args).data)
    (hps : (os.run w.log ["ps", "-A", "-eo", "%p,%a"]).2 = true) :
    p.findProcessByName os netns w =
      (.ok none, { w with log := w.log ++ [(["ps", "-A", "-eo", "%p,%a"], true)] }) := by
  unfold Process.findProcessByName
  simp only [RunCommand, hps, not_true_eq_false, if_false]
  exact findInLines_comma os _ netns hcomma _ _

set_option maxRecDepth 100000 in
/-- Failing input for C19: the process table of `psOS` lists `socat
TCP-LISTEN:8080,fork TCP:10.0.0.1:80` with pid 101 and `top` with pid 103, both
in the namespace `h1`; neither the declared process `socat` with these
arguments nor the declared process `top` without arguments is found in `h1`,
while `sleep 60` is found as pid 102. -/
theorem findProcessByName_comma_not_found_witness :
    socatProc.findProcessByName psOS "h1" World.init =
      (.ok none, { World.init with
        log := World.init.log ++ [(["ps", "-A", "-eo", "%p,%a"], true)] }) ∧
    (splitAt '\n' (psOS.run [] ["ps", "-A", "-eo", "%p,%a"]).1.data).map String.mk =
      ["    PID,COMMAND", "    101,socat TCP-LISTEN:8080,fork TCP:10.0.0.1:80",
       "    102,sleep 60", "    103,top", ""] ∧
    socatProc.Command ++ " " ++ joinWith " " socatProc.Args =
      "socat TCP-LISTEN:8080,fork TCP:10.0.0.1:80" ∧
    (netnsByPid psOS 101 World.init).1 = "h1" ∧
    (topProc.findProcessByName psOS "h1" World.init).1.toOption = some none ∧
    (sleepProc.findProcessByName psOS "h1" World.init).1.toOption = some (some 102) :=
  ⟨findProcessByName_comma_not_found psOS socatProc "h1" World.init (by decide) (by decide),
   by decide, by decide, by decide, by decide, by decide⟩

theorem netnsByPid_started (os : OS) (pid : Int) (w : World) :
    (netnsByPid os pid w).2.started = w.started := by
  simp only [netnsByPid, RunCommand]
  split_ifs <;> rfl

theorem findInLines_started (os : OS) (name netns : String) :
    ∀ (lines : List (List Char)) (w : World),
      (findInLines os name netns lines w).2.started = w.started := by
  intro lines
  induction lines with
  | nil => intro w; rfl
  | cons line rest ih =>
    intro w
    unfold findInLines
    split
    · split_ifs with h1
      · exact ih w
      · split
        · rfl
        · simp only []
          split_ifs
          · exact netnsByPid_started os _ w
          · rw [ih]; exact netnsByPid_started os _ w
    · exact ih w

theorem findProcessByName_started (os : OS) (p : Process) (netns : String) (w : World) :
    (p.findProcessByName os netns w).2.started = w.started := by
  unfold Process.findProcessByName
  simp only [RunCommand]
  split_ifs
  · rw [findInLines_started]
  · rfl

theorem modify_at_length {α : Type} (f : α → α) (a : α) (rest : List α) :
    ∀ (done : List α), (done ++ a :: rest).modify f done.length = done ++ f a :: rest := by
  intro done
  induction done with
  | nil => rfl
  | cons d ds ih => simp [List.modify_succ_cons, ih]

theorem map_modify_same {α β : Type} (f : α → α) (g : α → β) (hfg : ∀ a, g (f a) = g a) :
    ∀ (l : List α) (k : Nat), (l.modify f k).map g = l.map g := by
  intro l
  induction l with
  | nil => intro k; cases k <;> rfl
  | cons a as ih =>
    intro k
    cases k with
    | zero => simp [List.modify, hfg]
    | succ k => simp [List.modify_succ_cons, ih]

/-- `runProcess` where `ip` is on the PATH and the start succeeds. -/
theorem runProcess_ok (os : OS) (h : Host) (proc : Process) (w : World) (pid : Int)
    (hip : os.fullPath "ip" ≠ "")
    (hstart : os.start w (h.launchCmd os proc) = some pid) :
    ∃ result, h.runProcess os (proc.Command :: proc.Args) w =
        (.ok result, { w with started := w.started ++ [h.launchCmd os proc] }) ∧
      result.Handle = some pid := by
  rcases hn : h.netns with _ | name
  · simp only [Host.launchCmd, hn] at hstart ⊢
    simp only [Host.runProcess, hip, if_false, hn, hstart]
    exact ⟨_, rfl, rfl⟩
  · simp only [Host.launchCmd, hn] at hstart ⊢
    simp only [Host.runProcess, hip, if_false, hn, hstart]
    exact ⟨_, rfl, rfl⟩

/-- The loop of `recoverProcs` with the processes `done` behind it and `rest`
ahead, where no lookup and no launch fails. -/
theorem recoverProcsLoop_ok (os : OS) (h0 : Host) (ns : String) (look : Process → Option Int)
    (newPid : List String → Int) (hns : h0.netns = some ns) (hip : os.fullPath "ip" ≠ "")
    (hstart : ∀ w1 cmd, os.start w1 cmd = some (newPid cmd)) :
    ∀ (rest done : List Process) (w : World),
      (∀ w1, ∀ proc ∈ rest, (proc.findProcessByName os ns w1).1 = .ok (look proc)) →
      ∃ w2, recoverProcsLoop os done.length rest { h0 with Procs := done ++ rest } w =
          (.nil,
            { h0 with Procs := done ++ rest.map (fun proc =>
                { proc with Handle := some ((look proc).getD (newPid (h0.launchCmd os proc))) }) },
            w2) ∧
        w2.started =
          w.started ++ (rest.filter (fun proc => (look proc).isNone)).map (h0.launchCmd os) := by
  intro rest
  induction rest with
  | nil =>
    intro done w _
    exact ⟨w, by simp [recoverProcsLoop], by simp⟩
  | cons proc rest ih =>
    intro done w hfind
    have hf := hfind w proc (List.mem_cons_self _ _)
    have hs := findProcessByName_started os proc ns w
    have hrest : ∀ w1, ∀ q ∈ rest, (q.findProcessByName os ns w1).1 = .ok (look q) :=
      fun w1 q hq => hfind w1 q (List.mem_cons_of_mem _ hq)
    have hlaunch : ∀ procs : List Process,
        Host.launchCmd os { h0 with netns := some ns, Procs := procs } proc =
          h0.launchCmd os proc := by
      intro procs
      simp only [Host.launchCmd, hns]
    rcases hr : proc.findProcessByName os ns w with ⟨r, w1⟩
    rw [hr] at hf hs
    simp only at hf hs
    subst hf
    unfold recoverProcsLoop
    simp only [hns, hr]
    rcases hl : look proc with _ | pid
    · obtain ⟨result, hrun, hres⟩ :=
        runProcess_ok os { h0 with Procs := done ++ proc :: rest } proc w1 _ hip (hstart w1 _)
      simp only [hns] at hrun hres
      simp only [hlaunch] at hrun hres
      simp only [hrun, hres, modify_at_length]
      obtain ⟨w2, e1, e2⟩ := ih (done ++ [{ proc with Handle := some (newPid (h0.launchCmd os proc)) }])
        { w1 with started := w1.started ++ [h0.launchCmd os proc] } hrest
      refine ⟨w2, ?_, ?_⟩
      · simp only [List.length_append, List.length_singleton, List.append_assoc,
          List.singleton_append, hns] at e1
        simp only [e1, List.map_cons, hl, Option.getD_none]
      · simp only [e2, hs, List.filter_cons, hl, Option.isNone_none, if_true, List.map_cons,
          List.append_assoc, List.singleton_append]
    · simp only [modify_at_length]
      obtain ⟨w2, e1, e2⟩ := ih (done ++ [{ proc with Handle := some pid }]) w1 hrest
      refine ⟨w2, ?_, ?_⟩
      · simp only [List.length_append, List.length_singleton, List.append_assoc,
          List.singleton_append, hns] at e1
        simp only [e1, List.map_cons, hl, Option.getD_some]
      · simp only [e2, hs, List.filter_cons, hl, Option.isNone_some, Bool.false_eq_true, if_false]

/-- Whatever the loop of `recoverProcs` does, it changes handles only. -/
theorem recoverProcsLoop_shape (os : OS) :
    ∀ (rest : List Process) (k : Nat) (h : Host) (w : World),
      (recoverProcsLoop os k rest h w).2.1.Procs.map (fun q => (q.Command, q.Args, q.Output)) =
          h.Procs.map (fun q => (q.Command, q.Args, q.Output)) ∧
        (recoverProcsLoop os k rest h w).2.1.Name = h.Name ∧
        (recoverProcsLoop os k rest h w).2.1.netns = h.netns ∧
        (recoverProcsLoop os k rest h w).2.1.Links = h.Links ∧
        (recoverProcsLoop os k rest h w).2.1.Cgroup = h.Cgroup := by
  intro rest
  induction rest with
  | nil => intro k h w; simp [recoverProcsLoop]
  | cons proc rest ih =>
    intro k h w
    unfold recoverProcsLoop
    rcases hn : h.netns with _ | ns
    · simp [hn]
    · simp only
      rcases hr : proc.findProcessByName os ns w with ⟨_ | r, w1⟩
      · simp [hn]
      · rcases r with _ | pid
        · simp only
          rcases hrun : h.runProcess os (proc.Command :: proc.Args) w1 with ⟨_ | result, w2⟩
          · simp [hn]
          · simp only
            have := ih (k + 1)
              { h with Procs := h.Procs.modify (fun q => { q with Handle := result.Handle }) k } w2
            have hm := map_modify_same (fun q : Process => { q with Handle := result.Handle })
              (fun q => (q.Command, q.Args, q.Output)) (fun _ => rfl) h.Procs k
            simp only [hm] at this
            simpa [hn] using this
        · simp only
          have := ih (k + 1)
            { h with Procs := h.Procs.modify (fun q => { q with Handle := some pid }) k } w1
          have hm := map_modify_same (fun q : Process => { q with Handle := some pid })
            (fun q => (q.Command, q.Args, q.Output)) (fun _ => rfl) h.Procs k
          simp only [hm] at this
          simpa [hn] using this

/-- C20: where `recoverProcs` starts a process that is running. For every
machine on which `ps` succeeds, `ip` is on the PATH and every process start
succeeds, and every host with a namespace, where `look` is what
`findProcessByName` answers for the declared processes whose command line
(`Command`, a space, the space-joined `Args`) holds no comma: `recoverProcs`
returns nil; a declared process whose command line holds a comma is started
again with the command line of `runProcess` and gets the new handle, whatever
the process table lists; any other process gets the pid `look` finds, or is
started once when `look` finds nothing; the starts are in list order. In every
case `Procs` keeps its length, its order and the `Command`, `Args` and `Output`
of every entry. -/
theorem recoverProcs_starts_listed_again (os : OS) (h : Host) (w : World) (ns : String)
    (look : Process → Option Int) (newPid : List String → Int)
    (hns : h.netns = some ns)
    (hps : ∀ log, (os.run log ["ps", "-A", "-eo", "%p,%a"]).2 = true)
    (hfind : ∀ w1, ∀ proc ∈ h.Procs,
      ',' ∉ (proc.Command ++ " " ++ joinWith " " proc.Args).data →
        (proc.findProcessByName os ns w1).1 = .ok (look proc))
    (hip : os.fullPath "ip" ≠ "")
    (hstart : ∀ w1 cmd, os.start w1 cmd = some (newPid cmd)) :
    (h.recoverProcs os w).1 = .nil ∧
    (h.recoverProcs os w).2.1 =
      { h with Procs := h.Procs.map (fun proc =>
          { proc with
            Handle := some
              (if ',' ∈ (proc.Command ++ " " ++ joinWith " " proc.Args).data then
                newPid (h.launchCmd os proc)
               else (look proc).getD (newPid (h.launchCmd os proc))) }) } ∧
    (h.recoverProcs os w).2.2.started =
      w.started ++
        (h.Procs.filter (fun proc =>
          decide (',' ∈ (proc.Command ++ " " ++ joinWith " " proc.Args).data) ||
            (look proc).isNone)).map (h.launchCmd os) ∧
    (h.recoverProcs os w).2.1.Procs.map (fun q => (q.Command, q.Args, q.Output)) =
      h.Procs.map (fun q => (q.Command, q.Args, q.Output)) := by
  have hall : ∀ w1, ∀ proc ∈ h.Procs, (proc.findProcessByName os ns w1).1 =
      .ok ((fun q : Process =>
        if ',' ∈ (q.Command ++ " " ++ joinWith " " q.Args).data then none else look q) proc) := by
    intro w1 proc hmem
    by_cases hc : ',' ∈ (proc.Command ++ " " ++ joinWith " " proc.Args).data
    · simp only [hc, if_true]
      unfold Process.findProcessByName
      simp only [RunCommand, hps, not_true_eq_false, if_false]
      rw [findInLines_comma os _ ns hc]
    · simp only [hc, if_false]
      exact hfind w1 proc hmem hc
  obtain ⟨w2, e1, e2⟩ := recoverProcsLoop_ok os h ns _ newPid hns hip hstart h.Procs [] w hall
  simp only [List.length_nil, List.nil_append] at e1
  have e0 : ({ h with Procs := h.Procs } : Host) = h := rfl
  rw [e0] at e1
  refine ⟨?_, ?_, ?_, (recoverProcsLoop_shape os h.Procs 0 h w).1⟩
  · unfold Host.recoverProcs
    rw [e1]
  · unfold Host.recoverProcs
    rw [e1]
    simp only
    congr 1
    apply List.map_congr_left
    intro proc _
    by_cases hc : ',' ∈ (proc.Command ++ " " ++ joinWith " " proc.Args).data
    · simp only [hc, if_true, Option.getD_none]
    · simp only [hc, if_false]
  · unfold Host.recoverProcs
    rw [e1]
    simp only [e2]
    congr 2
    apply List.filter_congr
    intro proc _
    by_cases hc : ',' ∈ (proc.Command ++ " " ++ joinWith " " proc.Args).data
    · simp only [hc, if_true, Option.isNone_none, decide_True, Bool.true_or]
    · simp only [hc, if_false, decide_False, Bool.false_or]

set_option maxRecDepth 100000 in
/-- Failing input for C20: host `h1` declares `socat TCP-LISTEN:8080,fork
TCP:10.0.0.1:80`, `sleep 60` and `top`. The process table of `psOS` lists all
three, with the pids 101, 102 and 103, in the namespace `h1`. `recoverProcs`
attaches `sleep 60` to pid 102, but starts `socat` and `top` a second time and
stores the new pid 4242 for them. -/
theorem recoverProcs_starts_listed_again_witness :
    (splitAt '\n' (psOS.run [] ["ps", "-A", "-eo", "%p,%a"]).1.data).map String.mk =
      ["    PID,COMMAND", "    101,socat TCP-LISTEN:8080,fork TCP:10.0.0.1:80",
       "    102,sleep 60", "    103,top", ""] ∧
    (netnsByPid psOS 101 World.init).1 = "h1" ∧ (netnsByPid psOS 103 World.init).1 = "h1" ∧
    ((procHost [socatProc, sleepProc, topProc]).recoverProcs psOS World.init).1 = .nil ∧
    ((procHost [socatProc, sleepProc, topProc]).recoverProcs psOS World.init).2.1.Procs =
      [{ socatProc with Handle := some 4242 }, { sleepProc with Handle := some 102 },
       { topProc with Handle := some 4242 }] ∧
    ((procHost [socatProc, sleepProc, topProc]).recoverProcs psOS World.init).2.2.started =
      [["/sbin/ip", "netns", "exec", "h1", "socat", "TCP-LISTEN:8080,fork", "TCP:10.0.0.1:80"],
       ["/sbin/ip", "netns", "exec", "h1", "top"]] ∧
    ((procHost [socatProc, sleepProc, topProc]).recoverProcs psOS World.init).2.2.started =
      World.init.started ++
        ((procHost [socatProc, sleepProc, topProc]).Procs.filter (fun proc =>
          decide (',' ∈ (proc.Command ++ " " ++ joinWith " " proc.Args).data) ||
            (psLook proc).isNone)).map ((procHost [socatProc, sleepProc, topProc]).launchCmd psOS) :=
  ⟨by decide, by decide, by decide, by decide, by decide, by decide,
   (recoverProcs_starts_listed_again psOS (procHost [socatProc, sleepProc, topProc]) World.init
     "h1" psLook (fun _ => 4242) rfl (fun _ => rfl)
     (fun w1 proc hmem _ => by
       simp only [procHost, List.mem_cons, List.mem_singleton, List.not_mem_nil, or_false] at hmem
       rcases hmem with rfl | rfl | rfl
       · rfl
       · rfl
       · rfl)
     (by decide) (fun _ _ => rfl)).2.2.1⟩

/-! ## Teardown of a host -/

theorem attempt_steps (ok : Trace → Step → Bool) (t : Trace) (s : Step) :
    (attempt ok t s).2.map (·.1) = t.map (·.1) ++ [s] := by
  simp [attempt]

theorem NetNsRelease_steps (ok : Trace → Step → Bool) (name : String) (t : Trace) :
    (NetNs.Release ok name t).2.map (·.1) =
      t.map (·.1) ++
        (if name = "" then []
         else [Step.unmount (NetnsRunDir ++ "/" ++ name),
               Step.remove (NetnsRunDir ++ "/" ++ name)]) := by
  unfold NetNs.Release
  split_ifs
  · simp
  · simp [attempt_steps]

theorem linksRelease_steps (ok : Trace → Step → Bool) : ∀ (links : List Link) (t : Trace),
    (links.foldl (fun acc link => link.Release ok acc) t).map (·.1) =
      t.map (·.1) ++
        links.map (fun l => Step.command (inNetNs l.NetNs ["ip", "link", "delete", l.Name])) := by
  intro links
  induction links with
  | nil => intro t; simp
  | cons l rest ih =>
    intro t
    rw [List.foldl_cons, ih]
    simp only [Link.Release, attempt_steps, List.map_cons, List.append_assoc,
      List.singleton_append]

theorem procsStop_steps (ok : Trace → Step → Bool) : ∀ (procs : List Process) (t : Trace),
    (procs.foldl (fun acc proc => (proc.Stop ok acc).2) t).map (·.1) =
      t.map (·.1) ++ procs.filterMap (fun p => p.Handle.map Step.signal) := by
  intro procs
  induction procs with
  | nil => intro t; simp
  | cons p rest ih =>
    intro t
    rw [List.foldl_cons, ih]
    rcases hp : p.Handle with _ | pid
    · simp [Process.Stop, hp, List.filterMap_cons]
    · simp [Process.Stop, hp, List.filterMap_cons, attempt_steps]

theorem CgroupRelease_steps (ok : Trace → Step → Bool) (c : Option Cgroup) (t : Trace) :
    (Cgroup.Release ok c t).map (·.1) = t.map (·.1) ++ cgroupSteps c := by
  rcases c with _ | cg <;> simp [Cgroup.Release, attempt_steps, cgroupSteps]

/-- C21: for every host that has its namespace, as every host made by
`NewHost` or decoded by `UnmarshalJSON` has, on every machine and whatever
steps fail. `Host.Release` returns nil and attempts exactly the steps of
`Host.releaseSteps`, in that order: the release of the namespace (unmount and
removal of its file, nothing for an empty name), a delete for every link in
list order, the interrupt for every process that has a handle in list order,
the cgroup deletion (skipped only when the host has no cgroup); the attempted
steps and their order are the same on every other machine, whichever steps
fail there. -/
theorem hostRelease_steps (ok : Trace → Step → Bool) (h : Host) (name : String)
    (hns : h.netns = some name) :
    (h.Release ok []).1 = Outcome.nil ∧
    (h.Release ok []).2.map (·.1) = h.releaseSteps name ∧
    (∀ ok2 : Trace → Step → Bool,
      (h.Release ok2 []).2.map (·.1) = (h.Release ok []).2.map (·.1)) := by
  have key : ∀ ok1 : Trace → Step → Bool,
      (h.Release ok1 []).1 = Outcome.nil ∧
      (h.Release ok1 []).2.map (·.1) = h.releaseSteps name := by
    intro ok1
    unfold Host.Release
    simp only [hns, true_and]
    rw [CgroupRelease_steps, procsStop_steps, linksRelease_steps, NetNsRelease_steps]
    simp only [Host.releaseSteps, List.map_nil, List.nil_append]
  exact ⟨(key ok).1, (key ok).2, fun ok2 => by rw [(key ok2).2, (key ok).2]⟩

set_option maxRecDepth 100000 in
/-- Witness for C21: the host `h1` with its namespace, one link, one running
process and a cgroup, on the machine where every step fails. Five steps are
attempted, every one of them failing, the call returns nil, and the same five
steps are attempted where every step succeeds. -/
theorem hostRelease_steps_witness :
    (fullHost.Release (fun _ _ => false) []).1 = Outcome.nil ∧
    (fullHost.Release (fun _ _ => false) []).2.map (·.1) = fullHost.releaseSteps "h1" ∧
    (fullHost.Release (fun _ _ => true) []).2.map (·.1) =
      (fullHost.Release (fun _ _ => false) []).2.map (·.1) ∧
    fullHost.Release (fun _ _ => false) [] =
      (Outcome.nil,
        [(Step.unmount "/var/run/netns/h1", false), (Step.remove "/var/run/netns/h1", false),
         (Step.command ["ip", "netns", "exec", "h1", "ip", "link", "delete", "veth0"], false),
         (Step.signal 102, false), (Step.cgroupDelete "h1", false)]) ∧
    (fullHost.Release (fun _ _ => true) []).2.map (·.1) =
      [Step.unmount "/var/run/netns/h1", Step.remove "/var/run/netns/h1",
       Step.command ["ip", "netns", "exec", "h1", "ip", "link", "delete", "veth0"],
       Step.signal 102, Step.cgroupDelete "h1"] :=
  ⟨(hostRelease_steps (fun _ _ => false) fullHost "h1" (by decide)).1,
   (hostRelease_steps (fun _ _ => false) fullHost "h1" (by decide)).2.1,
   (hostRelease_steps (fun _ _ => false) fullHost "h1" (by decide)).2.2 (fun _ _ => true),
   by decide, by decide⟩

/-! ## The pool runs past its prefix -/

/-- Whether a text of the pool's form is inside the prefix of base `B`. -/
theorem insidePrefix_cidrText (x m B : Nat) (hm : m ≤ 32) (hx : x < 2 ^ 32) (hB : B < 2 ^ 32) :
    insidePrefix (cidrText x m) B = decide (x - x % 2 ^ (32 - m) = B) := by
  unfold insidePrefix
  rw [ParseCIDR_cidrText x m hm]
  simp only [beq_iff_eq]
  by_cases h : x - x % 2 ^ (32 - m) = B
  · simp [h]
  · simp only [h, decide_False]
    have : natToIP4 (x - x % 2 ^ (32 - m)) ≠ natToIP4 B := fun e =>
      h (natToIP4_inj _ _ (by omega) hB e)
    simpa using this

/-- C23: on a pool preset with a seed that parses as an IPv4 prefix of length
`m ≥ 1` and base `B`, the first `2 ^ (32 - m) - 1` calls of `NextCidr` return
addresses inside the prefix, and the next call returns a text whose address,
masked with the prefix length, is not `B`: the containment test of `NextCidr`
compares the incremented address with the network that already holds it, so
the cursor leaves the prefix. With the seed `10.0.0.0/30` the fourth call
returns `10.0.0.4/30`. -/
theorem nextCidr_leaves_prefix (seed : String) (ip : IP) (net : IPNet) (m : Nat)
    (pick : Nat → Nat) (hseed : ParseCIDR seed = some (ip, net))
    (hlen : simpleMaskLen net.Mask = some m) (hpos : 0 < m) :
    ∃ rs r, presetCidrs seed pick (2 ^ (32 - m)) = some (rs ++ [r]) ∧
      rs.length = 2 ^ (32 - m) - 1 ∧
      (∀ c ∈ rs, insidePrefix c (ipToNat net.IP) = true) ∧
      insidePrefix r (ipToNat net.IP) = false := by
  obtain ⟨hm, hB, hbase, -⟩ := seed_shape seed ip net m hseed hlen
  have hp : 0 < 2 ^ (32 - m) := pow_pos (by norm_num) _
  have hlt : 2 ^ (32 - m) < 2 ^ 32 := Nat.pow_lt_pow_right (by norm_num) (by omega)
  have hle := base_add_le (ipToNat net.IP) m hB hbase
  obtain ⟨j, hj⟩ : ∃ j, 2 ^ (32 - m) = j + 1 := ⟨2 ^ (32 - m) - 1, by omega⟩
  refine ⟨expectedCidrs (ipToNat net.IP) m j,
    cidrText ((ipToNat net.IP + (j + 1)) % 2 ^ 32) m, ?_, ?_, ?_, ?_⟩
  · rw [hj, presetCidrs_eq seed ip net m (j + 1) pick hseed hlen (by omega), expectedCidrs_succ]
  · rw [expectedCidrs_length]; omega
  · intro c hc
    simp only [expectedCidrs, List.mem_map, List.mem_range] at hc
    obtain ⟨i, hi, rfl⟩ := hc
    have hmod : (ipToNat net.IP + (i + 1)) % 2 ^ 32 = ipToNat net.IP + (i + 1) :=
      Nat.mod_eq_of_lt (by omega)
    rw [hmod, insidePrefix_cidrText _ m _ hm (by omega) hB]
    simp only [decide_eq_true_eq]
    exact base_add_mod (ipToNat net.IP) m (i + 1) hbase (by omega)
  · rw [insidePrefix_cidrText _ m _ hm (Nat.mod_lt _ (by norm_num)) hB]
    simp only [decide_eq_false_iff_not]
    rw [← hj]
    rcases Nat.lt_or_ge (ipToNat net.IP + 2 ^ (32 - m)) (2 ^ 32) with h | h
    · rw [Nat.mod_eq_of_lt h]
      have : (ipToNat net.IP + 2 ^ (32 - m)) % 2 ^ (32 - m) = 0 := by
        rw [Nat.add_mod, hbase, Nat.mod_self]
        simp
      omega
    · have he : ipToNat net.IP + 2 ^ (32 - m) = 2 ^ 32 := by omega
      rw [he, Nat.mod_self]
      simp only [Nat.zero_mod, Nat.sub_zero]
      omega

set_option maxRecDepth 100000 in
/-- Failing input for C23: the pool preset with `10.0.0.0/30`; the fourth call
returns `10.0.0.4/30`, and `10.0.0.4` masked with 30 bits is `10.0.0.4`, not
`10.0.0.0`. -/
theorem nextCidr_leaves_prefix_witness :
    presetCidrs "10.0.0.0/30" (fun _ => 0) 4 =
      some ["10.0.0.1/30", "10.0.0.2/30", "10.0.0.3/30", "10.0.0.4/30"] ∧
    insidePrefix "10.0.0.4/30" (ipToNat [10, 0, 0, 0]) = false ∧
    Mask [10, 0, 0, 4] (CIDRMask 30) = [10, 0, 0, 4] ∧
    (∃ rs r, presetCidrs "10.0.0.0/30" (fun _ => 0) (2 ^ (32 - 30)) = some (rs ++ [r]) ∧
      rs.length = 2 ^ (32 - 30) - 1 ∧
      (∀ c ∈ rs, insidePrefix c (ipToNat [10, 0, 0, 0]) = true) ∧
      insidePrefix r (ipToNat [10, 0, 0, 0]) = false) :=
  ⟨by decide, by decide, by decide,
   nextCidr_leaves_prefix "10.0.0.0/30" _ _ 30 (fun _ => 0) seed_10_0_0_0_30 (by decide)
     (by decide)⟩

/-! ## Names of the links a host holds -/

/-- The name of the left link of a pair from a host in a namespace, without
overrides: `veth` and the link count of the right node. -/
theorem NewLink_left_name (env : Env) (h : Host) (r : Node) (ns : String) (pr : Pair)
    (hns : h.netns = some ns) (hne : ns ≠ "")
    (hnew : (NewLink env (.host h) r []).map (·.1) = some pr) :
    pr.Left.Name = "veth" ++ r.countText ∧ pr.Left.NodeName = h.Name := by
  have hs : ¬ ((Node.host h).isSwitch = true ∧ r.isSwitch = true) := by simp [Node.isSwitch]
  rw [NewLink_hostBranch env (.host h) r [] hs] at hnew
  rcases h1 : hostSide (leftOverride []) (.host h) r env with _ | ⟨l, e1⟩
  · simp [h1] at hnew
  · rcases h2 : hostSide (rightOverride []) r r e1 with _ | ⟨rr, e2⟩
    · simp [h1, h2] at hnew
    · simp only [h1, h2, Option.some_bind, Option.map_some', Option.some.injEq] at hnew
      subst hnew
      obtain ⟨a1, -, -, -, a5⟩ := hostSide_shape _ _ _ _ _ _ h1
      have hz : (Link.zero.SetNetNs (.host h)).NetNs = ns := by
        simp [Link.SetNetNs, Node.NetNs, hns, Link.zero]
      have hzn : (Link.zero.SetNetNs (.host h)).Name = "" :=
        (SetNetNs_congr Link.zero Link.zero (.host h) rfl).2
      constructor
      · simp only [Link.SetPeer, a5, leftOverride, Link.SetName, hz, hzn, hne, ne_eq,
          not_true_eq_false, not_false_eq_true, if_true, if_false, Node.countText]
      · simp only [Link.SetPeer, a1, leftOverride]
        simp [Link.zero, Node.NodeName]

/-- C24: a host `h` in a namespace and two nodes `r1` and `r2` that hold the
same number of links; `NewLink(h, r1)` is called without overrides and its left
link is registered on `h` with `AddLink`, then `NewLink(h, r2)` is called in
any environment and its left link is registered on `h`. Both left links belong
to `h` and have the same name, `veth` followed by the link count of the right
node, so `h` ends up holding two links of that name: the left link is named
with `SetName(right, "eth")`, from the link count of the right node. -/
theorem newLink_left_name_repeats (env env1 : Env) (h : Host) (r1 r2 : Node) (ns : String)
    (p1 p2 : Pair) (hns : h.netns = some ns) (hne : ns ≠ "")
    (hcount : r1.LinksCount = r2.LinksCount)
    (h1 : (NewLink env (.host h) r1 []).map (·.1) = some p1)
    (h2 : (NewLink env1 (.host (h.AddLink p1.Left)) r2 []).map (·.1) = some p2) :
    p1.Left.NodeName = h.Name ∧ p2.Left.NodeName = h.Name ∧
    p1.Left.Name = "veth" ++ r1.countText ∧ p2.Left.Name = p1.Left.Name ∧
    ((h.AddLink p1.Left).AddLink p2.Left).Links.map (·.Name) =
      h.Links.map (·.Name) ++ ["veth" ++ r1.countText, "veth" ++ r1.countText] := by
  obtain ⟨n1, o1⟩ := NewLink_left_name env h r1 ns p1 hns hne h1
  obtain ⟨n2, o2⟩ := NewLink_left_name env1 (h.AddLink p1.Left) r2 ns p2 hns hne h2
  have hc : r2.countText = r1.countText := by simp only [Node.countText, hcount]
  rw [hc] at n2
  refine ⟨o1, o2, n1, by rw [n1, n2], ?_⟩
  simp [Host.AddLink, n1, n2]

set_option maxRecDepth 100000 in
/-- Failing input for C24: the hosts `h1`, `h2` and `h3` without links on the
pool preset with `10.0.0.0/24`; after `NewLink(h1, h2)` and `NewLink(h1, h3)`,
each left link registered on `h1`, the host `h1` holds two links named
`veth0`. -/
theorem newLink_left_name_repeats_witness :
    (h1AfterFirst.AddLink secondPair.Left).Links.map (fun l => (l.NodeName, l.Name, l.Cidr)) =
      [("h1", "veth0", "10.0.0.1/24"), ("h1", "veth0", "10.0.0.3/24")] ∧
    (firstPair.Left.NodeName = (bareHost "h1").Name ∧
      secondPair.Left.NodeName = (bareHost "h1").Name ∧
      firstPair.Left.Name = "veth" ++ (Node.host (bareHost "h2")).countText ∧
      secondPair.Left.Name = firstPair.Left.Name ∧
      (((bareHost "h1").AddLink firstPair.Left).AddLink secondPair.Left).Links.map (·.Name) =
        (bareHost "h1").Links.map (·.Name) ++
          ["veth" ++ (Node.host (bareHost "h2")).countText,
           "veth" ++ (Node.host (bareHost "h2")).countText]) :=
  ⟨by decide,
   newLink_left_name_repeats env0 envAfterFirst (bareHost "h1") (.host (bareHost "h2"))
     (.host (bareHost "h3")) "h1" firstPair secondPair (by decide) (by decide) (by decide)
     (by decide) (by decide)⟩

/-! ## Namespace lookup and switch decoding -/

theorem startsWith_append : ∀ (n b : List Char), startsWith (n ++ b) n = true := by
  intro n
  induction n with
  | nil => intro b; cases b <;> rfl
  | cons c cs ih => intro b; simp [startsWith, ih]

theorem containsText_of_startsWith (l n : List Char) (h : startsWith l n = true) :
    containsText l n = true := by
  cases l with
  | nil => simpa [containsText] using h
  | cons c cs => simp [containsText, h]

theorem containsText_mid : ∀ (a n b : List Char), containsText (a ++ n ++ b) n = true := by
  intro a
  induction a with
  | nil =>
    intro n b
    exact containsText_of_startsWith _ _ (by simpa using startsWith_append n b)
  | cons c cs ih =>
    intro n b
    have := ih n b
    simp only [List.cons_append, containsText, Bool.or_eq_true]
    right
    simpa using this

/-- C26: on every machine, whenever `ip netns list` succeeds and its output
holds the name of the namespace anywhere, `before` and `after` being whatever
surrounds it, `NetNs.Exists` returns true: the test is `strings.Contains` on
the whole output, so a listed namespace whose name contains this name makes it
true. -/
theorem netnsExists_substring (os : OS) (w : World) (name : String) (before after : List Char)
    (hrun : os.run w.log ["ip", "netns", "list"] =
      (String.mk (before ++ name.data ++ after), true)) :
    (NetNs.Exists os name w).1 = true := by
  simp only [NetNs.Exists, RunCommand, hrun, not_true_eq_false, if_false]
  exact containsText_mid before name.data after

set_option maxRecDepth 100000 in
/-- Failing input for C26: the listing names the one namespace `h10`; no
namespace is called `h1`, yet `Exists` is true for `h1`. -/
theorem netnsExists_substring_witness :
    (NetNs.Exists h10OS "h1" World.init).1 = true ∧
    listedNamespaces (h10OS.run [] ["ip", "netns", "list"]).1 = ["h10", ""] ∧
    "h1" ∉ listedNamespaces (h10OS.run [] ["ip", "netns", "list"]).1 ∧
    (h10OS.run [] ["ip", "netns", "list"]).2 = true :=
  ⟨netnsExists_substring h10OS World.init "h1" [] ['0', '\n'] (by decide), by decide, by decide,
    by decide⟩

/-- C27: on every machine, decoding a document `t` into a switch `s` sets
`Name` and `Ports` from the document and leaves `Controller` as the receiver
had it, whether or not a command fails: `UnmarshalJSON` never copies
`t.Controller`. Decoded into the zero value, as the elements of
`Scheme.Switches` are, the switch has an empty `Controller` whatever the
document says, and no `set-controller` command is run; so a switch exported
with a controller loads back without it. -/
theorem switchDecode_drops_controller (os : OS) (s t : Switch) (w : World) :
    (s.UnmarshalJSON os (.ok t) w).2.1 = { s with Name := t.Name, Ports := t.Ports } ∧
    (s.UnmarshalJSON os (.ok t) w).2.1.Controller = s.Controller ∧
    (Switch.zero.UnmarshalJSON os (.ok t.exported) w).2.1.Controller = "" ∧
    (Switch.zero.UnmarshalJSON os (.ok t.exported) w).2.2.log.filter isSetController =
      w.log.filter isSetController := by
  have hshape : ∀ s0 : Switch,
      (s0.UnmarshalJSON os (.ok t) w).2.1 = { s0 with Name := t.Name, Ports := t.Ports } := by
    intro s0
    simp only [Switch.UnmarshalJSON, Switch.Exists, Switch.Create, Switch.SetController,
      RunCommand]
    split_ifs
    all_goals try split
    all_goals try rfl
    all_goals try split_ifs
    all_goals rfl
  refine ⟨hshape s, by rw [hshape s], ?_, ?_⟩
  · simp only [Switch.UnmarshalJSON, Switch.Exists, Switch.Create, Switch.zero, RunCommand,
      Switch.exported]
    split_ifs <;> simp_all
  · simp only [Switch.UnmarshalJSON, Switch.Exists, Switch.Create, Switch.zero, RunCommand,
      Switch.exported]
    split_ifs <;> simp_all [isSetController]

set_option maxRecDepth 100000 in
/-- Failing input for C27: the switch `s1` with the controller
`tcp:127.0.0.1:6633`, exported and decoded on a machine where every command
succeeds: name and port names come back, the controller does not, and no
`set-controller` is run. -/
theorem switchDecode_drops_controller_witness :
    controlledSwitch.exported.Controller = "tcp:127.0.0.1:6633" ∧
    (Switch.zero.UnmarshalJSON okOS (.ok controlledSwitch.exported) World.init).1 = none ∧
    (Switch.zero.UnmarshalJSON okOS (.ok controlledSwitch.exported) World.init).2.1.Name = "s1" ∧
    (Switch.zero.UnmarshalJSON okOS (.ok controlledSwitch.exported) World.init).2.1.Ports.map
        (·.Name) = ["s1-pp0"] ∧
    (Switch.zero.UnmarshalJSON okOS (.ok controlledSwitch.exported) World.init).2.1.Controller =
      "" ∧
    (Switch.zero.UnmarshalJSON okOS (.ok controlledSwitch.exported) World.init).2.2.log =
      [(["ovs-vsctl", "br-exists", "s1"], true)] :=
  ⟨by decide, by decide, by decide, by decide,
   (switchDecode_drops_controller okOS Switch.zero controlledSwitch World.init).2.2.1, by decide⟩

/-! ## The patch branch of `recoverSwitchPorts`, and links registered again -/

/-- C22: two switches with different names joined by ports of which the first
names the second as its peer, on any machine on which the first port does not
exist yet (`ip link show` fails). `recoverSwitchPorts` on the first switch
returns nil, runs `ovs-vsctl add-port` for both ports (the two `AddPatchPort`
calls) and no `ip link add` (no `Pair.Create`), and leaves the pair set empty:
the key `<portName>-<peerLinkName>` is not recorded, since the patch branch
ends in `continue` before `s.pairs[hash] = true`. -/
theorem recoverSwitchPorts_patch_no_key (os : OS) (n1 n2 : String) (p1 p2 : Link)
    (c1 c2 : String) (hne : n1 ≠ n2) (hn2 : p2.NodeName = n2)
    (hp1 : p1.Peer.NodeName = n2 ∧ p1.Peer.IfName = p2.Name)
    (hmiss : (os.run [] ["ip", "link", "show", p1.Name]).2 = false) :
    ((twoSwitches n1 n2 p1 p2 c1 c2).recoverSwitchPorts os 0 World.init).1 = none ∧
    ((twoSwitches n1 n2 p1 p2 c1 c2).recoverSwitchPorts os 0 World.init).2.1.pairs = [] ∧
    (p1.Name ++ "-" ++ p2.Name) ∉
      ((twoSwitches n1 n2 p1 p2 c1 c2).recoverSwitchPorts os 0 World.init).2.1.pairs ∧
    createCmds ((twoSwitches n1 n2 p1 p2 c1 c2).recoverSwitchPorts os 0 World.init).2.2.log = [] ∧
    (((twoSwitches n1 n2 p1 p2 c1 c2).recoverSwitchPorts os 0 World.init).2.2.log.filter
        isAddPort).map (·.1) =
      [["ovs-vsctl", "add-port", n1, p1.Name], ["ovs-vsctl", "add-port", n2, p2.Name]] := by
  have hne1 : ¬ n2 = n1 := fun e => hne e.symm
  simp only [Scheme.recoverSwitchPorts, twoSwitches, Scheme.linksOf, recoverSwitchPortsLoop,
    Link.Exists, RunCommand, World.init, hmiss, Scheme.GetNode, Scheme.GetHost,
    Scheme.GetSwitch, firstIndex, hp1, hn2, hne, hne1, LinkByPeer, Scheme.nameOf,
    Scheme.addPatchPortAt, Switch.AddPatchPort, List.get?_cons_zero, List.get?_cons_succ,
    Option.elim, List.set_cons_zero, List.set_cons_succ, List.nil_append, decide_True,
    decide_False, Bool.false_eq_true, if_false, if_true, Option.map_some', Option.map_none',
    and_self, List.not_mem_nil, not_false_eq_true, zero_add]
  split_ifs <;> simp [createCmds, isCreate, isAddPort]

set_option maxRecDepth 100000 in
/-- Failing input for C22: the switches `s1` and `s2` joined by the patch ports
`s1-pp0` and `s2-pp0`, on a machine where `ip link show` finds nothing. -/
theorem recoverSwitchPorts_patch_no_key_witness :
    ((twoSwitches "s1" "s2" (patchPort "s1" "s2") (patchPort "s2" "s1") "" "").recoverSwitchPorts
        blindOS 0 World.init).2.1.pairs = [] ∧
    ("s1-pp0" ++ "-" ++ "s2-pp0") ∉
      ((twoSwitches "s1" "s2" (patchPort "s1" "s2") (patchPort "s2" "s1") "" "").recoverSwitchPorts
        blindOS 0 World.init).2.1.pairs ∧
    ((twoSwitches "s1" "s2" (patchPort "s1" "s2") (patchPort "s2" "s1") "" "").recoverSwitchPorts
        blindOS 0 World.init).2.2.log =
      [(["ip", "link", "show", "s1-pp0"], false),
       (["ovs-vsctl", "add-port", "s1", "s1-pp0"], true),
       (["ovs-vsctl", "set", "interface", "s1-pp0", "type=patch"], true),
       (["ovs-vsctl", "set", "interface", "s1-pp0", "options:peer=s2-pp0"], true),
       (["ovs-vsctl", "add-port", "s2", "s2-pp0"], true),
       (["ovs-vsctl", "set", "interface", "s2-pp0", "type=patch"], true),
       (["ovs-vsctl", "set", "interface", "s2-pp0", "options:peer=s1-pp0"], true)] :=
  ⟨(recoverSwitchPorts_patch_no_key blindOS "s1" "s2" (patchPort "s1" "s2") (patchPort "s2" "s1")
      "" "" (by decide) (by decide) (by decide) (by decide)).2.1,
   (recoverSwitchPorts_patch_no_key blindOS "s1" "s2" (patchPort "s1" "s2") (patchPort "s2" "s1")
      "" "" (by decide) (by decide) (by decide) (by decide)).2.2.1,
   by decide⟩

set_option maxRecDepth 100000 in
theorem hostLink_cidrs_parse :
    cidrParses "10.0.0.1/24" = true ∧ cidrParses "10.0.0.2/24" = true := by
  decide

/-- C25: the two hosts `h1` and `h2`, each declaring one link `veth0` whose
peer is the other, on every machine on which every command succeeds. A
`Recover` pass returns nil and leaves each host holding three links named
`veth0` where one was declared: `recoverHostLinks` registers with `AddLink`
links that the hosts already hold, once from each endpoint. -/
theorem recover_registers_links_again (os : OS)
    (hall : ∀ log cmd, (os.run log cmd).2 = true) :
    (twoHosts.Recover os World.init).1 = Outcome.nil ∧
    twoHosts.Hosts.map (fun h => h.Links.map (·.Name)) = [["veth0"], ["veth0"]] ∧
    (twoHosts.Recover os World.init).2.1.Hosts.map (fun h => h.Links.map (·.Name)) =
      [["veth0", "veth0", "veth0"], ["veth0", "veth0", "veth0"]] ∧
    (∀ h ∈ (twoHosts.Recover os World.init).2.1.Hosts, ¬ (h.Links.map (·.Name)).Nodup) := by
  obtain ⟨hv1, hv2⟩ := hostLink_cidrs_parse
  have hrun : (twoHosts.Recover os World.init).1 = Outcome.nil ∧
      (twoHosts.Recover os World.init).2.1.Hosts.map (fun h => h.Links.map (·.Name)) =
        [["veth0", "veth0", "veth0"], ["veth0", "veth0", "veth0"]] := by
    simp [Scheme.Recover, recoverSwitches, recoverHosts, recoverAllProcs, twoHosts,
      Scheme.recoverHostLinks, Scheme.linksOf, recoverHostLinksLoop, Scheme.GetHost, firstIndex,
      LinkByPeer, hostLink, Pair.Create, Pair.Up, Link.ApplyCidr, Link.Up, Link.ApplyRoutes,
      applyRoutes, Link.MoveToNs, RunCommand, hall, World.init, Scheme.hostAddLinkAt,
      Host.AddLink, Scheme.record, Host.recoverProcs, recoverProcsLoop, inNetNs, hv1, hv2]
  refine ⟨hrun.1, by decide, hrun.2, ?_⟩
  intro h hmem
  have hm : h.Links.map (·.Name) ∈
      (twoHosts.Recover os World.init).2.1.Hosts.map (fun h => h.Links.map (·.Name)) :=
    List.mem_map_of_mem _ hmem
  rw [hrun.2] at hm
  simp only [List.mem_cons, List.mem_singleton, List.not_mem_nil, or_false, or_self] at hm
  rw [hm]
  decide

set_option maxRecDepth 100000 in
/-- Failing input for C25: the two-host scheme on the machine where every
command succeeds with empty output. -/
theorem recover_registers_links_again_witness :
    (twoHosts.Recover okOS World.init).1 = Outcome.nil ∧
    twoHosts.Hosts.map (fun h => h.Links.map (·.Name)) = [["veth0"], ["veth0"]] ∧
    (twoHosts.Recover okOS World.init).2.1.Hosts.map (fun h => h.Links.map (·.Name)) =
      [["veth0", "veth0", "veth0"], ["veth0", "veth0", "veth0"]] ∧
    (∀ h ∈ (twoHosts.Recover okOS World.init).2.1.Hosts, ¬ (h.Links.map (·.Name)).Nodup) :=
  recover_registers_links_again okOS (fun _ _ => rfl)

end Mininet
